import Mathlib

/-!
# xmoji font handle: strike selection, glyph id sizing and batched glyph upload

A shallow embedding of `src/bin/xmoji/font.c`.

Conventions of the embedding:

* C `double` values (`pixelsize`, `fixedpixelsize`, deviations, scale factors) are
  the rationals they stand for, and every arithmetic operation on them is rounded to
  the nearest `double` (`roundDouble`); `HUGE_VAL` is the top element of `WithTop ℚ`.
* `uint32_t`/`unsigned` values are natural numbers, reduced modulo `2^32` at the
  places where the C expression can wrap; `uint16_t`/`int16_t` fields are
  reduced modulo `2^16`. `size_t` sums (payload positions) are not reduced: they
  are sums of fewer than `2^32` terms below `2^32`.
* Memory reached through a pointer (`uploaded[]`, `bitmapdata`, `maskdata`, the
  FreeType bitmap buffer) is a function from index to value.
* FreeType, the X connection and the `CHECK` wrapper are not part of the
  sources at hand; they enter as parameters (`Face`, `Transport`, `check`).
-/

namespace Xmoji

/-! ## Data model -/

/-- Rendering mode of a font handle (`FontGlyphType`, used by name in `font.c`). -/
inductive FontGlyphType where
  | FGT_OUTLINE
  | FGT_BITMAP_GRAY
  | FGT_BITMAP_BGRA
  deriving DecidableEq, Repr

/-- What `font.c` reads from `face->glyph` after `FT_Render_Glyph`: the bitmap
origin, its dimensions, its pitch and its bytes. -/
structure GlyphSlot where
  bitmap_left : Int
  bitmap_top : Int
  width : Nat
  rows : Nat
  pitch : Int
  buffer : Int → Nat

/-- The FreeType face as `font.c` uses it. `load index loadflags` tells whether
`FT_Load_Glyph` returned 0; `render index loadflags xshift` is the glyph slot after
the optional `FT_Outline_Translate(&slot->outline, xshift, 0)` (`xshift = 0` when
the source does not translate) and `FT_Render_Glyph`. -/
structure Face where
  num_glyphs : Int
  scalable : Bool
  color : Bool
  load : Nat → Int → Bool
  render : Nat → Int → Nat → GlyphSlot

/-- The fields of `struct Font` that sizing and upload read or write. -/
structure Font where
  face : Face
  glyphtype : FontGlyphType
  pixelsize : ℚ
  fixedpixelsize : ℚ
  glyphidbits : Nat
  subpixelbits : Nat
  glyphidmask : Nat
  subpixelmask : Nat
  uploaded : Nat → Nat

/-- One `xcb_render_glyphinfo_t` record: `width`, `height` are `uint16_t`, the
others `int16_t`. -/
structure GlyphInfo where
  width : Nat
  height : Nat
  x : Int
  y : Int
  x_off : Int
  y_off : Int

/-- The two glyph sets a handle can own. -/
inductive GlyphSet where
  | glyphset
  | maskglyphset
  deriving DecidableEq, Repr

/-- One `xcb_render_add_glyphs` request as issued by `Font_uploadGlyphs`: the
target glyph set, the id and metrics arrays (of equal length `glyphs_len`), the
payload length and the payload memory at the time of the call. -/
structure AddGlyphs where
  target : GlyphSet
  glyphids : List Nat
  glyphs : List GlyphInfo
  data_len : Nat
  data : Nat → Nat

/-- Sizes that come from the X headers and the connection:
`sizeof (xcb_render_add_glyphs_request_t)`, `sizeof (xcb_render_glyphinfo_t)` and
`X11Adapter_maxRequestSize()`. -/
structure Transport where
  requestSize : Nat
  glyphinfoSize : Nat
  maxRequestSize : Nat

/-- Size of one glyph id, `sizeof *glyphids` with `uint32_t *glyphids`. -/
def glyphidSize : Nat := 4

/-- The values of the X render headers: a 12 byte request header and 12 byte
glyph metrics records. -/
def xcbTransport (maxRequestSize : Nat) : Transport :=
  { requestSize := 12, glyphinfoSize := 12, maxRequestSize := maxRequestSize }

/-! ## Integer conversions -/

/-- Conversion of an `int` to `uint32_t`. -/
def toUInt32 (v : Int) : Nat := (v % 4294967296).toNat

/-- Conversion of a `uint32_t` to `uint16_t`. -/
def toUInt16 (v : Nat) : Nat := v % 65536

/-- Conversion of a `uint32_t` to `int16_t` (two's complement). -/
def toInt16 (v : Nat) : Int :=
  if v % 65536 < 32768 then ((v % 65536 : Nat) : Int) else ((v % 65536 : Nat) : Int) - 65536

/-- Conversion of a non-negative `double` to `unsigned`: truncation, then reduction
to 32 bits. -/
def truncUInt32 (q : ℚ) : Nat := (Int.toNat ⌊q⌋) % 4294967296

/-! ## Double precision

A C `double` is modelled by the rational number it stands for; each arithmetic operation
of the source on `double`s is the exact operation followed by `roundDouble`, the
rounding to the nearest `double` with ties to even (every operation is rounded once, to
64 bits). Comparisons of `double`s are comparisons of their values. Results beyond the
largest finite `double` are not cut off. -/

/-- Rounding of a rational to the nearest integer, ties to even. -/
def roundHalfEven (q : ℚ) : Int :=
  if q - ⌊q⌋ < 1 / 2 then ⌊q⌋
  else if 1 / 2 < q - ⌊q⌋ then ⌊q⌋ + 1
  else if ⌊q⌋ % 2 = 0 then ⌊q⌋ else ⌊q⌋ + 1

/-- Exponent of the unit in the last place of a `double` of the magnitude of `q`: 52
below the binary exponent of `q`, which is taken to be at least -1022. -/
def ulpExponent (q : ℚ) : Int := max (Int.log 2 |q|) (-1022) - 52

/-- The `double` nearest to `q`, ties to even: the value of an arithmetic operation on
`double`s whose exact result is `q`. -/
def roundDouble (q : ℚ) : ℚ :=
  (roundHalfEven (q / 2 ^ ulpExponent q) : ℚ) * 2 ^ ulpExponent q

/-! ## `Font_create`: strike selection -/

/-- Loop state of the fixed-size search in `Font_create`. -/
structure StrikeState where
  fixedpixelsize : ℚ
  bestdeviation : WithTop ℚ
  bestidx : Int

/-- Size of a strike in pixels, `(double)face->available_sizes[i].y_ppem / 64.`. -/
def strikeSize (y_ppem : Int) : ℚ := roundDouble (roundDouble (y_ppem : ℚ) / 64)

/-- Deviation of a strike of size `fpx` from the requested `pixelsize`,
`(fpx > pixelsize ? fpx / pixelsize : pixelsize / fpx) - 1.`, in `double`. -/
def strikeDeviation (pixelsize fpx : ℚ) : ℚ :=
  roundDouble ((if fpx > pixelsize then roundDouble (fpx / pixelsize)
    else roundDouble (pixelsize / fpx)) - 1)

/-- One iteration of `for (int i = 0; i < face->num_fixed_sizes; ++i)`; `y_ppem`
is `face->available_sizes[i].y_ppem`. -/
def strikeStep (pixelsize maxunscaleddeviation : ℚ) (st : StrikeState) (i : Nat)
    (y_ppem : Int) : StrikeState :=
  let fpx : ℚ := strikeSize y_ppem
  let dev : ℚ := strikeDeviation pixelsize fpx
  if st.bestidx < 0 ∨ (dev : WithTop ℚ) < st.bestdeviation ∨
      (fpx > st.fixedpixelsize ∧ st.bestdeviation > (maxunscaleddeviation : WithTop ℚ)) then
    { fixedpixelsize := fpx, bestdeviation := (dev : WithTop ℚ), bestidx := (i : Int) }
  else st

/-- The loop over the available sizes, from index `i` on. -/
def strikeLoop (pixelsize maxunscaleddeviation : ℚ) :
    List Int → Nat → StrikeState → StrikeState
  | [], _, st => st
  | y_ppem :: rest, i, st =>
      strikeLoop pixelsize maxunscaleddeviation rest (i + 1)
        (strikeStep pixelsize maxunscaleddeviation st i y_ppem)

/-- Result of the fixed-size branch of `Font_create`: the selected strike index,
its size, its deviation, and the pixel size the handle will use. -/
structure StrikeChoice where
  bestidx : Int
  fixedpixelsize : ℚ
  bestdeviation : WithTop ℚ
  pixelsize : ℚ

/-- The non-scalable branch of `Font_create` (lines 169-203): search
`available_sizes`, then replace `pixelsize` by the strike size when the best
deviation is within `maxunscaleddeviation`. `fixedpixelsize` is 0 on entry. -/
def Font_create_strike (available_sizes : List Int) (pixelsize maxunscaleddeviation : ℚ) :
    StrikeChoice :=
  let st := strikeLoop pixelsize maxunscaleddeviation available_sizes 0
    { fixedpixelsize := 0, bestdeviation := ⊤, bestidx := -1 }
  { bestidx := st.bestidx
    fixedpixelsize := st.fixedpixelsize
    bestdeviation := st.bestdeviation
    pixelsize := if st.bestdeviation ≤ (maxunscaleddeviation : WithTop ℚ)
      then st.fixedpixelsize else pixelsize }

/-! ## `Font_create`: id sizing and handle construction -/

/-- The sizing loop `while ((face->num_glyphs & glyphidmask) != face->num_glyphs)`
with `glyphidbits : uint8_t` and `glyphidmask : uint32_t`. The mask saturates
after 31 rounds, so a loop that has not stopped within the fuel never stops;
that case is `none`. -/
def glyphidLoop (num_glyphs : Int) : Nat → Nat → Nat → Option (Nat × Nat)
  | 0, _, _ => none
  | fuel + 1, glyphidbits, glyphidmask =>
      if Int.land num_glyphs (glyphidmask : Int) ≠ num_glyphs then
        glyphidLoop num_glyphs fuel ((glyphidbits + 1) % 256)
          (((glyphidmask <<< 1) % 4294967296) ||| 1)
      else some (glyphidbits, glyphidmask)

/-- Number of loop tests after which `glyphidmask` can no longer change: the masks
`2^1 - 1`, ..., `2^32 - 1` have all been tried. -/
def glyphidFuel : Nat := 32

/-- The tail of `Font_create` (lines 245-301) for an accepted face: sub-pixel bit
budget, id sizing, zeroed `uploaded[]`, glyph type and masks. -/
def Font_create_handle (subpixelbits : Nat) (face : Face) (pixelsize fixedpixelsize : ℚ) :
    Option Font :=
  let subpixelbits := if fixedpixelsize ≠ 0 then 0 else if subpixelbits > 6 then 6 else subpixelbits
  match glyphidLoop face.num_glyphs glyphidFuel 1 1 with
  | none => none
  | some (glyphidbits, glyphidmask) =>
    some
      { face := face
        glyphtype :=
          if fixedpixelsize ≠ 0 then
            (if face.color then FontGlyphType.FGT_BITMAP_BGRA else FontGlyphType.FGT_BITMAP_GRAY)
          else
            (if face.color then FontGlyphType.FGT_BITMAP_BGRA else FontGlyphType.FGT_OUTLINE)
        pixelsize := pixelsize
        fixedpixelsize := fixedpixelsize
        glyphidbits := glyphidbits
        subpixelbits := subpixelbits
        glyphidmask := glyphidmask
        subpixelmask := ((((1 <<< subpixelbits) % 4294967296) - 1) <<< glyphidbits) % 4294967296
        uploaded := fun _ => 0 }

/-- Modelled from the spec: the encoder of composite glyph ids lives in the callers
of `Font_uploadGlyphs`, which are not among the sources at hand; the data model
gives it as `(subpixelPhase << glyphIdBits) | baseGlyphIndex`. -/
def compositeId (glyphidbits baseIndex phase : Nat) : Nat :=
  (phase <<< glyphidbits) ||| baseIndex

/-! ## Scaling and filtering -/

/-- The scaling of a metric, `Font_scale`: identity without a fixed strike, else
`val * scale + 1.` with `scale = pixelsize / fixedpixelsize`, computed in `double` and
converted back to `uint32_t`. -/
def Font_scale (self : Font) (val : Nat) : Nat :=
  if self.fixedpixelsize = 0 then val
  else
    let scale : ℚ := roundDouble (self.pixelsize / self.fixedpixelsize)
    truncUInt32 (roundDouble (roundDouble ((val : ℚ) * scale) + 1))

/-- The FreeType load flags, `Font_ftLoadFlags`, with `FT_LOAD_DEFAULT = 0`,
`FT_LOAD_NO_BITMAP = 1 << 3` and `FT_LOAD_COLOR = 1 << 20`. -/
def Font_ftLoadFlags (self : Font) : Int :=
  match self.glyphtype with
  | FontGlyphType.FGT_OUTLINE => 8
  | FontGlyphType.FGT_BITMAP_BGRA => 1048576
  | FontGlyphType.FGT_BITMAP_GRAY => 0

/-- The 1x1 kernel. -/
def mid : List Nat := [1]

/-- The 3x3 kernel. -/
def m3x3 : List Nat := [1, 2, 1, 2, 3, 2, 1, 2, 1]

/-- The 5x5 kernel. -/
def m5x5 : List Nat :=
  [1, 2, 2, 2, 1, 2, 2, 3, 2, 2, 2, 3, 4, 3, 2, 2, 2, 3, 2, 2, 1, 2, 2, 2, 1]

/-- The clamped source read, `fetch`: all arguments are `int`. -/
def fetch (b : Int → Nat) (stride w h x y nc c : Int) : Nat :=
  let x := if x < 0 then 0 else x
  let x := if x ≥ w then w - 1 else x
  let y := if y < 0 then 0 else y
  let y := if y ≥ h then h - 1 else y
  b (stride * y + nc * x + c)

/-- The weighted average over a `k`x`k` neighbourhood, `filter`; `num` and `den` are
`uint32_t`, the result is the low byte. -/
def filter (k : Nat) (m : List Nat) (b : Int → Nat) (stride w h x y nc c : Int) : Nat :=
  let off : Int := ((k / 2 : Nat) : Int)
  let acc : Nat × Nat :=
    (List.range k).foldl (fun a my =>
      (List.range k).foldl (fun a mx =>
        let mv := m.getD (k * my + mx) 0
        ((a.1 + mv * fetch b stride w h (x + (mx : Int) - off) (y + (my : Int) - off) nc c)
            % 4294967296,
         (a.2 + mv) % 4294967296)) a) (0, 0)
  ((acc.1 + acc.2 / 2) % 4294967296 / acc.2) % 256

/-! ## `Font_uploadGlyphs` -/

/-- The test `self->uploaded[glyphid >> 5] & (1U << (glyphid & 0x1fU))`. -/
def isUploaded (uploaded : Nat → Nat) (glyphid : Nat) : Bool :=
  uploaded (glyphid >>> 5) &&& (1 <<< (glyphid &&& 31)) ≠ 0

/-- The update `self->uploaded[glyphid >> 5] |= 1U << (glyphid & 0x1fU)`. -/
def markUploaded (uploaded : Nat → Nat) (glyphid : Nat) : Nat → Nat :=
  Function.update uploaded (glyphid >>> 5)
    (uploaded (glyphid >>> 5) ||| (1 <<< (glyphid &&& 31)))

/-- The first loop of `Font_uploadGlyphs` (lines 447-454): `none` is the
`goto done` on an id above `glyphidmask | subpixelmask`, otherwise the ids whose
bit is clear are appended to `glyphids` in request order. -/
def collectGlyphids (self : Font) : List Nat → List Nat → Option (List Nat)
  | [], glyphids => some glyphids
  | glyphid :: rest, glyphids =>
      if glyphid > (self.glyphidmask ||| self.subpixelmask) then none
      else if isUploaded self.uploaded glyphid then collectGlyphids self rest glyphids
      else collectGlyphids self rest (glyphids ++ [glyphid])

/-- The slot the loop body works on: the base glyph `glyphid & glyphidmask`, in
outline mode translated by `glyphid >> glyphidbits << (6 - subpixelbits)`, rendered. -/
def renderSlot (self : Font) (glyphid : Nat) : GlyphSlot :=
  let xshift :=
    if self.glyphtype = FontGlyphType.FGT_OUTLINE then
      ((glyphid >>> self.glyphidbits) <<< (6 - self.subpixelbits)) % 4294967296
    else 0
  self.face.render (glyphid &&& self.glyphidmask) (Font_ftLoadFlags self) xshift

/-- The metrics record `glyphs[i]` (lines 488-491); `x_off` and `y_off` keep the 0
of the `memset`. -/
def glyphMetrics (self : Font) (slot : GlyphSlot) : GlyphInfo :=
  { x := toInt16 (Font_scale self (toUInt32 (-slot.bitmap_left)))
    y := toInt16 (Font_scale self (toUInt32 slot.bitmap_top))
    width := toUInt16 (Font_scale self slot.width)
    height := toUInt16 (Font_scale self slot.rows)
    x_off := 0
    y_off := 0 }

/-- The local `pixelsize` of the loop body: bytes per pixel. -/
def bytesPerPixel (self : Font) : Nat :=
  if self.glyphtype = FontGlyphType.FGT_BITMAP_BGRA then 4 else 1

/-- Rounding up to a multiple of 4, `(n + 3) & ~3`. -/
def align4 (n : Nat) : Nat := (n + 3) / 4 * 4

/-- The row stride, `unsigned stride = (glyphs[i].width * pixelsize + 3) & ~3`. -/
def strideOf (self : Font) (g : GlyphInfo) : Nat := align4 (g.width * bytesPerPixel self)

/-- The payload size, `size_t bitmapsz = stride * glyphs[i].height`, an `unsigned`
product. -/
def bitmapszOf (self : Font) (g : GlyphInfo) : Nat :=
  (strideOf self g * g.height) % 4294967296

/-- The mask row stride: `(glyphs[i].width + 3) & ~3` in color mode, else 0. -/
def maskstrideOf (self : Font) (g : GlyphInfo) : Nat :=
  if self.glyphtype = FontGlyphType.FGT_BITMAP_BGRA then align4 g.width else 0

/-- The mask payload size: `maskstride * glyphs[i].height` in color mode, else 0. -/
def maskszOf (self : Font) (g : GlyphInfo) : Nat :=
  if self.glyphtype = FontGlyphType.FGT_BITMAP_BGRA then
    (maskstrideOf self g * g.height) % 4294967296
  else 0

/-- Local state of `Font_uploadGlyphs` during and after the second loop, with the
requests issued so far (oldest first). `glyphs` holds the records written so far. -/
structure UploadState where
  uploaded : Nat → Nat
  glyphs : List GlyphInfo
  firstglyph : Nat
  bitmapdata : Nat → Nat
  maskdata : Nat → Nat
  bitmapdatasz : Nat
  maskdatasz : Nat
  bitmapdatapos : Nat
  maskdatapos : Nat
  calls : List AddGlyphs

/-- The flush shared by the loop body (lines 507-525, `last = i`) and the end of the
function (lines 601-617, `last = toupload`): the request to the primary glyph set,
the request to the mask glyph set when `maskdatapos` is non-zero, then the marking
loop over `glyphids[firstglyph .. last)`. `check n` tells whether `CHECK` lets the
function go on after the request number `n` of this call; when it does not, the
result is `false` and nothing is marked. -/
def sendBatch (check : Nat → Bool) (glyphids : List Nat) (last : Nat) (st : UploadState) :
    Bool × UploadState :=
  let ids := (glyphids.drop st.firstglyph).take (last - st.firstglyph)
  let infos := (st.glyphs.drop st.firstglyph).take (last - st.firstglyph)
  let st1 : UploadState :=
    { st with calls := st.calls ++
        [{ target := GlyphSet.glyphset, glyphids := ids, glyphs := infos,
           data_len := st.bitmapdatapos, data := st.bitmapdata }] }
  if check st.calls.length = false then (false, st1)
  else if st.maskdatapos ≠ 0 then
    let st2 : UploadState :=
      { st1 with calls := st1.calls ++
          [{ target := GlyphSet.maskglyphset, glyphids := ids, glyphs := infos,
             data_len := st.maskdatapos, data := st.maskdata }] }
    if check st1.calls.length = false then (false, st2)
    else (true, { st2 with uploaded := ids.foldl markUploaded st2.uploaded })
  else (true, { st1 with uploaded := ids.foldl markUploaded st1.uploaded })

/-- Zeroing `sz` bytes from `pos`, `memset(data + pos, 0, sz)`. -/
def memsetZero (data : Nat → Nat) (pos sz : Nat) : Nat → Nat :=
  fun a => if pos ≤ a ∧ a < pos + sz then 0 else data a

/-- Copying `n` bytes of the source bitmap from offset `src` to `dst`, `memcpy`. -/
def memcpyRow (data : Nat → Nat) (buffer : Int → Nat) (dst : Nat) (src : Int) (n : Nat) :
    Nat → Nat :=
  fun a => if dst ≤ a ∧ a < dst + n then buffer (src + ((a - dst : Nat) : Int)) else data a

/-- Kernel choice of the loop body (lines 544-561): the scale
`fixedpixelsize / pixelsize` in `double` (1 without a fixed strike), the kernel width
and the kernel. -/
def filterKernel (self : Font) : ℚ × Nat × List Nat :=
  let scale : ℚ :=
    if self.fixedpixelsize ≠ 0 then roundDouble (self.fixedpixelsize / self.pixelsize) else 1
  if scale > 4 then (scale, 5, m5x5)
  else if scale = 1 then (scale, 1, mid)
  else (scale, 3, m3x3)

/-- The source coordinate of an output coordinate,
`unsigned sx = scale * (double)x + scale / 2.`, computed in `double`. -/
def sourceCoord (scale : ℚ) (x : Nat) : Nat :=
  truncUInt32 (roundDouble (roundDouble (scale * (x : ℚ)) + roundDouble (scale / 2)))

/-- One round of the inner `x` loop of the resampling (lines 569-585), acting on the
pair `(bitmapdata, maskdata)`. -/
def writePixel (self : Font) (slot : GlyphSlot) (stride maskstride bitmapdatapos
    maskdatapos y x : Nat) (mem : (Nat → Nat) × (Nat → Nat)) : (Nat → Nat) × (Nat → Nat) :=
  let scale := (filterKernel self).1
  let k := (filterKernel self).2.1
  let m := (filterKernel self).2.2
  let dst := bitmapdatapos + (y * stride) % 4294967296
  let mask := maskdatapos + (y * maskstride) % 4294967296
  let sy : Int := (sourceCoord scale y : Nat)
  let sx : Int := (sourceCoord scale x : Nat)
  if self.glyphtype = FontGlyphType.FGT_BITMAP_BGRA then
    let d := (List.range 4).foldl (fun d b =>
      Function.update d (dst + (x * 4 + b))
        (filter k m slot.buffer slot.pitch slot.width slot.rows sx sy 4 b)) mem.1
    (Function.update d (dst + (x * 4 + 3)) 255,
     Function.update mem.2 (mask + x) (d (dst + (x * 4 + 3))))
  else
    (Function.update mem.1 (dst + x)
      (filter k m slot.buffer slot.pitch slot.width slot.rows sx sy 1 1), mem.2)

/-- The payload of one glyph (lines 542-597): resampling in the bitmap modes, a row
by row copy in outline mode. -/
def writeGlyph (self : Font) (slot : GlyphSlot) (g : GlyphInfo) (bitmapdatapos
    maskdatapos : Nat) (mem : (Nat → Nat) × (Nat → Nat)) : (Nat → Nat) × (Nat → Nat) :=
  let stride := strideOf self g
  let maskstride := maskstrideOf self g
  if self.glyphtype ≠ FontGlyphType.FGT_OUTLINE then
    (List.range g.height).foldl (fun mem y =>
      (List.range g.width).foldl (fun mem x =>
        writePixel self slot stride maskstride bitmapdatapos maskdatapos y x mem) mem) mem
  else
    ((List.range g.height).foldl (fun d y =>
      memcpyRow d slot.buffer (bitmapdatapos + (y * stride) % 4294967296)
        (toUInt32 ((y : Int) * slot.pitch)) (g.width * bytesPerPixel self)) mem.1, mem.2)

/-- The test before a glyph is added (lines 501-505). -/
def needsFlush (T : Transport) (i firstglyph bitmapdatapos bitmapsz : Nat) : Bool :=
  T.requestSize + (i - firstglyph) * (glyphidSize + T.glyphinfoSize) + bitmapdatapos + bitmapsz
    > T.maxRequestSize

/-- The flush inside the loop (lines 501-529): when the test fires, the pending
batch `glyphids[firstglyph .. i)` is sent and marked and a new batch starts at `i`.
The result is `false` when `CHECK` leaves the function. -/
def flushBatch (T : Transport) (check : Nat → Bool) (glyphids : List Nat) (i bitmapsz : Nat)
    (st : UploadState) : Bool × UploadState :=
  if needsFlush T i st.firstglyph st.bitmapdatapos bitmapsz then
    let r := sendBatch check glyphids i st
    (r.1, { r.2 with bitmapdatapos := 0, maskdatapos := 0, firstglyph := i })
  else (true, st)

/-- Growth of a payload buffer (lines 530-541): `realloc` to `pos + sz` bytes and
zeroing of the `sz` bytes from `pos` when the buffer is too small. -/
def growBuffer (data : Nat → Nat) (datasz pos sz : Nat) : (Nat → Nat) × Nat :=
  if pos + sz > datasz then (memsetZero data pos sz, pos + sz) else (data, datasz)

/-- The rest of a round (lines 530-599): buffer growth, the payload of the glyph,
and the advance of both positions. -/
def storeGlyph (self : Font) (slot : GlyphSlot) (g : GlyphInfo) (st : UploadState) :
    UploadState :=
  let grownB := growBuffer st.bitmapdata st.bitmapdatasz st.bitmapdatapos (bitmapszOf self g)
  let grownM := growBuffer st.maskdata st.maskdatasz st.maskdatapos (maskszOf self g)
  let mem := writeGlyph self slot g st.bitmapdatapos st.maskdatapos (grownB.1, grownM.1)
  { st with
    bitmapdata := mem.1
    maskdata := mem.2
    bitmapdatasz := grownB.2
    maskdatasz := grownM.2
    bitmapdatapos := st.bitmapdatapos + bitmapszOf self g
    maskdatapos := st.maskdatapos + maskszOf self g }

/-- One round of the second loop (lines 468-600) for index `i`. The result is
`false` when the round leaves the function through `goto done` (a failed
`FT_Load_Glyph`) or through `CHECK`. -/
def uploadBody (T : Transport) (check : Nat → Bool) (self : Font) (glyphids : List Nat)
    (i : Nat) (st : UploadState) : Bool × UploadState :=
  let glyphid := glyphids.getD i 0
  if self.face.load (glyphid &&& self.glyphidmask) (Font_ftLoadFlags self) = false then
    (false, st)
  else
    let slot := renderSlot self glyphid
    let g := glyphMetrics self slot
    let flushed := flushBatch T check glyphids i (bitmapszOf self g)
      { st with glyphs := st.glyphs ++ [g] }
    if flushed.1 = false then (false, flushed.2)
    else (true, storeGlyph self slot g flushed.2)

/-- The second loop, `n` rounds from index `i` on. -/
def uploadLoop (T : Transport) (check : Nat → Bool) (self : Font) (glyphids : List Nat) :
    Nat → Nat → UploadState → Bool × UploadState
  | 0, _, st => (true, st)
  | n + 1, i, st =>
      let r := uploadBody T check self glyphids i st
      if r.1 = false then (false, r.2)
      else uploadLoop T check self glyphids n (i + 1) r.2

/-- State on entry to the second loop. -/
def uploadInit (self : Font) : UploadState :=
  { uploaded := self.uploaded
    glyphs := []
    firstglyph := 0
    bitmapdata := fun _ => 0
    maskdata := fun _ => 0
    bitmapdatasz := 0
    maskdatasz := 0
    bitmapdatapos := 0
    maskdatapos := 0
    calls := [] }

/-- Outcome of `Font_uploadGlyphs`: the return code, the handle afterwards and the
`xcb_render_add_glyphs` requests issued, oldest first. -/
structure UploadResult where
  rc : Int
  self : Font
  calls : List AddGlyphs

/-- The function `Font_uploadGlyphs`; `glyphinfo` lists the `glyphid` fields of the
request array. -/
def Font_uploadGlyphs (T : Transport) (check : Nat → Bool) (self : Font)
    (glyphinfo : List Nat) : UploadResult :=
  match collectGlyphids self glyphinfo [] with
  | none => { rc := -1, self := self, calls := [] }
  | some glyphids =>
    if glyphids.length = 0 then { rc := 0, self := self, calls := [] }
    else
      let r := uploadLoop T check self glyphids glyphids.length 0 (uploadInit self)
      if r.1 = false then
        { rc := -1, self := { self with uploaded := r.2.uploaded }, calls := r.2.calls }
      else
        let f := sendBatch check glyphids glyphids.length r.2
        { rc := if f.1 then 0 else -1
          self := { self with uploaded := f.2.uploaded }
          calls := f.2.calls }

/-- The requests that went to the primary glyph set. -/
def primaryCalls (calls : List AddGlyphs) : List AddGlyphs :=
  calls.filter (fun c => c.target = GlyphSet.glyphset)

/-- Estimated encoded size of a request: header, one id and one metrics record per
glyph, payload. -/
def encodedSize (T : Transport) (c : AddGlyphs) : Nat :=
  T.requestSize + c.glyphids.length * (glyphidSize + T.glyphinfoSize) + c.data_len

/-- A sequence of `Font_uploadGlyphs` calls on one handle; each call comes with its
own request array and `CHECK` behaviour. The result is the handle at the end and
the requests of all calls in order. -/
def uploadSequence (T : Transport) :
    Font → List ((Nat → Bool) × List Nat) → Font × List AddGlyphs
  | self, [] => (self, [])
  | self, (check, glyphinfo) :: rest =>
      let r := Font_uploadGlyphs T check self glyphinfo
      let s := uploadSequence T r.self rest
      (s.1, r.calls ++ s.2)

/-! ## `Font_create`: metrics of the handle -/

/-- The face data `Font_create` reads when it sizes the handle: `face->bbox` and
`face->size->metrics`, all of type `long`. -/
structure FaceMetrics where
  xMin : Int
  xMax : Int
  yMin : Int
  yMax : Int
  ascender : Int
  descender : Int
  x_scale : Int
  y_scale : Int

/-- The fields `maxWidth`, `maxHeight` and `baseline` of `struct Font`, all `uint32_t`. -/
structure FontMetrics where
  maxWidth : Nat
  maxHeight : Nat
  baseline : Nat

/-- Conversion of a `double` to `long`: truncation toward zero. -/
def truncLong (q : ℚ) : Int := if 0 ≤ q then ⌊q⌋ else -⌊-q⌋

/-- The tail of `Font_create` that fills `maxWidth`, `maxHeight` and `baseline`, with the
rescaling of `x_scale` and `y_scale` that precedes it. `FT_MulFix` is the parameter
`mulFix`; `scale` stays 0 without a fixed strike. -/
def Font_create_metrics (mulFix : Int → Int → Int) (pixelsize fixedpixelsize : ℚ)
    (m : FaceMetrics) : FontMetrics :=
  let scale : ℚ := if fixedpixelsize ≠ 0 then roundDouble (pixelsize / fixedpixelsize) else 0
  let x_scale : Int :=
    if fixedpixelsize ≠ 0 then
      truncLong (roundDouble (roundDouble (roundDouble (m.x_scale : ℚ) * scale) + 1))
    else m.x_scale
  let y_scale : Int :=
    if fixedpixelsize ≠ 0 then
      truncLong (roundDouble (roundDouble (roundDouble (m.y_scale : ℚ) * scale) + 1))
    else m.y_scale
  let claimedheight : Nat :=
    if scale ≠ 0 then
      truncUInt32 (roundDouble (roundDouble
        (scale * roundDouble ((m.ascender - m.descender : Int) : ℚ)) + 1))
    else toUInt32 (m.ascender - m.descender)
  let maxWidth : Nat := toUInt32 (mulFix m.xMax x_scale - mulFix m.xMin x_scale)
  let maxHeight : Nat := toUInt32 (mulFix m.yMax y_scale - mulFix m.yMin y_scale)
  if maxHeight = 0 ∨ (claimedheight ≠ 0 ∧ maxHeight ≥ (claimedheight <<< 1) % 4294967296) then
    { maxWidth := maxWidth
      maxHeight := claimedheight
      baseline :=
        if scale ≠ 0 then
          truncUInt32 (roundDouble (roundDouble (scale * roundDouble (m.ascender : ℚ)) + 1))
        else toUInt32 m.ascender }
  else
    { maxWidth := maxWidth
      maxHeight := maxHeight
      baseline := toUInt32 (mulFix m.yMax y_scale) }

/-! ## `Font_create`: the search for a face -/

/-- What fontconfig and FreeType answer for one entry tried by the search loop of
`Font_create`. `named` tells whether the pattern string is not empty; `pixelsize` is
the value `FcPatternGetDouble(fcpat, FC_PIXEL_SIZE, 0, &pixelsize)` stores, if any;
`found` is `result == FcResultMatch`; `familyDiffers` is the test
`reqfamily && (!foundfamily || strcmp(reqfamily, foundfamily))`; `hasFile` tells whether
`FC_FILE` is present; `opened` is the face `FT_New_Face` stores when it returns 0;
`available_sizes` lists the `y_ppem` of its fixed sizes; `sizeSet` tells whether
`FT_Select_Size`, or `FT_Set_Char_Size` for a scalable face, returned 0. -/
structure Candidate where
  named : Bool
  pixelsize : Option ℚ
  found : Bool
  familyDiffers : Bool
  hasFile : Bool
  opened : Option Face
  available_sizes : List Int
  sizeSet : Bool

/-- The locals of `Font_create` that outlive the search loop. `face` is `none` as long
as the local `FT_Face face`, declared without initialiser, has not been assigned. -/
structure MatchState where
  ismatch : Bool
  face : Option Face
  pixelsize : ℚ
  fixedpixelsize : ℚ

/-- One round of the search loop of `Font_create` (lines 105-235). When `FT_New_Face`
fails the local `face` is left as it was. -/
def matchBody (maxunscaleddeviation : ℚ) (c : Candidate) (st : MatchState) : MatchState :=
  let pixelsize : ℚ := if c.named then c.pixelsize.getD st.pixelsize else st.pixelsize
  let ismatch : Bool := c.found
  let ismatch : Bool := if ismatch && c.named && c.familyDiffers then false else ismatch
  let ismatch : Bool := if ismatch && !c.hasFile then false else ismatch
  if ismatch then
    match c.opened with
    | some face =>
      if !face.scalable then
        let s := Font_create_strike c.available_sizes pixelsize maxunscaleddeviation
        { ismatch := c.sizeSet, face := some face, pixelsize := s.pixelsize,
          fixedpixelsize := s.fixedpixelsize }
      else
        { ismatch := c.sizeSet, face := some face, pixelsize := pixelsize,
          fixedpixelsize := 0 }
    | none => { ismatch := false, face := st.face, pixelsize := pixelsize,
                fixedpixelsize := 0 }
  else { ismatch := false, face := st.face, pixelsize := pixelsize, fixedpixelsize := 0 }

/-- The loop `while (!ismatch && ...)` over the entries still to try. -/
def matchLoop (maxunscaleddeviation : ℚ) : List Candidate → MatchState → MatchState
  | [], st => st
  | c :: rest, st =>
      if st.ismatch then st
      else matchLoop maxunscaleddeviation rest (matchBody maxunscaleddeviation c st)

/-- The search of `Font_create`: the entries of the pattern list in order, then the
default entry once (`defstep--`), until one is accepted. -/
def Font_create_match (maxunscaleddeviation defaultpixelsize : ℚ)
    (patterns : List Candidate) (dflt : Candidate) : MatchState :=
  matchLoop maxunscaleddeviation (patterns ++ [{ dflt with named := false }])
    { ismatch := false, face := none, pixelsize := defaultpixelsize, fixedpixelsize := 0 }

/-- How `Font_create` ends: with a handle, with a read of `face->num_glyphs` through the
never assigned local `face`, or inside the sizing loop, which does not stop. -/
inductive CreateResult where
  | handle (self : Font)
  | uninitialisedFace
  | endless

/-- The function `Font_create`: the search, the warning `if (!ismatch)`, which changes
nothing, and the construction of the handle from the locals the search left. -/
def Font_create (maxunscaleddeviation defaultpixelsize : ℚ) (subpixelbits : Nat)
    (patterns : List Candidate) (dflt : Candidate) : CreateResult :=
  let st := Font_create_match maxunscaleddeviation defaultpixelsize patterns dflt
  match st.face with
  | none => CreateResult.uninitialisedFace
  | some face =>
    match Font_create_handle subpixelbits face st.pixelsize st.fixedpixelsize with
    | none => CreateResult.endless
    | some self => CreateResult.handle self

/-! ## Derived notions used in the statements -/

/-- Bitwise order on `uploaded[]`: every bit set on the left is set on the right. -/
def BitsLe (u v : Nat → Nat) : Prop :=
  ∀ w b : Nat, (u w).testBit b = true → (v w).testBit b = true

/-- The metrics record the loop body computes for a glyph id. -/
def glyphOf (self : Font) (glyphid : Nat) : GlyphInfo :=
  glyphMetrics self (renderSlot self glyphid)

/-- The payload size the loop body computes for a glyph id (`bitmapsz`). -/
def payloadOf (self : Font) (glyphid : Nat) : Nat := bitmapszOf self (glyphOf self glyphid)

/-- The id lists of the requests to the primary glyph set, in order. -/
def batches (calls : List AddGlyphs) : List (List Nat) :=
  (primaryCalls calls).map (fun c => c.glyphids)

/-- Loop invariant of the second loop of `Font_uploadGlyphs` at index `i`. -/
structure UploadInv (T : Transport) (font : Font) (glyphids : List Nat) (i : Nat)
    (st : UploadState) : Prop where
  first_le : st.firstglyph ≤ i
  first_lt : 0 < i → st.firstglyph < i
  pos_eq : st.bitmapdatapos =
    (((glyphids.take i).drop st.firstglyph).map (payloadOf font)).sum
  sent : (batches st.calls).flatten = glyphids.take st.firstglyph
  marked : st.uploaded = (glyphids.take st.firstglyph).foldl markUploaded font.uploaded
  quiet : primaryCalls st.calls = [] →
    st.firstglyph = 0 ∧
    (0 < i → T.requestSize + (i - 1) * (glyphidSize + T.glyphinfoSize) + st.bitmapdatapos
      ≤ T.maxRequestSize)
  nonempty : T.requestSize + payloadOf font (glyphids.getD 0 0) ≤ T.maxRequestSize →
    ∀ b ∈ batches st.calls, b ≠ []

/-- The ids of a request array whose bit is clear in `uploaded[]`, in request order:
what the first loop leaves in `glyphids`. -/
def pendingOf (self : Font) (glyphinfo : List Nat) : List Nat :=
  glyphinfo.filter (fun g => !isUploaded self.uploaded g)

/-- The factor by which a fixed strike is scaled, 0 when no fixed strike is used. -/
def strikeScale (pixelsize fixedpixelsize : ℚ) : ℚ :=
  if fixedpixelsize ≠ 0 then roundDouble (pixelsize / fixedpixelsize) else 0

/-- The vertical scale `FT_MulFix` is applied with: `y_scale` of the face, rescaled
when a fixed strike is used. -/
def scaledYScale (pixelsize fixedpixelsize : ℚ) (m : FaceMetrics) : Int :=
  if fixedpixelsize ≠ 0 then
    truncLong (roundDouble (roundDouble
      (roundDouble (m.y_scale : ℚ) * strikeScale pixelsize fixedpixelsize) + 1))
  else m.y_scale

/-- The bounding-box height: scaled `yMax` minus scaled `yMin`, as `uint32_t`. -/
def boxHeight (mulFix : Int → Int → Int) (pixelsize fixedpixelsize : ℚ)
    (m : FaceMetrics) : Nat :=
  toUInt32 (mulFix m.yMax (scaledYScale pixelsize fixedpixelsize m)
    - mulFix m.yMin (scaledYScale pixelsize fixedpixelsize m))

/-- The claimed line height: ascender minus descender, scaled when a fixed strike is
scaled, as `uint32_t`. -/
def claimedHeight (pixelsize fixedpixelsize : ℚ) (m : FaceMetrics) : Nat :=
  if strikeScale pixelsize fixedpixelsize ≠ 0 then
    truncUInt32 (roundDouble (roundDouble (strikeScale pixelsize fixedpixelsize
      * roundDouble ((m.ascender - m.descender : Int) : ℚ)) + 1))
  else toUInt32 (m.ascender - m.descender)

/-- The ascender, scaled when a fixed strike is scaled, as `uint32_t`. -/
def scaledAscender (pixelsize fixedpixelsize : ℚ) (m : FaceMetrics) : Nat :=
  if strikeScale pixelsize fixedpixelsize ≠ 0 then
    truncUInt32 (roundDouble (roundDouble
      (strikeScale pixelsize fixedpixelsize * roundDouble (m.ascender : ℚ)) + 1))
  else toUInt32 m.ascender

/-- The scaled `yMax` of the bounding box, as `uint32_t`. -/
def scaledYMax (mulFix : Int → Int → Int) (pixelsize fixedpixelsize : ℚ)
    (m : FaceMetrics) : Nat :=
  toUInt32 (mulFix m.yMax (scaledYScale pixelsize fixedpixelsize m))

/-- The mask payload size the loop body computes for a glyph id (`masksz`). -/
def maskPayloadOf (self : Font) (glyphid : Nat) : Nat := maskszOf self (glyphOf self glyphid)

/-- Offset of the payload of the glyph at position `j` of a request: the payload sizes
of the glyphs before it. -/
def payloadOffset (self : Font) (ids : List Nat) (j : Nat) : Nat :=
  ((ids.take j).map (payloadOf self)).sum

/-- Offset of the mask payload of the glyph at position `j` of a request. -/
def maskOffset (self : Font) (ids : List Nat) (j : Nat) : Nat :=
  ((ids.take j).map (maskPayloadOf self)).sum

/-- The color payload of the glyphs `ids`, laid out one after the other in `data` and
`mdata`: every alpha byte of `data` is `0xff` and `mdata` holds, pixel by pixel, what
`filter` returns for channel 3 at the source position of the pixel. -/
def ColorPayload (self : Font) (ids : List Nat) (data mdata : Nat → Nat) : Prop :=
  ∀ j, j < ids.length → ∀ x y,
    x < (glyphOf self (ids.getD j 0)).width → y < (glyphOf self (ids.getD j 0)).height →
    data (payloadOffset self ids j + y * strideOf self (glyphOf self (ids.getD j 0))
      + (x * 4 + 3)) = 255 ∧
    mdata (maskOffset self ids j + y * maskstrideOf self (glyphOf self (ids.getD j 0)) + x)
      = filter (filterKernel self).2.1 (filterKernel self).2.2
          (renderSlot self (ids.getD j 0)).buffer (renderSlot self (ids.getD j 0)).pitch
          (renderSlot self (ids.getD j 0)).width (renderSlot self (ids.getD j 0)).rows
          ((sourceCoord (filterKernel self).1 x : Nat) : Int)
          ((sourceCoord (filterKernel self).1 y : Nat) : Int) 4 3

/-- What a request of a color handle carries: the metrics records of its glyphs, a
payload as long as the payloads of its glyphs together, and in it, glyph after glyph,
alpha bytes `0xff` (primary glyph set) or the filtered alpha values (mask glyph set). -/
def ColorRequest (self : Font) (c : AddGlyphs) : Prop :=
  c.glyphs = c.glyphids.map (glyphOf self) ∧
  (c.target = GlyphSet.glyphset →
    c.data_len = payloadOffset self c.glyphids c.glyphids.length) ∧
  (c.target = GlyphSet.maskglyphset →
    c.data_len = maskOffset self c.glyphids c.glyphids.length) ∧
  ∀ j, j < c.glyphids.length → ∀ x y,
    x < (glyphOf self (c.glyphids.getD j 0)).width →
    y < (glyphOf self (c.glyphids.getD j 0)).height →
    (c.target = GlyphSet.glyphset →
      c.data (payloadOffset self c.glyphids j
        + y * strideOf self (glyphOf self (c.glyphids.getD j 0)) + (x * 4 + 3)) = 255) ∧
    (c.target = GlyphSet.maskglyphset →
      c.data (maskOffset self c.glyphids j
        + y * maskstrideOf self (glyphOf self (c.glyphids.getD j 0)) + x)
      = filter (filterKernel self).2.1 (filterKernel self).2.2
          (renderSlot self (c.glyphids.getD j 0)).buffer
          (renderSlot self (c.glyphids.getD j 0)).pitch
          (renderSlot self (c.glyphids.getD j 0)).width
          (renderSlot self (c.glyphids.getD j 0)).rows
          ((sourceCoord (filterKernel self).1 x : Nat) : Int)
          ((sourceCoord (filterKernel self).1 y : Nat) : Int) 4 3)

/-- Every request to the primary glyph set that passed `CHECK` and has mask payload is
followed at once by the request to the mask glyph set for the same glyphs. -/
def MaskFollows (self : Font) (check : Nat → Bool) (calls : List AddGlyphs) : Prop :=
  ∀ n c, calls[n]? = some c → c.target = GlyphSet.glyphset → check n = true →
    maskOffset self c.glyphids c.glyphids.length ≠ 0 →
    ∃ m, calls[n + 1]? = some m ∧ m.target = GlyphSet.maskglyphset ∧
      m.glyphids = c.glyphids

/-- Invariant of the second loop in color mode: the payload buffers hold the color
payload of the pending batch `glyphids[firstglyph .. i)`, and both positions stand
behind it. -/
structure PayloadInv (font : Font) (glyphids : List Nat) (i : Nat) (st : UploadState) :
    Prop where
  first_le : st.firstglyph ≤ i
  bpos_eq : st.bitmapdatapos =
    payloadOffset font ((glyphids.drop st.firstglyph).take (i - st.firstglyph))
      ((glyphids.drop st.firstglyph).take (i - st.firstglyph)).length
  mpos_eq : st.maskdatapos =
    maskOffset font ((glyphids.drop st.firstglyph).take (i - st.firstglyph))
      ((glyphids.drop st.firstglyph).take (i - st.firstglyph)).length
  pending : ColorPayload font ((glyphids.drop st.firstglyph).take (i - st.firstglyph))
    st.bitmapdata st.maskdata

/-! ## Concrete inputs for the examples -/

/-- A scalable, colourless face with 100 glyphs; every glyph loads and renders as
a `w` by `h` bitmap at the origin. -/
def sampleFace (w h : Nat) : Face :=
  { num_glyphs := 100
    scalable := true
    color := false
    load := fun _ _ => true
    render := fun _ _ _ =>
      { bitmap_left := 0, bitmap_top := 0, width := w, rows := h, pitch := w,
        buffer := fun _ => 0 } }

/-- The handle `Font_create` builds for `sampleFace w h` at pixel size 12 without
sub-pixel positioning: 7 id bits, nothing uploaded. -/
def sampleFont (w h : Nat) : Font :=
  { face := sampleFace w h
    glyphtype := FontGlyphType.FGT_OUTLINE
    pixelsize := 12
    fixedpixelsize := 0
    glyphidbits := 7
    subpixelbits := 0
    glyphidmask := 127
    subpixelmask := 0
    uploaded := fun _ => 0 }

/-- A `CHECK` that never leaves the function. -/
def checkPass : Nat → Bool := fun _ => true

/-- A `CHECK` that leaves the function at the first request. -/
def checkFail : Nat → Bool := fun _ => false

/-- The handle `sampleFont 4 1` after glyph 5 has been uploaded. -/
def sampleUploaded : Font :=
  (Font_uploadGlyphs (xcbTransport 16384) checkPass (sampleFont 4 1) [5]).self

/-- The call sequences in which every `CHECK` lets the function go on and no request
array names an id with a clear bit (at the time of its call) more than once. -/
def FreshOnce (T : Transport) : Font → List ((Nat → Bool) × List Nat) → Prop
  | _, [] => True
  | self, (check, glyphinfo) :: rest =>
      (∀ n, check n = true) ∧ (pendingOf self glyphinfo).Nodup ∧
      FreshOnce T (Font_uploadGlyphs T check self glyphinfo).self rest

/-- The handle `Font_create` builds for `sampleFace 4 1` at pixel size 12 with a
sub-pixel budget of 2 bits: ids have 7 index bits and 2 phase bits. -/
def sampleSubpixel : Font :=
  { face := sampleFace 4 1
    glyphtype := FontGlyphType.FGT_OUTLINE
    pixelsize := 12
    fixedpixelsize := 0
    glyphidbits := 7
    subpixelbits := 2
    glyphidmask := 127
    subpixelmask := 384
    uploaded := fun _ => 0 }

/-- What the fixed-size search has established after the strikes `seen`: nothing was
selected yet, or the selected strike is an element of the list with its size and
deviation recorded, and either it is within the threshold and has the least deviation
seen, or no strike seen is within the threshold. -/
def StrikeInv (pixelsize maxunscaleddeviation : ℚ) (sizes seen : List Int)
    (st : StrikeState) : Prop :=
  (seen = [] ∧ st.bestidx < 0) ∨
  ∃ (j : Nat) (y : Int), st.bestidx = (j : Int) ∧ sizes[j]? = some y ∧ y ∈ seen ∧
    st.fixedpixelsize = strikeSize y ∧
    st.bestdeviation = ((strikeDeviation pixelsize (strikeSize y) : ℚ) : WithTop ℚ) ∧
    ((strikeDeviation pixelsize (strikeSize y) ≤ maxunscaleddeviation ∧
        ∀ z ∈ seen, strikeDeviation pixelsize (strikeSize y)
          ≤ strikeDeviation pixelsize (strikeSize z)) ∨
     (maxunscaleddeviation < strikeDeviation pixelsize (strikeSize y) ∧
        ∀ z ∈ seen, maxunscaleddeviation < strikeDeviation pixelsize (strikeSize z)))

/-- What the flush test guarantees about request sizes when every glyph fits behind
the request header: the pending batch and every request sent so far stay within the
maximum request size once the id and metrics record of one glyph is left out. -/
def UploadBound (T : Transport) (i : Nat) (st : UploadState) : Prop :=
  (0 < i → T.requestSize + (i - 1 - st.firstglyph) * (glyphidSize + T.glyphinfoSize)
      + st.bitmapdatapos ≤ T.maxRequestSize) ∧
  ∀ c ∈ primaryCalls st.calls,
    T.requestSize + (c.glyphids.length - 1) * (glyphidSize + T.glyphinfoSize) + c.data_len
      ≤ T.maxRequestSize

/-- The number of 32 bit words `Font_create` allocates for `uploaded[]`,
`1U << (glyphidbits + subpixelbits - 5)` (line 257). The shift count is an `int`; for
a count outside `0 .. 31` the C expression has no defined value, which is `none`. -/
def uploadedWords (glyphidbits subpixelbits : Nat) : Option Nat :=
  if 0 ≤ (glyphidbits : Int) + (subpixelbits : Int) - 5 ∧
      (glyphidbits : Int) + (subpixelbits : Int) - 5 < 32 then
    some (1 <<< ((glyphidbits : Int) + (subpixelbits : Int) - 5).toNat)
  else none

/-- A scalable, colourless face with 10 glyphs; every glyph loads and renders as a
4 by 1 bitmap. -/
def tinyFace : Face :=
  { num_glyphs := 10
    scalable := true
    color := false
    load := fun _ _ => true
    render := fun _ _ _ =>
      { bitmap_left := 0, bitmap_top := 0, width := 4, rows := 1, pitch := 4,
        buffer := fun _ => 0 } }

/-- The handle `Font_create` builds for `tinyFace` without sub-pixel positioning: 4 id
bits. -/
def tinyFont : Font :=
  { face := tinyFace
    glyphtype := FontGlyphType.FGT_OUTLINE
    pixelsize := 12
    fixedpixelsize := 0
    glyphidbits := 4
    subpixelbits := 0
    glyphidmask := 15
    subpixelmask := 0
    uploaded := fun _ => 0 }

/-- A fixed-strike, colourless face with 100 glyphs; every glyph loads and renders as a
`w` by `h` bitmap whose left bearing is `left`, with source bytes given by `buffer`. -/
def strikeFace (w h : Nat) (left : Int) (buffer : Int → Nat) : Face :=
  { num_glyphs := 100
    scalable := false
    color := false
    load := fun _ _ => true
    render := fun _ _ _ =>
      { bitmap_left := left, bitmap_top := 0, width := w, rows := h, pitch := w,
        buffer := buffer } }

/-- The handle `Font_create` builds for `strikeFace` when the strike of size
`fixedpixelsize` is scaled to `pixelsize`: gray mode, 7 id bits, no sub-pixel bits. -/
def strikeFont (w h : Nat) (left : Int) (buffer : Int → Nat) (pixelsize fixedpixelsize : ℚ) :
    Font :=
  { face := strikeFace w h left buffer
    glyphtype := FontGlyphType.FGT_BITMAP_GRAY
    pixelsize := pixelsize
    fixedpixelsize := fixedpixelsize
    glyphidbits := 7
    subpixelbits := 0
    glyphidmask := 127
    subpixelmask := 0
    uploaded := fun _ => 0 }

/-- A scalable face with embedded color glyphs and 100 glyphs; every glyph loads and
renders as a `w` by `h` BGRA bitmap (pitch `4 * w`) whose bytes are given by `buffer`. -/
def colorFace (w h : Nat) (buffer : Int → Nat) : Face :=
  { num_glyphs := 100
    scalable := true
    color := true
    load := fun _ _ => true
    render := fun _ _ _ =>
      { bitmap_left := 0, bitmap_top := 0, width := w, rows := h, pitch := 4 * w,
        buffer := buffer } }

/-- The handle `Font_create` builds for `colorFace`: color mode, no fixed strike, 7 id
bits. -/
def colorFont (w h : Nat) (buffer : Int → Nat) : Font :=
  { face := colorFace w h buffer
    glyphtype := FontGlyphType.FGT_BITMAP_BGRA
    pixelsize := 12
    fixedpixelsize := 0
    glyphidbits := 7
    subpixelbits := 0
    glyphidmask := 127
    subpixelmask := 0
    uploaded := fun _ => 0 }

/-- A color handle whose glyphs are 2 by 1 pixels with source byte `a % 256` at offset
`a`. -/
def colorSample : Font := colorFont 2 1 (fun a => a.toNat % 256)

/-- The slot rendered for glyph 1 of `colorSample`. -/
def colorSlot : GlyphSlot := renderSlot colorSample 1

/-- Source bytes of a 2 by 1 gray bitmap, 10 and 20; every other offset reads 99. -/
def grayBytes : Int → Nat := fun a => if a = 0 then 10 else if a = 1 then 20 else 99

/-- A gray handle that uses the strike of size 16 unscaled; glyphs are 2 by 1 pixels with
the bytes `grayBytes`. -/
def graySample : Font := strikeFont 2 1 0 grayBytes 16 16

/-- The slot rendered for glyph 1 of `graySample`. -/
def graySlot : GlyphSlot := renderSlot graySample 1

/-- A scalable, colourless face with 100 glyphs whose glyph 7 fails to load; every other
glyph renders as a `w` by `h` bitmap. -/
def failFace (w h : Nat) : Face :=
  { num_glyphs := 100
    scalable := true
    color := false
    load := fun index _ => decide (index ≠ 7)
    render := fun _ _ _ =>
      { bitmap_left := 0, bitmap_top := 0, width := w, rows := h, pitch := w,
        buffer := fun _ => 0 } }

/-- The handle `Font_create` builds for `failFace`. -/
def failFont (w h : Nat) : Font :=
  { face := failFace w h
    glyphtype := FontGlyphType.FGT_OUTLINE
    pixelsize := 12
    fixedpixelsize := 0
    glyphidbits := 7
    subpixelbits := 0
    glyphidmask := 127
    subpixelmask := 0
    uploaded := fun _ => 0 }

/-- A 16.16 fixed-point product rounded to nearest, computed on absolute values. -/
def mulFixRound (a b : Int) : Int :=
  Int.sign a * Int.sign b * (((a.natAbs * b.natAbs + 32768) / 65536 : Nat) : Int)

/-- Metrics of a face with 2048 units per em sized to 16 pixels: box from -500 to 1900
units, ascender 15 and descender -4 pixels in 26.6 fixed point. -/
def plainMetrics : FaceMetrics :=
  { xMin := -100, xMax := 2100, yMin := -500, yMax := 1900,
    ascender := 960, descender := -256, x_scale := 32768, y_scale := 32768 }

/-- Metrics of a face whose box spans 10 pixels but whose ascender and descender are
both 0. -/
def flatMetrics : FaceMetrics :=
  { xMin := 0, xMax := 640, yMin := 0, yMax := 640,
    ascender := 0, descender := 0, x_scale := 65536, y_scale := 65536 }

/-- An entry for which fontconfig finds a file and FreeType opens the scalable face
`sampleFace 4 4`, but `FT_Set_Char_Size` fails. -/
def unsizedCandidate : Candidate :=
  { named := false, pixelsize := none, found := true, familyDiffers := false,
    hasFile := true, opened := some (sampleFace 4 4), available_sizes := [],
    sizeSet := false }

/-- An entry for which fontconfig finds nothing. -/
def absentCandidate : Candidate :=
  { named := true, pixelsize := none, found := false, familyDiffers := false,
    hasFile := false, opened := none, available_sizes := [], sizeSet := false }

/-- The `double` written `0.1`, the threshold of the examples. -/
def tenth : ℚ := 3602879701896397 / 36028797018963968

/-! ## Rounding to `double` -/

theorem roundHalfEven_intCast (n : Int) : roundHalfEven (n : ℚ) = n := by
  unfold roundHalfEven
  simp

theorem roundHalfEven_of_near (q : ℚ) (n : Int) (h : |q - n| < 1 / 2) :
    roundHalfEven q = n := by
  rw [abs_lt] at h
  unfold roundHalfEven
  by_cases hq : (n : ℚ) ≤ q
  · have hf : ⌊q⌋ = n := by
      rw [Int.floor_eq_iff]
      constructor
      · exact hq
      · linarith [h.2]
    rw [hf, if_pos (by linarith [h.2])]
  · have hf : ⌊q⌋ = n - 1 := by
      rw [Int.floor_eq_iff]
      push_cast
      constructor
      · linarith [h.1]
      · linarith
    rw [hf]
    push_cast
    rw [if_neg (by linarith [h.1]), if_pos (by linarith [h.1])]
    ring

theorem ulpExponent_of_binade (q : ℚ) (k : Int) (hk : -1022 ≤ k) (h1 : (2 : ℚ) ^ k ≤ |q|)
    (h2 : |q| < (2 : ℚ) ^ (k + 1)) : ulpExponent q = k - 52 := by
  have hpos : 0 < |q| := lt_of_lt_of_le (by positivity) h1
  have hlog : Int.log 2 |q| = k := by
    apply le_antisymm
    · have := (Int.lt_zpow_iff_log_lt (by norm_num : 1 < 2) hpos).1 (by exact_mod_cast h2)
      omega
    · exact (Int.zpow_le_iff_le_log (by norm_num : 1 < 2) hpos).1 (by exact_mod_cast h1)
  unfold ulpExponent
  rw [hlog, max_eq_left hk]

/-- How a rounded value is found: `q` lies in the binade of `2 ^ k` and within half a
unit in the last place of `n * 2 ^ (k - 52)`. -/
theorem roundDouble_eq (q : ℚ) (k n : Int) (hk : -1022 ≤ k) (h1 : (2 : ℚ) ^ k ≤ |q|)
    (h2 : |q| < (2 : ℚ) ^ (k + 1)) (h3 : |q / 2 ^ (k - 52) - n| < 1 / 2) :
    roundDouble q = (n : ℚ) * 2 ^ (k - 52) := by
  unfold roundDouble
  rw [ulpExponent_of_binade q k hk h1 h2, roundHalfEven_of_near _ n h3]

theorem ulpExponent_le (q : ℚ) (e : Int) (he : -1074 ≤ e) (hq : |q| < (2 : ℚ) ^ (e + 53))
    (h0 : q ≠ 0) : ulpExponent q ≤ e := by
  have hpos : 0 < |q| := abs_pos.mpr h0
  have := (Int.lt_zpow_iff_log_lt (by norm_num : 1 < 2) hpos).1 (by exact_mod_cast hq)
  unfold ulpExponent
  rcases max_cases (Int.log 2 |q|) (-1022) with ⟨h, _⟩ | ⟨h, _⟩ <;> rw [h] <;> omega

/-- A number `n * 2 ^ e` with `|n| < 2 ^ 53` and `e ≥ -1074` is a `double`: rounding
leaves it as it is. -/
theorem roundDouble_dyadic (n e : Int) (hn : |n| < 2 ^ 53) (he : -1074 ≤ e) :
    roundDouble ((n : ℚ) * 2 ^ e) = (n : ℚ) * 2 ^ e := by
  by_cases h0 : n = 0
  · subst h0
    unfold roundDouble roundHalfEven
    simp
  have h2 : (0 : ℚ) < 2 := by norm_num
  have hq0 : (n : ℚ) * 2 ^ e ≠ 0 := by
    apply mul_ne_zero
    · exact_mod_cast h0
    · exact zpow_ne_zero _ (by norm_num)
  have hlt : |(n : ℚ) * 2 ^ e| < (2 : ℚ) ^ (e + 53) := by
    rw [abs_mul, abs_of_pos (zpow_pos h2 e), add_comm, zpow_add₀ (by norm_num : (2 : ℚ) ≠ 0)]
    apply mul_lt_mul_of_pos_right _ (zpow_pos h2 e)
    have : ((|n| : Int) : ℚ) < ((2 ^ 53 : Int) : ℚ) := by exact_mod_cast hn
    push_cast at this
    norm_num at this ⊢
    exact this
  have hu := ulpExponent_le _ e he hlt hq0
  unfold roundDouble
  generalize ulpExponent ((n : ℚ) * 2 ^ e) = u at hu ⊢
  obtain ⟨d, hd⟩ : ∃ d : Nat, e = u + d := ⟨(e - u).toNat, by omega⟩
  have hu0 : (2 : ℚ) ^ u ≠ 0 := zpow_ne_zero _ (by norm_num)
  have hdiv : (n : ℚ) * 2 ^ e / 2 ^ u = ((n * 2 ^ d : Int) : ℚ) := by
    rw [hd, zpow_add₀ (by norm_num : (2 : ℚ) ≠ 0), zpow_natCast]
    push_cast
    field_simp
    ring
  rw [hdiv, roundHalfEven_intCast, hd, zpow_add₀ (by norm_num : (2 : ℚ) ≠ 0), zpow_natCast]
  push_cast
  ring

theorem roundDouble_intCast (n : Int) (hn : |n| < 2 ^ 53) : roundDouble (n : ℚ) = n := by
  have := roundDouble_dyadic n 0 hn (by norm_num)
  simpa using this

theorem roundDouble_natCast (n : Nat) (hn : n < 2 ^ 53) : roundDouble (n : ℚ) = n := by
  have := roundDouble_intCast (n : Int) (by rw [abs_of_nonneg (by positivity)]; exact_mod_cast hn)
  simpa using this

theorem roundDouble_one : roundDouble 1 = 1 := by
  have := roundDouble_natCast 1 (by norm_num)
  simpa using this

theorem roundDouble_half : roundDouble (1 / 2) = 1 / 2 := by
  have := roundDouble_dyadic 1 (-1) (by norm_num) (by norm_num)
  norm_num at this ⊢
  exact this

theorem roundDouble_natCast_add_half (x : Nat) (hx : x < 2 ^ 52) :
    roundDouble ((x : ℚ) + 1 / 2) = (x : ℚ) + 1 / 2 := by
  have hlt : |((2 * x + 1 : Nat) : Int)| < 2 ^ 53 := by
    rw [abs_of_nonneg (by positivity)]
    have : 2 * x + 1 < 2 ^ 53 := by omega
    exact_mod_cast this
  have h := roundDouble_dyadic ((2 * x + 1 : Nat) : Int) (-1) hlt (by norm_num)
  have e : ((((2 * x + 1 : Nat) : Int)) : ℚ) * 2 ^ (-1 : Int) = (x : ℚ) + 1 / 2 := by
    push_cast
    rw [zpow_neg, zpow_one]
    ring
  rw [e] at h
  exact h

/-- At scale 1 the source coordinate is the output coordinate. -/
theorem sourceCoord_one (x : Nat) (hx : x < 4294967296) : sourceCoord 1 x = x := by
  unfold sourceCoord truncUInt32
  rw [one_mul, roundDouble_natCast x (by omega), roundDouble_half,
    roundDouble_natCast_add_half x (by omega)]
  have : ⌊(x : ℚ) + 1 / 2⌋ = (x : Int) := by
    rw [Int.floor_eq_iff]
    constructor
    · push_cast; linarith
    · push_cast; linarith
  rw [this, Int.toNat_ofNat, Nat.mod_eq_of_lt hx]

/-- A strike size below 2^53 in 1/64 pixel is converted without rounding. -/
theorem strikeSize_eq (y : Int) (hy : |y| < 2 ^ 53) : strikeSize y = (y : ℚ) / 64 := by
  unfold strikeSize
  rw [roundDouble_intCast y hy]
  have h := roundDouble_dyadic y (-6) hy (by norm_num)
  have e : (y : ℚ) * 2 ^ (-6 : Int) = (y : ℚ) / 64 := by
    rw [zpow_neg]
    norm_num
    ring
  rw [e] at h
  exact h

theorem roundHalfEven_ge_floor (q : ℚ) : ⌊q⌋ ≤ roundHalfEven q := by
  unfold roundHalfEven
  split_ifs <;> omega

/-- Rounding does not go below a power of two that the number reaches. -/
theorem roundDouble_ge_zpow (q : ℚ) (k0 : Int) (hk0 : -1022 ≤ k0) (h : (2 : ℚ) ^ k0 ≤ q) :
    (2 : ℚ) ^ k0 ≤ roundDouble q := by
  have h2 : (0 : ℚ) < 2 := by norm_num
  have hq : 0 < q := lt_of_lt_of_le (zpow_pos h2 k0) h
  have habs : 0 < |q| := abs_pos.mpr (ne_of_gt hq)
  have hlog : k0 ≤ Int.log 2 |q| := by
    refine (Int.zpow_le_iff_le_log (by norm_num : 1 < 2) habs).1 ?_
    rw [abs_of_pos hq]
    exact_mod_cast h
  have hle : ((2 : ℕ) : ℚ) ^ Int.log 2 |q| ≤ |q| :=
    Int.zpow_log_le_self (by norm_num : 1 < 2) habs
  unfold roundDouble
  have he : ulpExponent q = Int.log 2 |q| - 52 := by
    unfold ulpExponent
    rw [max_eq_left (by omega)]
  rw [he]
  generalize Int.log 2 |q| = k at hlog hle
  rw [abs_of_pos hq] at hle
  have hle' : (2 : ℚ) ^ k ≤ q := by exact_mod_cast hle
  have hpe : (0 : ℚ) < 2 ^ (k - 52) := zpow_pos h2 _
  have h52 : (2 : ℚ) ^ (52 : Int) = 4503599627370496 := by norm_num
  have hsplit : (2 : ℚ) ^ k = 4503599627370496 * 2 ^ (k - 52) := by
    rw [← h52, ← zpow_add₀ (by norm_num : (2 : ℚ) ≠ 0)]
    congr 1
    omega
  have hdiv : ((4503599627370496 : Int) : ℚ) ≤ q / 2 ^ (k - 52) := by
    rw [le_div_iff₀ hpe]
    push_cast
    rw [← hsplit]
    exact hle'
  have hfl : (4503599627370496 : Int) ≤ ⌊q / 2 ^ (k - 52)⌋ := Int.le_floor.mpr hdiv
  have hn : (4503599627370496 : Int) ≤ roundHalfEven (q / 2 ^ (k - 52)) :=
    le_trans hfl (roundHalfEven_ge_floor _)
  have hn' : (4503599627370496 : ℚ) ≤ (roundHalfEven (q / 2 ^ (k - 52)) : ℚ) := by
    exact_mod_cast hn
  calc (2 : ℚ) ^ k0 ≤ 2 ^ k := zpow_le_zpow_right₀ (by norm_num) hlog
    _ = 4503599627370496 * 2 ^ (k - 52) := hsplit
    _ ≤ (roundHalfEven (q / 2 ^ (k - 52)) : ℚ) * 2 ^ (k - 52) :=
        mul_le_mul_of_nonneg_right hn' (le_of_lt hpe)

/-- A positive strike size stays positive when it is converted to pixels. -/
theorem strikeSize_pos (y : Int) (hy : 0 < y) : 0 < strikeSize y := by
  unfold strikeSize
  have h1 : (2 : ℚ) ^ (0 : Int) ≤ (y : ℚ) := by
    rw [zpow_zero]
    exact_mod_cast hy
  have h2 := roundDouble_ge_zpow _ 0 (by norm_num) h1
  rw [zpow_zero] at h2
  have h3 : (2 : ℚ) ^ (-6 : Int) ≤ roundDouble (y : ℚ) / 64 := by
    rw [zpow_neg]
    norm_num
    linarith
  have h4 := roundDouble_ge_zpow _ (-6) (by norm_num) h3
  exact lt_of_lt_of_le (by positivity) h4

/-! ## Bits of the uploaded set -/

theorem and_one_shiftLeft_ne_zero (x b : Nat) :
    (x &&& (1 <<< b) ≠ 0) ↔ x.testBit b = true := by
  rw [Nat.one_shiftLeft, Nat.and_two_pow]
  cases h : x.testBit b <;> simp

theorem isUploaded_iff (u : Nat → Nat) (g : Nat) :
    isUploaded u g = true ↔ (u (g >>> 5)).testBit (g &&& 31) = true := by
  unfold isUploaded
  rw [decide_eq_true_iff]
  exact and_one_shiftLeft_ne_zero _ _

theorem BitsLe.refl (u : Nat → Nat) : BitsLe u u := fun _ _ h => h

theorem BitsLe.trans {u v w : Nat → Nat} (h1 : BitsLe u v) (h2 : BitsLe v w) : BitsLe u w :=
  fun a b h => h2 a b (h1 a b h)

theorem BitsLe.isUploaded {u v : Nat → Nat} (h : BitsLe u v) {g : Nat}
    (hg : isUploaded u g = true) : isUploaded v g = true := by
  rw [isUploaded_iff] at hg ⊢
  exact h _ _ hg

theorem bitsLe_markUploaded (u : Nat → Nat) (g : Nat) : BitsLe u (markUploaded u g) := by
  intro w b h
  unfold markUploaded
  by_cases hw : w = g >>> 5
  · subst hw
    rw [Function.update_same, Nat.testBit_lor, h]
    rfl
  · rw [Function.update_noteq hw]
    exact h

theorem isUploaded_markUploaded_self (u : Nat → Nat) (g : Nat) :
    isUploaded (markUploaded u g) g = true := by
  rw [isUploaded_iff]
  unfold markUploaded
  rw [Function.update_same, Nat.testBit_lor, Nat.one_shiftLeft, Nat.testBit_two_pow_self]
  simp

theorem bitsLe_foldl_markUploaded (ids : List Nat) (u : Nat → Nat) :
    BitsLe u (ids.foldl markUploaded u) := by
  induction ids generalizing u with
  | nil => exact BitsLe.refl u
  | cons g rest ih => exact (bitsLe_markUploaded u g).trans (ih _)

theorem isUploaded_foldl_markUploaded (ids : List Nat) (u : Nat → Nat) (g : Nat)
    (hg : g ∈ ids) : isUploaded (ids.foldl markUploaded u) g = true := by
  induction ids generalizing u with
  | nil => cases hg
  | cons a rest ih =>
    rcases List.mem_cons.mp hg with h | h
    · subst h
      exact (bitsLe_foldl_markUploaded rest _).isUploaded (isUploaded_markUploaded_self u g)
    · exact ih _ h

/-- Marking a glyph id changes no other bit: any id whose bit is set afterwards was
set before or is the marked id. -/
theorem isUploaded_markUploaded_iff (u : Nat → Nat) (g h : Nat) :
    isUploaded (markUploaded u g) h = true ↔ (h = g ∨ isUploaded u h = true) := by
  rw [isUploaded_iff, isUploaded_iff]
  unfold markUploaded
  by_cases hw : h >>> 5 = g >>> 5
  · rw [hw, Function.update_same, Nat.testBit_lor, Nat.one_shiftLeft, Nat.testBit_two_pow]
    have key : (g &&& 31 = h &&& 31) ↔ h = g := by
      constructor
      · intro hb
        have h1 : h = (h >>> 5) * 32 + (h &&& 31) := by
          have := Nat.and_pow_two_sub_one_eq_mod h 5
          have e : h &&& 31 = h % 32 := by simpa using this
          rw [e, Nat.shiftRight_eq_div_pow]; omega
        have h2 : g = (g >>> 5) * 32 + (g &&& 31) := by
          have := Nat.and_pow_two_sub_one_eq_mod g 5
          have e : g &&& 31 = g % 32 := by simpa using this
          rw [e, Nat.shiftRight_eq_div_pow]; omega
        rw [h1, h2, hw, hb]
      · intro e; rw [e]
    simp only [Bool.or_eq_true, decide_eq_true_eq, key]
    tauto
  · rw [Function.update_noteq hw]
    constructor
    · intro hb; exact Or.inr hb
    · rintro (e | hb)
      · exact absurd (by rw [e]) hw
      · exact hb

/-! ## The first loop and the flush -/

theorem collectGlyphids_eq (self : Font) (l acc : List Nat) :
    collectGlyphids self l acc =
      if ∀ g ∈ l, g ≤ (self.glyphidmask ||| self.subpixelmask) then
        some (acc ++ l.filter (fun g => !isUploaded self.uploaded g))
      else none := by
  induction l generalizing acc with
  | nil => simp [collectGlyphids]
  | cons g rest ih =>
    unfold collectGlyphids
    by_cases hg : g > (self.glyphidmask ||| self.subpixelmask)
    · rw [if_pos hg, if_neg]
      intro hall
      exact absurd (hall g (List.mem_cons_self _ _)) (not_le.mpr hg)
    · rw [if_neg hg]
      have hg' : g ≤ (self.glyphidmask ||| self.subpixelmask) := not_lt.mp hg
      by_cases hu : isUploaded self.uploaded g = true
      · rw [if_pos hu, ih]
        simp [hg', hu]
      · rw [if_neg hu, ih]
        simp [hg', hu]

theorem primaryCalls_append (a b : List AddGlyphs) :
    primaryCalls (a ++ b) = primaryCalls a ++ primaryCalls b := by
  simp [primaryCalls]

theorem batches_append (a b : List AddGlyphs) : batches (a ++ b) = batches a ++ batches b := by
  simp [batches, primaryCalls_append]

/-- What `sendBatch` does to the request trace, whatever `CHECK` answers: exactly one
more request to the primary glyph set, with the ids `glyphids[firstglyph .. last)` and
the payload length `bitmapdatapos`. -/
theorem sendBatch_primaryCalls (check : Nat → Bool) (glyphids : List Nat) (last : Nat)
    (st : UploadState) :
    primaryCalls (sendBatch check glyphids last st).2.calls =
      primaryCalls st.calls ++
        [{ target := GlyphSet.glyphset
           glyphids := (glyphids.drop st.firstglyph).take (last - st.firstglyph)
           glyphs := (st.glyphs.drop st.firstglyph).take (last - st.firstglyph)
           data_len := st.bitmapdatapos
           data := st.bitmapdata }] := by
  unfold sendBatch
  dsimp only
  split_ifs <;> simp [primaryCalls]

theorem sendBatch_uploaded_of_true (check : Nat → Bool) (glyphids : List Nat) (last : Nat)
    (st : UploadState) (h : (sendBatch check glyphids last st).1 = true) :
    (sendBatch check glyphids last st).2.uploaded =
      ((glyphids.drop st.firstglyph).take (last - st.firstglyph)).foldl markUploaded
        st.uploaded := by
  unfold sendBatch at h ⊢
  dsimp only at h ⊢
  split_ifs at h ⊢ <;> simp_all

theorem sendBatch_uploaded_of_false (check : Nat → Bool) (glyphids : List Nat) (last : Nat)
    (st : UploadState) (h : (sendBatch check glyphids last st).1 = false) :
    (sendBatch check glyphids last st).2.uploaded = st.uploaded := by
  unfold sendBatch at h ⊢
  dsimp only at h ⊢
  split_ifs at h ⊢ <;> simp_all

theorem sendBatch_true_of_check (check : Nat → Bool) (hc : ∀ n, check n = true)
    (glyphids : List Nat) (last : Nat) (st : UploadState) :
    (sendBatch check glyphids last st).1 = true := by
  unfold sendBatch
  dsimp only
  split_ifs <;> simp_all

theorem sendBatch_firstglyph (check : Nat → Bool) (glyphids : List Nat) (last : Nat)
    (st : UploadState) :
    (sendBatch check glyphids last st).2.firstglyph = st.firstglyph ∧
    (sendBatch check glyphids last st).2.bitmapdatapos = st.bitmapdatapos := by
  unfold sendBatch
  dsimp only
  split_ifs <;> simp

theorem storeGlyph_fields (self : Font) (slot : GlyphSlot) (g : GlyphInfo) (st : UploadState) :
    (storeGlyph self slot g st).firstglyph = st.firstglyph ∧
    (storeGlyph self slot g st).calls = st.calls ∧
    (storeGlyph self slot g st).uploaded = st.uploaded ∧
    (storeGlyph self slot g st).bitmapdatapos = st.bitmapdatapos + bitmapszOf self g :=
  ⟨rfl, rfl, rfl, rfl⟩

/-- The effect of one successful round of the second loop on the fields that drive
batching. -/
theorem uploadBody_true {T : Transport} {check : Nat → Bool} {self : Font}
    {glyphids : List Nat} {i : Nat} {st st' : UploadState}
    (h : uploadBody T check self glyphids i st = (true, st')) :
    (needsFlush T i st.firstglyph st.bitmapdatapos (payloadOf self (glyphids.getD i 0)) = false ∧
      st'.firstglyph = st.firstglyph ∧ st'.calls = st.calls ∧ st'.uploaded = st.uploaded ∧
      st'.bitmapdatapos = st.bitmapdatapos + payloadOf self (glyphids.getD i 0)) ∨
    (needsFlush T i st.firstglyph st.bitmapdatapos (payloadOf self (glyphids.getD i 0)) = true ∧
      st'.firstglyph = i ∧
      st'.bitmapdatapos = payloadOf self (glyphids.getD i 0) ∧
      (sendBatch check glyphids i
        { st with glyphs := st.glyphs ++ [glyphOf self (glyphids.getD i 0)] }).1 = true ∧
      st'.calls = (sendBatch check glyphids i
        { st with glyphs := st.glyphs ++ [glyphOf self (glyphids.getD i 0)] }).2.calls ∧
      st'.uploaded = (sendBatch check glyphids i
        { st with glyphs := st.glyphs ++ [glyphOf self (glyphids.getD i 0)] }).2.uploaded) := by
  unfold uploadBody at h
  dsimp only at h
  by_cases hl : self.face.load (glyphids.getD i 0 &&& self.glyphidmask) (Font_ftLoadFlags self)
      = false
  · rw [if_pos hl] at h
    simp at h
  · rw [if_neg hl] at h
    by_cases h1 : (flushBatch T check glyphids i
        (bitmapszOf self (glyphMetrics self (renderSlot self (glyphids.getD i 0))))
        { st with glyphs := st.glyphs ++ [glyphMetrics self (renderSlot self (glyphids.getD i 0))] }).1
        = false
    · rw [if_pos h1] at h
      simp at h
    · rw [if_neg h1] at h
      simp only [Prod.mk.injEq, true_and] at h
      subst h
      unfold flushBatch at h1 ⊢
      dsimp only at h1 ⊢
      by_cases hf : needsFlush T i st.firstglyph st.bitmapdatapos
          (bitmapszOf self (glyphMetrics self (renderSlot self (glyphids.getD i 0)))) = true
      · right
        rw [if_pos hf] at h1 ⊢
        refine ⟨hf, rfl, ?_, ?_, rfl, rfl⟩
        · show 0 + _ = _
          rw [Nat.zero_add]; rfl
        · simpa [glyphOf] using h1
      · left
        rw [if_neg hf]
        refine ⟨by simpa [payloadOf, glyphOf] using hf, rfl, rfl, rfl, rfl⟩

/-- A round that leaves the function changes `uploaded[]` not at all. -/
theorem uploadBody_false_uploaded {T : Transport} {check : Nat → Bool} {self : Font}
    {glyphids : List Nat} {i : Nat} {st st' : UploadState}
    (h : uploadBody T check self glyphids i st = (false, st')) :
    st'.uploaded = st.uploaded := by
  unfold uploadBody at h
  dsimp only at h
  split_ifs at h with h1 h2
  · simp only [Prod.mk.injEq, true_and] at h
    subst h; rfl
  · simp only [Prod.mk.injEq, true_and] at h
    subst h
    unfold flushBatch at h2 ⊢
    dsimp only at h2 ⊢
    split_ifs at h2 ⊢ with h3
    · exact sendBatch_uploaded_of_false _ _ _ _ h2
  · simp at h

/-! ## The invariant of the second loop -/

theorem uploadInv_init (T : Transport) (self : Font) (glyphids : List Nat) :
    UploadInv T self glyphids 0 (uploadInit self) where
  first_le := Nat.le_refl 0
  first_lt := fun h => absurd h (Nat.lt_irrefl 0)
  pos_eq := by simp [uploadInit]
  sent := by simp [uploadInit, batches, primaryCalls]
  marked := by simp [uploadInit]
  quiet := fun _ => ⟨rfl, fun h => absurd h (Nat.lt_irrefl 0)⟩
  nonempty := by simp [uploadInit, batches, primaryCalls]

theorem take_succ_drop_of_le (l : List Nat) {f i : Nat} (hf : f ≤ i) (hi : i < l.length) :
    (l.take (i + 1)).drop f = (l.take i).drop f ++ [l.getD i 0] := by
  have h1 : l.take (i + 1) = l.take i ++ [l.getD i 0] := by
    rw [List.take_succ, List.getD_eq_getElem?_getD, List.getElem?_eq_getElem hi]
    rfl
  rw [h1, List.drop_append_of_le_length]
  rw [List.length_take]
  omega

theorem take_add_drop_take (l : List Nat) {f i : Nat} (hf : f ≤ i) :
    l.take f ++ (l.drop f).take (i - f) = l.take i := by
  have := List.take_add l f (i - f)
  rw [Nat.add_sub_cancel' hf] at this
  exact this.symm

theorem uploadBody_inv {T : Transport} {check : Nat → Bool} {self : Font}
    {glyphids : List Nat} {i : Nat} {st st' : UploadState} (hi : i < glyphids.length)
    (inv : UploadInv T self glyphids i st)
    (h : uploadBody T check self glyphids i st = (true, st')) :
    UploadInv T self glyphids (i + 1) st' := by
  rcases uploadBody_true h with ⟨hf, h1, h2, h3, h4⟩ | ⟨hf, h1, h4, hs, h2, h3⟩
  · -- the glyph joins the pending batch
    refine ⟨?_, ?_, ?_, ?_, ?_, ?_, ?_⟩
    · rw [h1]; exact Nat.le_succ_of_le inv.first_le
    · intro _; rw [h1]; exact Nat.lt_succ_of_le inv.first_le
    · rw [h4, h1, take_succ_drop_of_le glyphids inv.first_le hi, inv.pos_eq]
      simp
    · rw [h2, h1]; exact inv.sent
    · rw [h3, h1]; exact inv.marked
    · intro hq
      rw [h2] at hq
      obtain ⟨q1, q2⟩ := inv.quiet hq
      refine ⟨by rw [h1]; exact q1, fun _ => ?_⟩
      have hf' := hf
      unfold needsFlush at hf'
      rw [q1] at hf'
      simp only [decide_eq_false_iff_not, not_lt, Nat.sub_zero] at hf'
      rw [h4]
      simpa [Nat.add_assoc] using hf'
    · intro hn; rw [h2]; exact inv.nonempty hn
  · -- the pending batch is flushed and the glyph starts a new one
    have hcalls := sendBatch_primaryCalls check glyphids i
      { st with glyphs := st.glyphs ++ [glyphOf self (glyphids.getD i 0)] }
    have hup := sendBatch_uploaded_of_true check glyphids i
      { st with glyphs := st.glyphs ++ [glyphOf self (glyphids.getD i 0)] } hs
    rw [← h2] at hcalls
    rw [← h3] at hup
    dsimp only at hcalls hup
    have hb : batches st'.calls = batches st.calls ++
        [(glyphids.drop st.firstglyph).take (i - st.firstglyph)] := by
      unfold batches
      rw [hcalls]
      simp [batches]
    refine ⟨?_, ?_, ?_, ?_, ?_, ?_, ?_⟩
    · rw [h1]; exact Nat.le_succ i
    · intro _; rw [h1]; exact Nat.lt_succ_self i
    · rw [h4, h1, take_succ_drop_of_le glyphids (Nat.le_refl i) hi]
      have : (glyphids.take i).drop i = [] := by
        apply List.drop_eq_nil_of_le
        rw [List.length_take]; omega
      rw [this]; simp
    · rw [hb, List.flatten_append, inv.sent, h1]
      simp only [List.flatten_cons, List.flatten_nil, List.append_nil]
      exact take_add_drop_take glyphids inv.first_le
    · rw [hup, inv.marked, h1, ← List.foldl_append,
        take_add_drop_take glyphids inv.first_le]
    · intro hq
      rw [hcalls] at hq
      simp at hq
    · intro hn b hbm
      rw [hb] at hbm
      rcases List.mem_append.mp hbm with hbm | hbm
      · exact inv.nonempty hn b hbm
      · rw [List.mem_singleton] at hbm
        subst hbm
        rcases Nat.eq_zero_or_pos i with hi0 | hipos
        · -- a flush at index 0 needs a glyph that does not fit behind the header
          exfalso
          subst hi0
          have hfz : st.firstglyph = 0 := Nat.le_zero.mp inv.first_le
          have hpz : st.bitmapdatapos = 0 := by
            rw [inv.pos_eq]; simp
          unfold needsFlush at hf
          rw [hfz, hpz] at hf
          simp only [decide_eq_true_eq] at hf
          omega
        · have hlt := inv.first_lt hipos
          intro hnil
          have hlen := congrArg List.length hnil
          rw [List.length_take, List.length_drop] at hlen
          simp only [List.length_nil] at hlen
          omega

theorem uploadLoop_inv {T : Transport} {check : Nat → Bool} {self : Font}
    {glyphids : List Nat} (n : Nat) {i : Nat} {st st' : UploadState}
    (hi : i + n ≤ glyphids.length) (inv : UploadInv T self glyphids i st)
    (h : uploadLoop T check self glyphids n i st = (true, st')) :
    UploadInv T self glyphids (i + n) st' := by
  induction n generalizing i st with
  | zero =>
    unfold uploadLoop at h
    simp only [Prod.mk.injEq, true_and] at h
    subst h
    exact inv
  | succ n ih =>
    unfold uploadLoop at h
    dsimp only at h
    cases hb : uploadBody T check self glyphids i st with
    | mk ok st1 =>
      rw [hb] at h
      cases ok with
      | false => simp at h
      | true =>
        simp only [Bool.true_eq_false, if_false] at h
        have inv1 := uploadBody_inv (by omega) inv hb
        have := ih (by omega) inv1 h
        rw [Nat.add_assoc, Nat.add_comm 1 n] at this
        exact this

/-- Whatever happens in the second loop, no bit of `uploaded[]` is cleared. -/
theorem uploadLoop_bitsLe (T : Transport) (check : Nat → Bool) (self : Font)
    (glyphids : List Nat) (n i : Nat) (st : UploadState) :
    BitsLe st.uploaded (uploadLoop T check self glyphids n i st).2.uploaded := by
  induction n generalizing i st with
  | zero => exact BitsLe.refl _
  | succ n ih =>
    unfold uploadLoop
    dsimp only
    cases hb : uploadBody T check self glyphids i st with
    | mk ok st1 =>
      cases ok with
      | false =>
        simp only [if_true]
        rw [uploadBody_false_uploaded hb]
        exact BitsLe.refl _
      | true =>
        simp only [Bool.true_eq_false, if_false]
        refine BitsLe.trans ?_ (ih (i + 1) st1)
        rcases uploadBody_true hb with ⟨_, _, _, h3, _⟩ | ⟨_, _, _, hs, _, h3⟩
        · rw [h3]; exact BitsLe.refl _
        · rw [h3, sendBatch_uploaded_of_true _ _ _ _ hs]
          exact bitsLe_foldl_markUploaded _ _

theorem sendBatch_bitsLe (check : Nat → Bool) (glyphids : List Nat) (last : Nat)
    (st : UploadState) : BitsLe st.uploaded (sendBatch check glyphids last st).2.uploaded := by
  cases hb : (sendBatch check glyphids last st).1 with
  | false => rw [sendBatch_uploaded_of_false _ _ _ _ hb]; exact BitsLe.refl _
  | true =>
    rw [sendBatch_uploaded_of_true _ _ _ _ hb]
    exact bitsLe_foldl_markUploaded _ _

/-! ## `Font_uploadGlyphs` as a whole -/

theorem collectGlyphids_of_range {self : Font} {glyphinfo : List Nat}
    (hr : ∀ g ∈ glyphinfo, g ≤ (self.glyphidmask ||| self.subpixelmask)) :
    collectGlyphids self glyphinfo [] = some (pendingOf self glyphinfo) := by
  rw [collectGlyphids_eq, if_pos hr]
  rfl

theorem collectGlyphids_of_bad {self : Font} {glyphinfo : List Nat}
    (hb : ∃ g ∈ glyphinfo, g > (self.glyphidmask ||| self.subpixelmask)) :
    collectGlyphids self glyphinfo [] = none := by
  rw [collectGlyphids_eq, if_neg]
  intro hall
  obtain ⟨g, hg, hgt⟩ := hb
  exact absurd (hall g hg) (not_le.mpr hgt)

/-- An id above `glyphidmask | subpixelmask` anywhere in the request makes the call
return -1 with the handle untouched and no request issued. -/
theorem Font_uploadGlyphs_of_bad (T : Transport) (check : Nat → Bool) {self : Font}
    {glyphinfo : List Nat}
    (hb : ∃ g ∈ glyphinfo, g > (self.glyphidmask ||| self.subpixelmask)) :
    Font_uploadGlyphs T check self glyphinfo = { rc := -1, self := self, calls := [] } := by
  unfold Font_uploadGlyphs
  rw [collectGlyphids_of_bad hb]

/-- A request without pending ids returns 0 with the handle untouched and no request
issued. -/
theorem Font_uploadGlyphs_of_no_pending (T : Transport) (check : Nat → Bool) {self : Font}
    {glyphinfo : List Nat}
    (hr : ∀ g ∈ glyphinfo, g ≤ (self.glyphidmask ||| self.subpixelmask))
    (hp : pendingOf self glyphinfo = []) :
    Font_uploadGlyphs T check self glyphinfo = { rc := 0, self := self, calls := [] } := by
  unfold Font_uploadGlyphs
  rw [collectGlyphids_of_range hr, hp]
  simp

/-- The shape of `Font_uploadGlyphs` on a request with pending ids. -/
theorem Font_uploadGlyphs_of_pending (T : Transport) (check : Nat → Bool) {self : Font}
    {glyphinfo : List Nat}
    (hr : ∀ g ∈ glyphinfo, g ≤ (self.glyphidmask ||| self.subpixelmask))
    (hp : pendingOf self glyphinfo ≠ []) :
    Font_uploadGlyphs T check self glyphinfo =
      (let glyphids := pendingOf self glyphinfo
       let r := uploadLoop T check self glyphids glyphids.length 0 (uploadInit self)
       if r.1 = false then
         { rc := -1, self := { self with uploaded := r.2.uploaded }, calls := r.2.calls }
       else
         let f := sendBatch check glyphids glyphids.length r.2
         { rc := if f.1 then 0 else -1
           self := { self with uploaded := f.2.uploaded }
           calls := f.2.calls }) := by
  unfold Font_uploadGlyphs
  rw [collectGlyphids_of_range hr]
  have : ¬ (pendingOf self glyphinfo).length = 0 := by
    intro h; exact hp (List.length_eq_zero.mp h)
  simp only [this, if_false]

/-- A call of `Font_uploadGlyphs` never clears a bit of `uploaded[]`. -/
theorem Font_uploadGlyphs_bitsLe (T : Transport) (check : Nat → Bool) (self : Font)
    (glyphinfo : List Nat) :
    BitsLe self.uploaded (Font_uploadGlyphs T check self glyphinfo).self.uploaded := by
  by_cases hr : ∀ g ∈ glyphinfo, g ≤ (self.glyphidmask ||| self.subpixelmask)
  · by_cases hp : pendingOf self glyphinfo = []
    · rw [Font_uploadGlyphs_of_no_pending T check hr hp]
      exact BitsLe.refl _
    · rw [Font_uploadGlyphs_of_pending T check hr hp]
      dsimp only
      have hl := uploadLoop_bitsLe T check self (pendingOf self glyphinfo)
        (pendingOf self glyphinfo).length 0 (uploadInit self)
      split_ifs
      all_goals first
        | exact hl
        | exact hl.trans (sendBatch_bitsLe _ _ _ _)
  · have hb : ∃ g ∈ glyphinfo, g > (self.glyphidmask ||| self.subpixelmask) := by
      push_neg at hr
      exact hr
    rw [Font_uploadGlyphs_of_bad T check hb]
    exact BitsLe.refl _

/-- The structure of a call that returns 0 on a request with pending ids: the loop
ran to its end, the invariant holds there, and the final flush added one request for
`glyphids[firstglyph ..]` and marked it. -/
theorem Font_uploadGlyphs_rc_zero {T : Transport} {check : Nat → Bool} {self : Font}
    {glyphinfo : List Nat}
    (hr : ∀ g ∈ glyphinfo, g ≤ (self.glyphidmask ||| self.subpixelmask))
    (hp : pendingOf self glyphinfo ≠ [])
    (h0 : (Font_uploadGlyphs T check self glyphinfo).rc = 0) :
    ∃ st : UploadState,
      UploadInv T self (pendingOf self glyphinfo) (pendingOf self glyphinfo).length st ∧
      uploadLoop T check self (pendingOf self glyphinfo)
        (pendingOf self glyphinfo).length 0 (uploadInit self) = (true, st) ∧
      batches (Font_uploadGlyphs T check self glyphinfo).calls =
        batches st.calls ++ [(pendingOf self glyphinfo).drop st.firstglyph] ∧
      (Font_uploadGlyphs T check self glyphinfo).self.uploaded =
        ((pendingOf self glyphinfo).drop st.firstglyph).foldl markUploaded st.uploaded ∧
      (Font_uploadGlyphs T check self glyphinfo).calls =
        (sendBatch check (pendingOf self glyphinfo) (pendingOf self glyphinfo).length st).2.calls
      := by
  rw [Font_uploadGlyphs_of_pending T check hr hp] at h0 ⊢
  dsimp only at h0 ⊢
  cases hl : uploadLoop T check self (pendingOf self glyphinfo)
      (pendingOf self glyphinfo).length 0 (uploadInit self) with
  | mk ok st =>
    rw [hl] at h0
    cases ok with
    | false => simp at h0
    | true =>
      simp only [Bool.true_eq_false, if_false] at h0 ⊢
      have inv := uploadLoop_inv (pendingOf self glyphinfo).length (by omega)
        (uploadInv_init T self (pendingOf self glyphinfo)) hl
      rw [Nat.zero_add] at inv
      have hs : (sendBatch check (pendingOf self glyphinfo)
          (pendingOf self glyphinfo).length st).1 = true := by
        by_contra hne
        simp only [Bool.not_eq_true] at hne
        rw [hne] at h0
        simp at h0
      have htake : ((pendingOf self glyphinfo).drop st.firstglyph).take
          ((pendingOf self glyphinfo).length - st.firstglyph) =
          (pendingOf self glyphinfo).drop st.firstglyph := by
        apply List.take_of_length_le
        rw [List.length_drop]
      refine ⟨st, inv, rfl, ?_, ?_, rfl⟩
      · unfold batches
        rw [sendBatch_primaryCalls, htake]
        simp
      · show (sendBatch check (pendingOf self glyphinfo)
          (pendingOf self glyphinfo).length st).2.uploaded = _
        rw [sendBatch_uploaded_of_true _ _ _ _ hs, htake]

/-- On return code 0 the requests to the primary glyph set carry, in order and
without omission, exactly the pending ids, and exactly those are newly marked. -/
theorem Font_uploadGlyphs_success {T : Transport} {check : Nat → Bool} {self : Font}
    {glyphinfo : List Nat}
    (hr : ∀ g ∈ glyphinfo, g ≤ (self.glyphidmask ||| self.subpixelmask))
    (h0 : (Font_uploadGlyphs T check self glyphinfo).rc = 0) :
    (batches (Font_uploadGlyphs T check self glyphinfo).calls).flatten
        = pendingOf self glyphinfo ∧
    (Font_uploadGlyphs T check self glyphinfo).self.uploaded =
      (pendingOf self glyphinfo).foldl markUploaded self.uploaded := by
  by_cases hp : pendingOf self glyphinfo = []
  · rw [Font_uploadGlyphs_of_no_pending T check hr hp, hp]
    simp [batches, primaryCalls]
  · obtain ⟨st, inv, _, hb, hu, _⟩ := Font_uploadGlyphs_rc_zero hr hp h0
    constructor
    · rw [hb, List.flatten_append, inv.sent]
      simp only [List.flatten_cons, List.flatten_nil, List.append_nil]
      exact List.take_append_drop _ _
    · rw [hu, inv.marked, ← List.foldl_append, List.take_append_drop]

theorem uploadSequence_bitsLe (T : Transport) (self : Font)
    (calls : List ((Nat → Bool) × List Nat)) :
    BitsLe self.uploaded (uploadSequence T self calls).1.uploaded := by
  induction calls generalizing self with
  | nil => exact BitsLe.refl _
  | cons c rest ih =>
    obtain ⟨check, glyphinfo⟩ := c
    unfold uploadSequence
    exact (Font_uploadGlyphs_bitsLe T check self glyphinfo).trans (ih _)

/-! ## Sequences of calls -/

/-- With a `CHECK` that always goes on, a round can only leave the function through
a failed `FT_Load_Glyph`, before anything was changed. -/
theorem uploadBody_false_of_check {T : Transport} {check : Nat → Bool} {self : Font}
    {glyphids : List Nat} {i : Nat} {st st' : UploadState} (hc : ∀ n, check n = true)
    (h : uploadBody T check self glyphids i st = (false, st')) : st' = st := by
  unfold uploadBody at h
  dsimp only at h
  split_ifs at h with h1 h2
  · simp only [Prod.mk.injEq, true_and] at h
    exact h.symm
  · exfalso
    unfold flushBatch at h2
    dsimp only at h2
    split_ifs at h2 with h3
    · rw [sendBatch_true_of_check check hc] at h2
      simp at h2
  · simp at h

theorem uploadLoop_inv_of_check {T : Transport} {check : Nat → Bool} {self : Font}
    {glyphids : List Nat} (hc : ∀ n, check n = true) (n : Nat) {i : Nat} {st : UploadState}
    (hi : i + n ≤ glyphids.length) (inv : UploadInv T self glyphids i st) :
    ∃ j, UploadInv T self glyphids j (uploadLoop T check self glyphids n i st).2 := by
  induction n generalizing i st with
  | zero => exact ⟨i, inv⟩
  | succ n ih =>
    unfold uploadLoop
    dsimp only
    cases hb : uploadBody T check self glyphids i st with
    | mk ok st1 =>
      cases ok with
      | false =>
        simp only [if_true]
        rw [uploadBody_false_of_check hc hb]
        exact ⟨i, inv⟩
      | true =>
        simp only [Bool.true_eq_false, if_false]
        exact ih (by omega) (uploadBody_inv (by omega) inv hb)

/-- With a `CHECK` that always goes on, whatever the return code: the ids sent to the
primary glyph set are a leading part of the pending ids, and exactly they are newly
marked. -/
theorem Font_uploadGlyphs_sent_marked (T : Transport) {check : Nat → Bool}
    (hc : ∀ n, check n = true) (self : Font) (glyphinfo : List Nat) :
    ∃ k, (batches (Font_uploadGlyphs T check self glyphinfo).calls).flatten
          = (pendingOf self glyphinfo).take k ∧
      (Font_uploadGlyphs T check self glyphinfo).self.uploaded
          = ((pendingOf self glyphinfo).take k).foldl markUploaded self.uploaded := by
  by_cases hr : ∀ g ∈ glyphinfo, g ≤ (self.glyphidmask ||| self.subpixelmask)
  · by_cases hp : pendingOf self glyphinfo = []
    · rw [Font_uploadGlyphs_of_no_pending T check hr hp]
      exact ⟨0, by simp [batches, primaryCalls], by simp⟩
    · rw [Font_uploadGlyphs_of_pending T check hr hp]
      dsimp only
      obtain ⟨j, inv⟩ := @uploadLoop_inv_of_check T check self (pendingOf self glyphinfo) hc
        (pendingOf self glyphinfo).length 0 (uploadInit self) (by omega)
        (uploadInv_init T self (pendingOf self glyphinfo))
      by_cases hl : (uploadLoop T check self (pendingOf self glyphinfo)
          (pendingOf self glyphinfo).length 0 (uploadInit self)).1 = false
      · rw [if_pos hl]
        exact ⟨_, inv.sent, inv.marked⟩
      · rw [if_neg hl]
        have hl' : uploadLoop T check self (pendingOf self glyphinfo)
            (pendingOf self glyphinfo).length 0 (uploadInit self) =
            (true, (uploadLoop T check self (pendingOf self glyphinfo)
            (pendingOf self glyphinfo).length 0 (uploadInit self)).2) := by
          simp only [Bool.not_eq_false] at hl
          exact Prod.ext hl rfl
        have inv' := uploadLoop_inv (pendingOf self glyphinfo).length (by omega)
          (uploadInv_init T self (pendingOf self glyphinfo)) hl'
        rw [Nat.zero_add] at inv'
        refine ⟨(pendingOf self glyphinfo).length, ?_, ?_⟩
        · show (batches (sendBatch check _ _ _).2.calls).flatten = _
          unfold batches
          rw [sendBatch_primaryCalls, List.map_append, List.flatten_append]
          have := inv'.sent
          unfold batches at this
          rw [this]
          simp only [List.map_cons, List.map_nil, List.flatten_cons, List.flatten_nil,
            List.append_nil]
          rw [take_add_drop_take _ inv'.first_le]
        · show (sendBatch check _ _ _).2.uploaded = _
          rw [sendBatch_uploaded_of_true _ _ _ _ (sendBatch_true_of_check check hc _ _ _),
            inv'.marked, ← List.foldl_append, take_add_drop_take _ inv'.first_le]
  · have hb : ∃ g ∈ glyphinfo, g > (self.glyphidmask ||| self.subpixelmask) := by
      push_neg at hr
      exact hr
    rw [Font_uploadGlyphs_of_bad T check hb]
    exact ⟨0, by simp [batches, primaryCalls], by simp⟩

theorem mem_pendingOf {self : Font} {glyphinfo : List Nat} {g : Nat}
    (h : g ∈ pendingOf self glyphinfo) : isUploaded self.uploaded g = false := by
  unfold pendingOf at h
  have := (List.mem_filter.mp h).2
  simpa using this

theorem uploadSequence_cons (T : Transport) (self : Font) (check : Nat → Bool)
    (glyphinfo : List Nat) (rest : List ((Nat → Bool) × List Nat)) :
    uploadSequence T self ((check, glyphinfo) :: rest) =
      ((uploadSequence T (Font_uploadGlyphs T check self glyphinfo).self rest).1,
        (Font_uploadGlyphs T check self glyphinfo).calls ++
          (uploadSequence T (Font_uploadGlyphs T check self glyphinfo).self rest).2) := rfl

theorem uploadSequence_at_most_once (T : Transport) (self : Font)
    (calls : List ((Nat → Bool) × List Nat)) (h : FreshOnce T self calls) :
    ((batches (uploadSequence T self calls).2).flatten).Nodup ∧
    ∀ g ∈ (batches (uploadSequence T self calls).2).flatten,
      isUploaded self.uploaded g = false := by
  induction calls generalizing self with
  | nil => simp [uploadSequence, batches, primaryCalls]
  | cons c rest ih =>
    obtain ⟨check, glyphinfo⟩ := c
    obtain ⟨hc, hnd, hrest⟩ := h
    obtain ⟨ihn, ihf⟩ := ih _ hrest
    obtain ⟨k, hk, hu⟩ := Font_uploadGlyphs_sent_marked T hc self glyphinfo
    have hseq : (batches (uploadSequence T self ((check, glyphinfo) :: rest)).2).flatten =
        (pendingOf self glyphinfo).take k ++
          (batches (uploadSequence T (Font_uploadGlyphs T check self glyphinfo).self
            rest).2).flatten := by
      rw [uploadSequence_cons]
      dsimp only
      rw [batches_append, List.flatten_append, hk]
    rw [hseq]
    constructor
    · rw [List.nodup_append]
      refine ⟨hnd.sublist (List.take_sublist _ _), ihn, ?_⟩
      intro g hg1 hg2
      have h1 : isUploaded (Font_uploadGlyphs T check self glyphinfo).self.uploaded g = true := by
        rw [hu]
        exact isUploaded_foldl_markUploaded _ _ _ hg1
      rw [ihf g hg2] at h1
      exact Bool.false_ne_true h1
    · intro g hg
      rcases List.mem_append.mp hg with hg | hg
      · exact mem_pendingOf (List.mem_of_mem_take hg)
      · by_contra hne
        simp only [Bool.not_eq_false] at hne
        have := (Font_uploadGlyphs_bitsLe T check self glyphinfo).isUploaded hne
        rw [ihf g hg] at this
        exact Bool.false_ne_true this

/-! ## Repeated and split requests -/

theorem Font_uploadGlyphs_self (T : Transport) (check : Nat → Bool) (self : Font)
    (glyphinfo : List Nat) :
    (Font_uploadGlyphs T check self glyphinfo).self =
      { self with uploaded := (Font_uploadGlyphs T check self glyphinfo).self.uploaded } := by
  unfold Font_uploadGlyphs
  split
  · rfl
  · dsimp only
    split_ifs <;> rfl

theorem sum_map_take_drop_le (l : List Nat) (p : Nat → Nat) (i f : Nat) :
    (((l.take i).drop f).map p).sum ≤ (l.map p).sum := by
  apply List.Sublist.sum_le_sum
  · exact ((List.drop_sublist _ _).trans (List.take_sublist _ _)).map p
  · intro a _; exact Nat.zero_le a

theorem sum_map_pendingOf_le (self : Font) (glyphinfo : List Nat) (p : Nat → Nat) :
    ((pendingOf self glyphinfo).map p).sum ≤ (glyphinfo.map p).sum := by
  apply List.Sublist.sum_le_sum
  · exact (List.filter_sublist _).map p
  · intro a _; exact Nat.zero_le a

theorem length_pendingOf_le (self : Font) (glyphinfo : List Nat) :
    (pendingOf self glyphinfo).length ≤ glyphinfo.length :=
  List.length_filter_le _ _

/-- When all glyphs of the list fit into one request, the loop never flushes. -/
theorem uploadLoop_no_flush {T : Transport} {check : Nat → Bool} {self : Font}
    {glyphids : List Nat}
    (hfit : T.requestSize + glyphids.length * (glyphidSize + T.glyphinfoSize)
      + (glyphids.map (payloadOf self)).sum ≤ T.maxRequestSize)
    (n : Nat) {i : Nat} {st st' : UploadState}
    (hi : i + n ≤ glyphids.length) (inv : UploadInv T self glyphids i st)
    (hc : st.calls = [])
    (h : uploadLoop T check self glyphids n i st = (true, st')) :
    st'.calls = [] := by
  induction n generalizing i st with
  | zero =>
    unfold uploadLoop at h
    simp only [Prod.mk.injEq, true_and] at h
    subst h
    exact hc
  | succ n ih =>
    unfold uploadLoop at h
    dsimp only at h
    cases hb : uploadBody T check self glyphids i st with
    | mk ok st1 =>
      rw [hb] at h
      cases ok with
      | false => simp at h
      | true =>
        simp only [Bool.true_eq_false, if_false] at h
        have inv1 := uploadBody_inv (by omega) inv hb
        refine ih (by omega) inv1 ?_ h
        rcases uploadBody_true hb with ⟨_, _, h2, _, _⟩ | ⟨hf, _, _, _, _, _⟩
        · rw [h2]; exact hc
        · exfalso
          unfold needsFlush at hf
          simp only [decide_eq_true_eq] at hf
          have hsum : st.bitmapdatapos + payloadOf self (glyphids.getD i 0) ≤
              (glyphids.map (payloadOf self)).sum := by
            have h1 := sum_map_take_drop_le glyphids (payloadOf self) (i + 1) st.firstglyph
            rw [take_succ_drop_of_le glyphids inv.first_le (by omega)] at h1
            rw [inv.pos_eq]
            simpa using h1
          have hcnt : (i - st.firstglyph) * (glyphidSize + T.glyphinfoSize) ≤
              glyphids.length * (glyphidSize + T.glyphinfoSize) :=
            Nat.mul_le_mul_right _ (by omega)
          omega

theorem isUploaded_after_success {T : Transport} {check : Nat → Bool} {self : Font}
    {glyphinfo : List Nat}
    (hr : ∀ g ∈ glyphinfo, g ≤ (self.glyphidmask ||| self.subpixelmask))
    (h0 : (Font_uploadGlyphs T check self glyphinfo).rc = 0) {g : Nat} (hg : g ∈ glyphinfo) :
    isUploaded (Font_uploadGlyphs T check self glyphinfo).self.uploaded g = true := by
  by_cases hu : isUploaded self.uploaded g = true
  · exact (Font_uploadGlyphs_bitsLe T check self glyphinfo).isUploaded hu
  · rw [(Font_uploadGlyphs_success hr h0).2]
    apply isUploaded_foldl_markUploaded
    unfold pendingOf
    rw [List.mem_filter]
    exact ⟨hg, by simpa using hu⟩

/-- After a call that returned 0, asking for the same ids again finds nothing pending. -/
theorem Font_uploadGlyphs_again {T : Transport} {check : Nat → Bool} {self : Font}
    {glyphinfo : List Nat}
    (hr : ∀ g ∈ glyphinfo, g ≤ (self.glyphidmask ||| self.subpixelmask))
    (h0 : (Font_uploadGlyphs T check self glyphinfo).rc = 0) (check2 : Nat → Bool) :
    Font_uploadGlyphs T check2 (Font_uploadGlyphs T check self glyphinfo).self glyphinfo =
      { rc := 0, self := (Font_uploadGlyphs T check self glyphinfo).self, calls := [] } := by
  apply Font_uploadGlyphs_of_no_pending
  · rw [Font_uploadGlyphs_self]
    exact hr
  · unfold pendingOf
    rw [List.filter_eq_nil_iff]
    intro g hg
    rw [isUploaded_after_success hr h0 hg]
    simp

theorem pendingOf_of_fresh {self : Font} {glyphinfo : List Nat}
    (hfresh : ∀ g ∈ glyphinfo, isUploaded self.uploaded g = false) :
    pendingOf self glyphinfo = glyphinfo := by
  unfold pendingOf
  rw [List.filter_eq_self]
  intro g hg
  rw [hfresh g hg]
  rfl

/-! ## The masks built by `Font_create` -/

/-- The masks of a handle built by `Font_create`: `glyphidbits` lies between 1 and 32
and `glyphidmask` is `2^glyphidbits - 1`. -/
theorem glyphidLoop_spec (num_glyphs : Int) (fuel glyphidbits glyphidmask g m : Nat)
    (hb : glyphidbits + fuel = 33) (h1 : 1 ≤ glyphidbits)
    (hm : glyphidmask = 2 ^ glyphidbits - 1)
    (h : glyphidLoop num_glyphs fuel glyphidbits glyphidmask = some (g, m)) :
    1 ≤ g ∧ g ≤ 32 ∧ m = 2 ^ g - 1 ∧ Int.land num_glyphs (m : Int) = num_glyphs := by
  induction fuel generalizing glyphidbits glyphidmask with
  | zero => simp [glyphidLoop] at h
  | succ fuel ih =>
    unfold glyphidLoop at h
    by_cases hc : Int.land num_glyphs (glyphidmask : Int) ≠ num_glyphs
    · rw [if_pos hc] at h
      cases fuel with
      | zero => simp [glyphidLoop] at h
      | succ fuel =>
        have hle : glyphidbits ≤ 31 := by omega
        have hbits : (glyphidbits + 1) % 256 = glyphidbits + 1 := by omega
        have hmask : ((glyphidmask <<< 1) % 4294967296) ||| 1 = 2 ^ (glyphidbits + 1) - 1 := by
          subst hm
          interval_cases glyphidbits <;> rfl
        rw [hbits, hmask] at h
        exact ih (glyphidbits + 1) _ (by omega) (by omega) rfl h
    · rw [if_neg hc] at h
      simp only [Option.some.injEq, Prod.mk.injEq] at h
      obtain ⟨rfl, rfl⟩ := h
      exact ⟨h1, by omega, hm, by simpa using hc⟩

/-- What `Font_create` guarantees about the id fields of the handle it returns. -/
theorem Font_create_handle_masks {subpixelbits : Nat} {face : Face}
    {pixelsize fixedpixelsize : ℚ} {self : Font}
    (h : Font_create_handle subpixelbits face pixelsize fixedpixelsize = some self) :
    1 ≤ self.glyphidbits ∧ self.glyphidbits ≤ 32 ∧
    self.glyphidmask = 2 ^ self.glyphidbits - 1 ∧
    self.subpixelbits ≤ 6 ∧
    self.subpixelmask =
      ((2 ^ self.subpixelbits - 1) <<< self.glyphidbits) % 4294967296 ∧
    self.uploaded = fun _ => 0 := by
  unfold Font_create_handle at h
  dsimp only at h
  cases hl : glyphidLoop face.num_glyphs glyphidFuel 1 1 with
  | none => rw [hl] at h; simp at h
  | some gm =>
    obtain ⟨g, m⟩ := gm
    rw [hl] at h
    simp only [Option.some.injEq] at h
    obtain ⟨hg1, hg2, hm, _⟩ := glyphidLoop_spec face.num_glyphs glyphidFuel 1 1 g m
      (by rfl) (Nat.le_refl 1) (by rfl) hl
    subst h
    dsimp only
    have hs : (if fixedpixelsize ≠ 0 then 0 else if subpixelbits > 6 then 6 else subpixelbits)
        ≤ 6 := by
      split_ifs <;> omega
    refine ⟨hg1, hg2, hm, hs, ?_, rfl⟩
    generalize (if fixedpixelsize ≠ 0 then 0 else if subpixelbits > 6 then 6 else subpixelbits)
      = s at hs ⊢
    rw [Nat.one_shiftLeft]
    have : 2 ^ s % 4294967296 = 2 ^ s := by
      apply Nat.mod_eq_of_lt
      calc 2 ^ s ≤ 2 ^ 6 := Nat.pow_le_pow_right (by omega) hs
        _ < 4294967296 := by norm_num
    rw [this]

/-- On a handle built by `Font_create` the id `glyphidmask | subpixelmask | 1` is the
largest valid id itself. -/
theorem Font_create_handle_or_one {subpixelbits : Nat} {face : Face}
    {pixelsize fixedpixelsize : ℚ} {self : Font}
    (h : Font_create_handle subpixelbits face pixelsize fixedpixelsize = some self) :
    self.glyphidmask ||| self.subpixelmask ||| 1 = self.glyphidmask ||| self.subpixelmask := by
  obtain ⟨hg1, _, hm, _, _, _⟩ := Font_create_handle_masks h
  apply Nat.eq_of_testBit_eq
  intro i
  simp only [Nat.testBit_lor]
  cases i with
  | zero =>
    have : self.glyphidmask.testBit 0 = true := by
      rw [hm, Nat.testBit_two_pow_sub_one]
      simpa using hg1
    rw [this]; simp
  | succ i =>
    have : Nat.testBit 1 (i + 1) = false := by
      rw [show (1 : Nat) = 2 ^ 1 - 1 by norm_num, Nat.testBit_two_pow_sub_one]
      simp
    rw [this]; simp

theorem shiftLeft_lor_eq_add {g b : Nat} (hb : b < 2 ^ g) (a : Nat) :
    a <<< g ||| b = a * 2 ^ g + b := by
  rw [Nat.shiftLeft_eq, Nat.mul_comm a, ← Nat.mul_add_lt_is_or hb]

theorem compositeId_decode {g baseIndex : Nat} (hb : baseIndex < 2 ^ g) (phase : Nat) :
    compositeId g baseIndex phase &&& (2 ^ g - 1) = baseIndex ∧
    compositeId g baseIndex phase >>> g = phase := by
  unfold compositeId
  rw [shiftLeft_lor_eq_add hb, Nat.and_pow_two_sub_one_eq_mod, Nat.shiftRight_eq_div_pow]
  have hpos : 0 < 2 ^ g := Nat.pos_pow_of_pos g (by norm_num)
  constructor
  · rw [Nat.add_comm, Nat.add_mul_mod_self_right, Nat.mod_eq_of_lt hb]
  · rw [Nat.add_comm, Nat.add_mul_div_right _ _ hpos, Nat.div_eq_of_lt hb, Nat.zero_add]

theorem compositeId_le {g baseIndex phase x : Nat} (hg : g ≤ 32) (hb : baseIndex ≤ 2 ^ g - 1)
    (hp : phase ≤ ((x <<< g) % 4294967296) >>> g) :
    compositeId g baseIndex phase ≤ (2 ^ g - 1) ||| ((x <<< g) % 4294967296) := by
  have hpos : 0 < 2 ^ g := Nat.pos_pow_of_pos g (by norm_num)
  have hb' : baseIndex < 2 ^ g := by omega
  have hgm : 2 ^ g - 1 < 2 ^ g := by omega
  have hsplit : (4294967296 : Nat) = 2 ^ (32 - g) * 2 ^ g := by
    rw [← Nat.pow_add, Nat.sub_add_cancel hg]
  have hsm : (x <<< g) % 4294967296 = (x % 2 ^ (32 - g)) <<< g := by
    rw [Nat.shiftLeft_eq, Nat.shiftLeft_eq, hsplit, Nat.mul_mod_mul_right]
  rw [hsm] at hp ⊢
  rw [Nat.shiftLeft_eq, Nat.shiftRight_eq_div_pow, Nat.mul_div_cancel _ hpos] at hp
  rw [Nat.lor_comm, shiftLeft_lor_eq_add hgm]
  unfold compositeId
  rw [shiftLeft_lor_eq_add hb']
  have := Nat.mul_le_mul_right (2 ^ g) hp
  omega

/-! ## The fixed-size search -/

theorem strikeStep_inv (pixelsize thr : ℚ) (sizes seen rest : List Int) (y : Int)
    (st : StrikeState) (hall : sizes = seen ++ y :: rest)
    (inv : StrikeInv pixelsize thr sizes seen st) :
    StrikeInv pixelsize thr sizes (seen ++ [y]) (strikeStep pixelsize thr st seen.length y) := by
  have hget : sizes[seen.length]? = some y := by
    rw [hall, List.getElem?_append_right (Nat.le_refl _)]
    simp
  have hy : y ∈ seen ++ [y] := List.mem_append_right _ (List.mem_singleton.mpr rfl)
  -- the state when the strike `y` is taken
  have taken : StrikeInv pixelsize thr sizes (seen ++ [y])
      { fixedpixelsize := strikeSize y
        bestdeviation := ((strikeDeviation pixelsize (strikeSize y) : ℚ) : WithTop ℚ)
        bestidx := (seen.length : Int) } →
      StrikeInv pixelsize thr sizes (seen ++ [y])
        { fixedpixelsize := strikeSize y
          bestdeviation := ((strikeDeviation pixelsize (strikeSize y) : ℚ) : WithTop ℚ)
          bestidx := (seen.length : Int) } := id
  unfold strikeStep
  dsimp only
  rcases inv with ⟨hnil, hneg⟩ | ⟨j, x, hidx, hjx, hxs, hfix, hdev, hcase⟩
  · -- first strike: always taken
    rw [if_pos (Or.inl hneg)]
    right
    refine ⟨seen.length, y, rfl, hget, hy, rfl, rfl, ?_⟩
    subst hnil
    rcases le_or_lt (strikeDeviation pixelsize (strikeSize y)) thr with h | h
    · left
      exact ⟨h, by intro z hz; simp at hz; subst hz; exact le_refl _⟩
    · right
      exact ⟨h, by intro z hz; simp at hz; subst hz; exact h⟩
  · have hnotneg : ¬ st.bestidx < 0 := by rw [hidx]; exact not_lt.mpr (Int.natCast_nonneg j)
    by_cases hc : st.bestidx < 0 ∨
        ((strikeDeviation pixelsize (strikeSize y) : ℚ) : WithTop ℚ) < st.bestdeviation ∨
        (strikeSize y > st.fixedpixelsize ∧ st.bestdeviation > (thr : WithTop ℚ))
    · rw [if_pos hc]
      right
      refine ⟨seen.length, y, rfl, hget, hy, rfl, rfl, ?_⟩
      rcases hcase with ⟨hle, hmin⟩ | ⟨hgt, hall'⟩
      · -- the old best was within the threshold: only a smaller deviation replaces it
        have hlt : strikeDeviation pixelsize (strikeSize y)
            < strikeDeviation pixelsize (strikeSize x) := by
          rcases hc with h | h | ⟨_, h⟩
          · exact absurd h hnotneg
          · rw [hdev] at h; exact WithTop.coe_lt_coe.mp h
          · rw [hdev] at h
            exact absurd hle (not_le.mpr (WithTop.coe_lt_coe.mp h))
        left
        refine ⟨le_trans (le_of_lt hlt) hle, ?_⟩
        intro z hz
        rcases List.mem_append.mp hz with hz | hz
        · exact le_trans (le_of_lt hlt) (hmin z hz)
        · rw [List.mem_singleton.mp hz]
      · rcases le_or_lt (strikeDeviation pixelsize (strikeSize y)) thr with h | h
        · left
          refine ⟨h, ?_⟩
          intro z hz
          rcases List.mem_append.mp hz with hz | hz
          · exact le_trans h (le_of_lt (hall' z hz))
          · rw [List.mem_singleton.mp hz]
        · right
          refine ⟨h, ?_⟩
          intro z hz
          rcases List.mem_append.mp hz with hz | hz
          · exact hall' z hz
          · rw [List.mem_singleton.mp hz]; exact h
    · rw [if_neg hc]
      have hge : strikeDeviation pixelsize (strikeSize x)
          ≤ strikeDeviation pixelsize (strikeSize y) := by
        by_contra hlt
        apply hc
        right; left
        rw [hdev]
        exact WithTop.coe_lt_coe.mpr (not_le.mp hlt)
      right
      refine ⟨j, x, hidx, hjx, List.mem_append_left _ hxs, hfix, hdev, ?_⟩
      rcases hcase with ⟨hle, hmin⟩ | ⟨hgt, hall'⟩
      · left
        refine ⟨hle, ?_⟩
        intro z hz
        rcases List.mem_append.mp hz with hz | hz
        · exact hmin z hz
        · rw [List.mem_singleton.mp hz]; exact hge
      · right
        refine ⟨hgt, ?_⟩
        intro z hz
        rcases List.mem_append.mp hz with hz | hz
        · exact hall' z hz
        · rw [List.mem_singleton.mp hz]; exact lt_of_lt_of_le hgt hge

theorem strikeLoop_inv (pixelsize thr : ℚ) (sizes : List Int) (rest seen : List Int)
    (st : StrikeState) (hall : sizes = seen ++ rest)
    (inv : StrikeInv pixelsize thr sizes seen st) :
    StrikeInv pixelsize thr sizes sizes (strikeLoop pixelsize thr rest seen.length st) := by
  induction rest generalizing seen st with
  | nil =>
    rw [List.append_nil] at hall
    unfold strikeLoop
    rw [hall]
    exact hall ▸ inv
  | cons y rest ih =>
    unfold strikeLoop
    have h1 := strikeStep_inv pixelsize thr sizes seen rest y st hall inv
    have h2 := ih (seen ++ [y]) (strikeStep pixelsize thr st seen.length y)
      (by rw [hall]; simp) h1
    rw [List.length_append] at h2
    exact h2

theorem strikeDeviation_eq_max {pixelsize fpx : ℚ} (hp : 0 < pixelsize) (hf : 0 < fpx) :
    strikeDeviation pixelsize fpx
      = roundDouble (roundDouble (max (fpx / pixelsize) (pixelsize / fpx)) - 1) := by
  unfold strikeDeviation
  by_cases h : fpx > pixelsize
  · rw [if_pos h]
    have h1 : pixelsize / fpx ≤ 1 := (div_le_one hf).mpr (le_of_lt h)
    have h2 : 1 ≤ fpx / pixelsize := (one_le_div hp).mpr (le_of_lt h)
    rw [max_eq_left (le_trans h1 h2)]
  · rw [if_neg h]
    have h' : fpx ≤ pixelsize := not_lt.mp h
    have h1 : fpx / pixelsize ≤ 1 := (div_le_one hp).mpr h'
    have h2 : 1 ≤ pixelsize / fpx := (one_le_div hf).mpr h'
    rw [max_eq_right (le_trans h1 h2)]

/-! ## Request sizes -/

theorem getD_mem_of_lt (l : List Nat) {i : Nat} (hi : i < l.length) : l.getD i 0 ∈ l := by
  rw [List.getD_eq_getElem?_getD, List.getElem?_eq_getElem hi]
  exact List.getElem_mem _

theorem uploadBody_bound {T : Transport} {check : Nat → Bool} {self : Font}
    {glyphids : List Nat} {i : Nat} {st st' : UploadState} (hi : i < glyphids.length)
    (hroom : ∀ g ∈ glyphids, T.requestSize + payloadOf self g ≤ T.maxRequestSize)
    (inv : UploadInv T self glyphids i st) (hb : UploadBound T i st)
    (h : uploadBody T check self glyphids i st = (true, st')) :
    UploadBound T (i + 1) st' := by
  have hg := hroom _ (getD_mem_of_lt glyphids hi)
  rcases uploadBody_true h with ⟨hf, h1, h2, _, h4⟩ | ⟨hf, h1, h4, _, h2, _⟩
  · refine ⟨fun _ => ?_, ?_⟩
    · unfold needsFlush at hf
      simp only [decide_eq_false_iff_not, not_lt] at hf
      rw [h1, h4, Nat.add_sub_cancel]
      omega
    · rw [h2]; exact hb.2
  · have hcalls := sendBatch_primaryCalls check glyphids i
      { st with glyphs := st.glyphs ++ [glyphOf self (glyphids.getD i 0)] }
    rw [← h2] at hcalls
    dsimp only at hcalls
    refine ⟨fun _ => ?_, ?_⟩
    · rw [h1, h4, Nat.add_sub_cancel, Nat.sub_self]
      omega
    · intro c hc
      rw [hcalls] at hc
      rcases List.mem_append.mp hc with hc | hc
      · exact hb.2 c hc
      · rw [List.mem_singleton] at hc
        subst hc
        dsimp only
        rw [List.length_take, List.length_drop]
        rcases Nat.eq_zero_or_pos i with hi0 | hipos
        · subst hi0
          have hpz : st.bitmapdatapos = 0 := by
            rw [inv.pos_eq]; simp
          rw [hpz]
          simp only [Nat.zero_sub, Nat.zero_min, Nat.zero_mul, Nat.add_zero]
          omega
        · have h1' := hb.1 hipos
          have hfl := inv.first_lt hipos
          have hmin : min (i - st.firstglyph) (glyphids.length - st.firstglyph)
              = i - st.firstglyph := by omega
          rw [hmin]
          have : i - st.firstglyph - 1 = i - 1 - st.firstglyph := by omega
          rw [this]
          exact h1'

theorem uploadLoop_bound {T : Transport} {check : Nat → Bool} {self : Font}
    {glyphids : List Nat}
    (hroom : ∀ g ∈ glyphids, T.requestSize + payloadOf self g ≤ T.maxRequestSize)
    (n : Nat) {i : Nat} {st st' : UploadState}
    (hi : i + n ≤ glyphids.length) (inv : UploadInv T self glyphids i st)
    (hb : UploadBound T i st)
    (h : uploadLoop T check self glyphids n i st = (true, st')) :
    UploadBound T (i + n) st' := by
  induction n generalizing i st with
  | zero =>
    unfold uploadLoop at h
    simp only [Prod.mk.injEq, true_and] at h
    subst h
    exact hb
  | succ n ih =>
    unfold uploadLoop at h
    dsimp only at h
    cases hbody : uploadBody T check self glyphids i st with
    | mk ok st1 =>
      rw [hbody] at h
      cases ok with
      | false => simp at h
      | true =>
        simp only [Bool.true_eq_false, if_false] at h
        have := ih (by omega) (uploadBody_inv (by omega) inv hbody)
          (uploadBody_bound (by omega) hroom inv hb hbody) h
        rw [Nat.add_assoc, Nat.add_comm 1 n] at this
        exact this

/-- The bound the flush test does enforce: when every pending glyph fits behind the
request header, each request of a call that returns 0 carries at least one glyph and
stays within the maximum request size once the id and metrics record of one of its
glyphs is left out of the estimate. -/
theorem Font_uploadGlyphs_request_bound {T : Transport} {check : Nat → Bool} {self : Font}
    {glyphinfo : List Nat}
    (hr : ∀ g ∈ glyphinfo, g ≤ (self.glyphidmask ||| self.subpixelmask))
    (hroom : ∀ g ∈ pendingOf self glyphinfo,
      T.requestSize + payloadOf self g ≤ T.maxRequestSize)
    (h0 : (Font_uploadGlyphs T check self glyphinfo).rc = 0) :
    ∀ c ∈ primaryCalls (Font_uploadGlyphs T check self glyphinfo).calls,
      c.glyphids ≠ [] ∧
      T.requestSize + (c.glyphids.length - 1) * (glyphidSize + T.glyphinfoSize) + c.data_len
        ≤ T.maxRequestSize := by
  by_cases hp : pendingOf self glyphinfo = []
  · rw [Font_uploadGlyphs_of_no_pending T check hr hp]
    intro c hc
    simp [primaryCalls] at hc
  · obtain ⟨st, inv, hl, hbat, _, hcalls⟩ := Font_uploadGlyphs_rc_zero hr hp h0
    have hlen : 0 < (pendingOf self glyphinfo).length := List.length_pos.mpr hp
    have hb := uploadLoop_bound hroom (pendingOf self glyphinfo).length (by omega)
      (uploadInv_init T self _) ⟨fun h => absurd h (Nat.lt_irrefl 0), by
        intro c hc; simp [uploadInit, primaryCalls] at hc⟩ hl
    rw [Nat.zero_add] at hb
    have hne : ∀ b ∈ batches (Font_uploadGlyphs T check self glyphinfo).calls, b ≠ [] := by
      intro b hbm
      rw [hbat] at hbm
      rcases List.mem_append.mp hbm with hbm | hbm
      · exact inv.nonempty (hroom _ (getD_mem_of_lt _ hlen)) b hbm
      · rw [List.mem_singleton] at hbm
        subst hbm
        intro hnil
        have := congrArg List.length hnil
        rw [List.length_drop] at this
        have := inv.first_lt hlen
        simp only [List.length_nil] at *
        omega
    intro c hc
    refine ⟨hne _ (List.mem_map_of_mem _ hc), ?_⟩
    rw [hcalls, sendBatch_primaryCalls] at hc
    rcases List.mem_append.mp hc with hc | hc
    · exact hb.2 c hc
    · rw [List.mem_singleton] at hc
      subst hc
      dsimp only
      rw [List.length_take, List.length_drop, Nat.min_self]
      have h1 := hb.1 hlen
      have hfl := inv.first_lt hlen
      have : (pendingOf self glyphinfo).length - st.firstglyph - 1
          = (pendingOf self glyphinfo).length - 1 - st.firstglyph := by omega
      rw [this]
      exact h1

theorem strikeLoop_ascending (pixelsize thr : ℚ) (rest : List Int) (hne : rest ≠ [])
    (hsorted : rest.Pairwise (fun a b => strikeSize a < strikeSize b))
    (hfar : ∀ y ∈ rest, thr < strikeDeviation pixelsize (strikeSize y))
    (i : Nat) (st : StrikeState)
    (hst : st.bestidx < 0 ∨
      (st.bestdeviation > (thr : WithTop ℚ) ∧ ∀ y ∈ rest, st.fixedpixelsize < strikeSize y)) :
    strikeLoop pixelsize thr rest i st =
      { fixedpixelsize := strikeSize (rest.getLast hne)
        bestdeviation :=
          ((strikeDeviation pixelsize (strikeSize (rest.getLast hne)) : ℚ) : WithTop ℚ)
        bestidx := ((i + rest.length - 1 : Nat) : Int) } := by
  induction rest generalizing i st with
  | nil => exact absurd rfl hne
  | cons y rest ih =>
    unfold strikeLoop
    have hstep : strikeStep pixelsize thr st i y =
        { fixedpixelsize := strikeSize y
          bestdeviation := ((strikeDeviation pixelsize (strikeSize y) : ℚ) : WithTop ℚ)
          bestidx := (i : Int) } := by
      unfold strikeStep
      dsimp only
      rw [if_pos]
      rcases hst with h | ⟨h1, h2⟩
      · exact Or.inl h
      · exact Or.inr (Or.inr ⟨h2 y (List.mem_cons_self _ _), h1⟩)
    rw [hstep]
    by_cases hr : rest = []
    · subst hr
      simp [strikeLoop]
    · rw [ih hr (List.Pairwise.of_cons hsorted)
        (fun z hz => hfar z (List.mem_cons_of_mem _ hz)) (i + 1) _ (Or.inr ⟨?_, ?_⟩)]
      · rw [List.getLast_cons hr]
        have : i + 1 + rest.length - 1 = i + (y :: rest).length - 1 := by
          simp only [List.length_cons]; omega
        rw [this]
      · exact WithTop.coe_lt_coe.mpr (hfar y (List.mem_cons_self _ _))
      · intro z hz
        exact List.rel_of_pairwise_cons hsorted hz

/-- What the search does by design when no strike is within the threshold and the
strikes are listed in ascending order: it ends on the last, largest strike and the
requested pixel size is kept. -/
theorem Font_create_strike_ascending (available_sizes : List Int)
    (pixelsize maxunscaleddeviation : ℚ) (hne : available_sizes ≠ [])
    (hsorted : available_sizes.Pairwise (fun a b => strikeSize a < strikeSize b))
    (hfar : ∀ y ∈ available_sizes,
      maxunscaleddeviation < strikeDeviation pixelsize (strikeSize y)) :
    (Font_create_strike available_sizes pixelsize maxunscaleddeviation).bestidx
      = ((available_sizes.length - 1 : Nat) : Int) ∧
    (Font_create_strike available_sizes pixelsize maxunscaleddeviation).fixedpixelsize
      = strikeSize (available_sizes.getLast hne) ∧
    (Font_create_strike available_sizes pixelsize maxunscaleddeviation).pixelsize
      = pixelsize := by
  have h := strikeLoop_ascending pixelsize maxunscaleddeviation available_sizes hne hsorted
    hfar 0 { fixedpixelsize := 0, bestdeviation := ⊤, bestidx := -1 } (Or.inl (by decide))
  unfold Font_create_strike
  dsimp only
  rw [h]
  dsimp only
  refine ⟨by rw [Nat.zero_add], rfl, ?_⟩
  rw [if_neg]
  rw [not_le]
  exact WithTop.coe_lt_coe.mpr (hfar _ (List.getLast_mem hne))

theorem int_land_natCast (a b : Nat) : Int.land (a : Int) (b : Int) = ((a &&& b : Nat) : Int) := rfl

theorem land_mask_eq_iff (n b : Nat) : n &&& (2 ^ b - 1) = n ↔ n < 2 ^ b := by
  rw [Nat.and_pow_two_sub_one_eq_mod]
  constructor
  · intro h
    rw [← h]
    exact Nat.mod_lt _ (Nat.pos_pow_of_pos b (by norm_num))
  · exact Nat.mod_eq_of_lt

/-- The sizing loop started at width `glyphidbits` with the matching mask and the
remaining fuel stops, for a count below `2^32`, at the first width whose mask covers
the count. -/
theorem glyphidLoop_terminates (n : Nat) (hn : n < 4294967296) (fuel glyphidbits : Nat)
    (hb : glyphidbits + fuel = 33) (h1 : 1 ≤ glyphidbits)
    (hmin : glyphidbits = 1 ∨ n > 2 ^ (glyphidbits - 1) - 1) :
    ∃ g, glyphidLoop (n : Int) fuel glyphidbits (2 ^ glyphidbits - 1) = some (g, 2 ^ g - 1) ∧
      1 ≤ g ∧ g ≤ 32 ∧ n ≤ 2 ^ g - 1 ∧ (g = 1 ∨ n > 2 ^ (g - 1) - 1) := by
  induction fuel generalizing glyphidbits with
  | zero =>
    -- width 33 is never reached: the mask of width 32 covers every 32 bit count
    exfalso
    have : glyphidbits = 33 := by omega
    subst this
    rcases hmin with h | h
    · omega
    · have : (2 : Nat) ^ (33 - 1) - 1 = 4294967295 := by norm_num
      omega
  | succ fuel ih =>
    unfold glyphidLoop
    have hpos : 0 < 2 ^ glyphidbits := Nat.pos_pow_of_pos _ (by norm_num)
    by_cases hc : Int.land (n : Int) ((2 ^ glyphidbits - 1 : Nat) : Int) ≠ (n : Int)
    · rw [if_pos hc]
      have hle : glyphidbits ≤ 32 := by omega
      have hnot : ¬ n < 2 ^ glyphidbits := by
        intro hlt
        apply hc
        rw [int_land_natCast, (land_mask_eq_iff n glyphidbits).mpr hlt]
      have hlt32 : glyphidbits < 32 := by
        by_contra hge
        have : glyphidbits = 32 := by omega
        subst this
        exact hnot (by norm_num; exact hn)
      have hbits : (glyphidbits + 1) % 256 = glyphidbits + 1 := by omega
      have hmask : (((2 ^ glyphidbits - 1) <<< 1) % 4294967296) ||| 1
          = 2 ^ (glyphidbits + 1) - 1 := by
        have : glyphidbits ≤ 31 := by omega
        interval_cases glyphidbits <;> rfl
      rw [hbits, hmask]
      apply ih (glyphidbits + 1) (by omega) (by omega)
      right
      rw [Nat.add_sub_cancel]
      omega
    · rw [if_neg hc]
      refine ⟨glyphidbits, rfl, h1, by omega, ?_, hmin⟩
      have hc' : Int.land (n : Int) ((2 ^ glyphidbits - 1 : Nat) : Int) = (n : Int) := by
        simpa using hc
      rw [int_land_natCast] at hc'
      have := (land_mask_eq_iff n glyphidbits).mp (by exact_mod_cast hc')
      omega

/-- Marking a glyph id changes at most the bit `glyphid & 0x1f` of word `glyphid >> 5`. -/
theorem testBit_markUploaded (u : Nat → Nat) (g w b : Nat)
    (h : ((markUploaded u g) w).testBit b ≠ (u w).testBit b) :
    g >>> 5 = w ∧ g &&& 31 = b := by
  unfold markUploaded at h
  by_cases hw : w = g >>> 5
  · subst hw
    rw [Function.update_same, Nat.testBit_lor, Nat.one_shiftLeft, Nat.testBit_two_pow] at h
    refine ⟨rfl, ?_⟩
    by_contra hb
    apply h
    simp [hb]
  · rw [Function.update_noteq hw] at h
    exact absurd rfl h

theorem testBit_foldl_markUploaded (ids : List Nat) (u : Nat → Nat) (w b : Nat)
    (h : ((ids.foldl markUploaded u) w).testBit b ≠ (u w).testBit b) :
    ∃ g ∈ ids, g >>> 5 = w ∧ g &&& 31 = b := by
  induction ids generalizing u with
  | nil => exact absurd rfl h
  | cons a rest ih =>
    rw [List.foldl_cons] at h
    by_cases h1 : ((rest.foldl markUploaded (markUploaded u a)) w).testBit b
        = ((markUploaded u a) w).testBit b
    · rw [h1] at h
      exact ⟨a, List.mem_cons_self _ _, testBit_markUploaded u a w b h⟩
    · obtain ⟨g, hg, hgw⟩ := ih _ h1
      exact ⟨g, List.mem_cons_of_mem _ hg, hgw⟩

theorem uploadedWords_of_range {g s : Nat} (h5 : 5 ≤ g + s) (h37 : g + s < 37) :
    uploadedWords g s = some (2 ^ (g + s - 5)) := by
  unfold uploadedWords
  have h1 : 0 ≤ (g : Int) + (s : Int) - 5 ∧ (g : Int) + (s : Int) - 5 < 32 := by omega
  rw [if_pos h1, Nat.one_shiftLeft]
  have : ((g : Int) + (s : Int) - 5).toNat = g + s - 5 := by omega
  rw [this]

/-- Where the allocation is defined and the ids fit in 32 bits, it is as the
specification says: `2^(glyphidbits + subpixelbits)` bits, and the word of every valid
id lies inside. -/
theorem Font_create_handle_covered {subpixelbits : Nat} {face : Face}
    {pixelsize fixedpixelsize : ℚ} {self : Font}
    (h : Font_create_handle subpixelbits face pixelsize fixedpixelsize = some self)
    (h5 : 5 ≤ self.glyphidbits + self.subpixelbits)
    (h32 : self.glyphidbits + self.subpixelbits ≤ 32) :
    ∃ words, uploadedWords self.glyphidbits self.subpixelbits = some words ∧
      words * 32 = 2 ^ (self.glyphidbits + self.subpixelbits) ∧
      ∀ glyphid, glyphid ≤ (self.glyphidmask ||| self.subpixelmask) → glyphid >>> 5 < words := by
  obtain ⟨hg1, hg2, hm, hs, hsm, _⟩ := Font_create_handle_masks h
  refine ⟨2 ^ (self.glyphidbits + self.subpixelbits - 5),
    uploadedWords_of_range h5 (by omega), ?_, ?_⟩
  · have : self.glyphidbits + self.subpixelbits
        = (self.glyphidbits + self.subpixelbits - 5) + 5 := by omega
    conv_rhs => rw [this, Nat.pow_add]
  · intro glyphid hle
    have hpg : 0 < 2 ^ self.glyphidbits := Nat.pos_pow_of_pos _ (by norm_num)
    have hps : 0 < 2 ^ self.subpixelbits := Nat.pos_pow_of_pos _ (by norm_num)
    have hprod : (2 ^ self.subpixelbits - 1) * 2 ^ self.glyphidbits + 2 ^ self.glyphidbits
        = 2 ^ (self.glyphidbits + self.subpixelbits) := by
      rw [Nat.pow_add, Nat.sub_mul, Nat.one_mul, Nat.mul_comm]
      have : 2 ^ self.glyphidbits ≤ 2 ^ self.glyphidbits * 2 ^ self.subpixelbits :=
        Nat.le_mul_of_pos_right _ hps
      omega
    have hbig : 2 ^ (self.glyphidbits + self.subpixelbits) ≤ 4294967296 := by
      calc 2 ^ (self.glyphidbits + self.subpixelbits) ≤ 2 ^ 32 :=
            Nat.pow_le_pow_right (by norm_num) h32
        _ = 4294967296 := by norm_num
    have hmax : self.glyphidmask ||| self.subpixelmask
        = 2 ^ (self.glyphidbits + self.subpixelbits) - 1 := by
      rw [hm, hsm, Nat.shiftLeft_eq, Nat.mod_eq_of_lt (by omega), Nat.lor_comm,
        ← Nat.shiftLeft_eq, shiftLeft_lor_eq_add (by omega)]
      omega
    rw [hmax] at hle
    rw [Nat.shiftRight_eq_div_pow]
    have h2 : 2 ^ (self.glyphidbits + self.subpixelbits)
        = 2 ^ (self.glyphidbits + self.subpixelbits - 5) * 2 ^ 5 := by
      rw [← Nat.pow_add]
      congr 1
      omega
    apply (Nat.div_lt_iff_lt_mul (by norm_num)).mpr
    rw [← h2]
    have : 0 < 2 ^ (self.glyphidbits + self.subpixelbits) := Nat.pos_pow_of_pos _ (by norm_num)
    omega

theorem Font_scale_of_unscaled (self : Font) (h : self.fixedpixelsize = 0) (val : Nat) :
    Font_scale self val = val := by
  unfold Font_scale
  rw [if_pos h]

theorem glyphMetrics_x (self : Font) (slot : GlyphSlot) :
    (glyphMetrics self slot).x = toInt16 (Font_scale self (toUInt32 (-slot.bitmap_left))) := rfl

theorem Font_scale_of_scaled (self : Font) (h : self.fixedpixelsize ≠ 0) (val : Nat) :
    Font_scale self val
      = (Int.toNat ⌊roundDouble (roundDouble ((val : ℚ)
          * roundDouble (self.pixelsize / self.fixedpixelsize)) + 1)⌋) % 4294967296 := by
  unfold Font_scale
  rw [if_neg h]
  rfl

/-- Where the scaled origin offset is as the specification says: with scaling active,
a non-negative scale and a left bearing that is zero or negative, the recorded
`glyphs[i].x` is `-bitmap_left * (pixelsize / fixedpixelsize) + 1`, computed in `double`
and truncated, as long as that fits the 16 bit field. -/
theorem glyphMetrics_x_of_nonpos (self : Font) (slot : GlyphSlot)
    (h : self.fixedpixelsize ≠ 0) (hl : slot.bitmap_left ≤ 0)
    (hl32 : -4294967296 < slot.bitmap_left)
    (h0 : 0 ≤ ⌊roundDouble (roundDouble (((-slot.bitmap_left : Int) : ℚ)
      * roundDouble (self.pixelsize / self.fixedpixelsize)) + 1)⌋)
    (hfit : ⌊roundDouble (roundDouble (((-slot.bitmap_left : Int) : ℚ)
      * roundDouble (self.pixelsize / self.fixedpixelsize)) + 1)⌋ < 32768) :
    (glyphMetrics self slot).x
      = ⌊roundDouble (roundDouble (((-slot.bitmap_left : Int) : ℚ)
          * roundDouble (self.pixelsize / self.fixedpixelsize)) + 1)⌋ := by
  show toInt16 (Font_scale self (toUInt32 (-slot.bitmap_left))) = _
  have h1 : ((toUInt32 (-slot.bitmap_left) : Nat) : Int) = -slot.bitmap_left := by
    unfold toUInt32
    rw [Int.emod_eq_of_lt (by omega) (by omega)]
    omega
  have h2 : ((toUInt32 (-slot.bitmap_left) : Nat) : ℚ) = ((-slot.bitmap_left : Int) : ℚ) := by
    have := congrArg (fun z : Int => (z : ℚ)) h1
    simpa using this
  rw [Font_scale_of_scaled self h, h2]
  generalize ⌊roundDouble (roundDouble (((-slot.bitmap_left : Int) : ℚ)
    * roundDouble (self.pixelsize / self.fixedpixelsize)) + 1)⌋ = z at h0 hfit
  unfold toInt16
  have hz : (z.toNat : Int) = z := Int.toNat_of_nonneg h0
  have hlt : z.toNat < 32768 := by omega
  have hm1 : z.toNat % 4294967296 = z.toNat := Nat.mod_eq_of_lt (by omega)
  have hm2 : z.toNat % 65536 = z.toNat := Nat.mod_eq_of_lt (by omega)
  rw [hm1, hm2, if_pos hlt, hz]

theorem filter_mid (b : Int → Nat) (stride w h x y nc c : Int)
    (hbyte : ∀ a, b a < 256) :
    filter 1 mid b stride w h x y nc c = fetch b stride w h x y nc c := by
  have hf : fetch b stride w h x y nc c < 256 := by
    unfold fetch
    exact hbyte _
  unfold filter mid
  simp only [List.range_succ, List.range_zero, List.nil_append, List.foldl_cons, List.foldl_nil]
  simp
  omega

theorem foldl_preserve {α β : Type} (f : β → α → β) (Q : β → Prop) (L : List α)
    (hpres : ∀ m a, a ∈ L → Q m → Q (f m a)) (init : β) (h0 : Q init) :
    Q (L.foldl f init) := by
  induction L generalizing init with
  | nil => exact h0
  | cons a rest ih =>
    rw [List.foldl_cons]
    exact ih (fun m a' ha' hq => hpres m a' (List.mem_cons_of_mem _ ha') hq) _
      (hpres init a (List.mem_cons_self _ _) h0)

theorem foldl_establish {α β : Type} (f : β → α → β) (Q : β → Prop) (e : α) (L : List α)
    (hnd : L.Nodup) (he : e ∈ L)
    (hpres : ∀ m a, a ∈ L → a ≠ e → Q m → Q (f m a))
    (hest : ∀ m, Q (f m e)) (init : β) :
    Q (L.foldl f init) := by
  induction L generalizing init with
  | nil => cases he
  | cons a rest ih =>
    rw [List.foldl_cons]
    have hnd' := List.nodup_cons.mp hnd
    by_cases hae : a = e
    · subst hae
      apply foldl_preserve f Q rest _ _ (hest init)
      intro m a' ha' hq
      refine hpres m a' (List.mem_cons_of_mem _ ha') ?_ hq
      intro h
      exact hnd'.1 (h ▸ ha')
    · rcases List.mem_cons.mp he with h | h
      · exact absurd h.symm hae
      · exact ih hnd'.2 h
          (fun m a' ha' hne hq => hpres m a' (List.mem_cons_of_mem _ ha') hne hq) _

theorem range4 : List.range 4 = [0, 1, 2, 3] := rfl

theorem align4_mod (n : Nat) : align4 n % 4 = 0 := by
  unfold align4
  omega

theorem align4_ge (n : Nat) : n ≤ align4 n := by
  unfold align4
  omega

theorem align4_le (n : Nat) : align4 n ≤ n + 3 := by
  unfold align4
  omega

/-- In color mode a pixel round leaves 255 in every byte of `bitmapdata` that holds 255
and lies at an alpha position (offset 3 modulo 4 from the start of the glyph). -/
theorem writePixel_alpha_preserved (self : Font) (slot : GlyphSlot)
    (hB : self.glyphtype = FontGlyphType.FGT_BITMAP_BGRA)
    (stride maskstride pos mpos y x : Nat) (hs : stride % 4 = 0)
    (mem : (Nat → Nat) × (Nat → Nat)) (A : Nat) (hA : pos ≤ A ∧ (A - pos) % 4 = 3)
    (h : mem.1 A = 255) :
    (writePixel self slot stride maskstride pos mpos y x mem).1 A = 255 := by
  have hrow : ((y * stride) % 4294967296) % 4 = 0 := by
    obtain ⟨t, ht⟩ : ∃ t, stride = 4 * t := ⟨stride / 4, by omega⟩
    rw [ht, ← Nat.mul_assoc, Nat.mul_comm y 4, Nat.mul_assoc]
    omega
  unfold writePixel
  simp only [hB, if_true, range4, List.foldl_cons, List.foldl_nil]
  simp only [Function.update_apply]
  split_ifs <;> first | rfl | exact h | (exfalso; omega)

/-- In color mode the pixel round for `(x, y)` leaves 255 in the alpha byte of that
pixel. -/
theorem writePixel_alpha_set (self : Font) (slot : GlyphSlot)
    (hB : self.glyphtype = FontGlyphType.FGT_BITMAP_BGRA)
    (stride maskstride pos mpos y x : Nat) (mem : (Nat → Nat) × (Nat → Nat)) :
    (writePixel self slot stride maskstride pos mpos y x mem).1
      (pos + (y * stride) % 4294967296 + (x * 4 + 3)) = 255 := by
  unfold writePixel
  simp only [hB, if_true, range4, List.foldl_cons, List.foldl_nil]
  simp only [Function.update_apply]
  simp

theorem writePixel_mask_other (self : Font) (slot : GlyphSlot)
    (hB : self.glyphtype = FontGlyphType.FGT_BITMAP_BGRA)
    (stride maskstride pos mpos y x : Nat) (mem : (Nat → Nat) × (Nat → Nat)) (M : Nat)
    (hM : M ≠ mpos + (y * maskstride) % 4294967296 + x) :
    (writePixel self slot stride maskstride pos mpos y x mem).2 M = mem.2 M := by
  unfold writePixel
  simp only [hB, if_true]
  exact Function.update_noteq hM _ _

theorem writePixel_mask_set (self : Font) (slot : GlyphSlot)
    (hB : self.glyphtype = FontGlyphType.FGT_BITMAP_BGRA)
    (stride maskstride pos mpos y x : Nat) (mem : (Nat → Nat) × (Nat → Nat)) :
    (writePixel self slot stride maskstride pos mpos y x mem).2
        (mpos + (y * maskstride) % 4294967296 + x)
      = filter (filterKernel self).2.1 (filterKernel self).2.2 slot.buffer slot.pitch
          slot.width slot.rows
          ((sourceCoord (filterKernel self).1 x : Nat) : Int)
          ((sourceCoord (filterKernel self).1 y : Nat) : Int)
          4 3 := by
  unfold writePixel
  simp only [hB, if_true, range4, List.foldl_cons, List.foldl_nil, Function.update_same]
  rfl

theorem writePixel_gray_other (self : Font) (slot : GlyphSlot)
    (hG : self.glyphtype ≠ FontGlyphType.FGT_BITMAP_BGRA)
    (stride maskstride pos mpos y x : Nat) (mem : (Nat → Nat) × (Nat → Nat)) (A : Nat)
    (hA : A ≠ pos + (y * stride) % 4294967296 + x) :
    (writePixel self slot stride maskstride pos mpos y x mem).1 A = mem.1 A := by
  unfold writePixel
  simp only [hG, if_false]
  exact Function.update_noteq hA _ _

theorem writePixel_gray_set (self : Font) (slot : GlyphSlot)
    (hG : self.glyphtype ≠ FontGlyphType.FGT_BITMAP_BGRA)
    (stride maskstride pos mpos y x : Nat) (mem : (Nat → Nat) × (Nat → Nat)) :
    (writePixel self slot stride maskstride pos mpos y x mem).1
        (pos + (y * stride) % 4294967296 + x)
      = filter (filterKernel self).2.1 (filterKernel self).2.2 slot.buffer slot.pitch
          slot.width slot.rows
          ((sourceCoord (filterKernel self).1 x : Nat) : Int)
          ((sourceCoord (filterKernel self).1 y : Nat) : Int)
          1 1 := by
  unfold writePixel
  simp only [hG, if_false, Function.update_same]

/-- Rows of a 16 bit tall image with a stride of at most 65536 do not wrap and do not
overlap: the byte offset determines the pixel. -/
theorem row_offset_inj {s x x' y y' : Nat} (hs : s ≤ 65536) (hx : x < s) (hx' : x' < s)
    (hy : y < 65535) (hy' : y' < 65535)
    (h : (y * s) % 4294967296 + x = (y' * s) % 4294967296 + x') : y = y' ∧ x = x' := by
  have hb : ∀ z, z < 65535 → z * s < 4294967296 := by
    intro z hz
    calc z * s ≤ 65535 * 65536 := Nat.mul_le_mul (by omega) hs
      _ < 4294967296 := by norm_num
  rw [Nat.mod_eq_of_lt (hb y hy), Nat.mod_eq_of_lt (hb y' hy')] at h
  rcases Nat.lt_trichotomy y y' with hlt | heq | hgt
  · exfalso
    have : (y + 1) * s ≤ y' * s := Nat.mul_le_mul_right s hlt
    rw [Nat.succ_mul] at this
    omega
  · subst heq
    exact ⟨rfl, by omega⟩
  · exfalso
    have : (y' + 1) * s ≤ y * s := Nat.mul_le_mul_right s hgt
    rw [Nat.succ_mul] at this
    omega

/-- The alpha byte of every pixel is 255 after the color resampling of a glyph. -/
theorem writeGlyph_alpha (self : Font) (slot : GlyphSlot)
    (hB : self.glyphtype = FontGlyphType.FGT_BITMAP_BGRA) (g : GlyphInfo)
    (pos mpos : Nat) (mem : (Nat → Nat) × (Nat → Nat)) (x y : Nat)
    (hx : x < g.width) (hy : y < g.height) :
    (writeGlyph self slot g pos mpos mem).1
      (pos + (y * strideOf self g) % 4294967296 + (x * 4 + 3)) = 255 := by
  have hs : strideOf self g % 4 = 0 := align4_mod _
  have hrow : ((y * strideOf self g) % 4294967296) % 4 = 0 := by
    obtain ⟨t, ht⟩ : ∃ t, strideOf self g = 4 * t := ⟨strideOf self g / 4, by omega⟩
    rw [ht, ← Nat.mul_assoc, Nat.mul_comm y 4, Nat.mul_assoc]
    omega
  have hA : pos ≤ pos + (y * strideOf self g) % 4294967296 + (x * 4 + 3) ∧
      (pos + (y * strideOf self g) % 4294967296 + (x * 4 + 3) - pos) % 4 = 3 := by
    constructor <;> omega
  unfold writeGlyph
  have hne : self.glyphtype ≠ FontGlyphType.FGT_OUTLINE := by rw [hB]; decide
  simp only [hne, ne_eq, not_false_eq_true, if_true]
  apply foldl_establish _
    (fun m : (Nat → Nat) × (Nat → Nat) =>
      m.1 (pos + (y * strideOf self g) % 4294967296 + (x * 4 + 3)) = 255) y
    (List.range g.height) (List.nodup_range _) (List.mem_range.mpr hy)
  · intro m y' _ _ hq
    exact foldl_preserve _ _ _
      (fun m' x' _ hq' => writePixel_alpha_preserved self slot hB _ _ _ _ _ _ hs m' _ hA hq')
      m hq
  · intro m
    apply foldl_establish _
      (fun m : (Nat → Nat) × (Nat → Nat) =>
        m.1 (pos + (y * strideOf self g) % 4294967296 + (x * 4 + 3)) = 255) x
      (List.range g.width) (List.nodup_range _) (List.mem_range.mpr hx)
    · intro m' x' _ _ hq'
      exact writePixel_alpha_preserved self slot hB _ _ _ _ _ _ hs m' _ hA hq'
    · intro m'
      exact writePixel_alpha_set self slot hB _ _ _ _ _ _ m'

/-- The mask byte of every pixel is the filtered alpha channel after the color
resampling of a glyph. -/
theorem writeGlyph_mask (self : Font) (slot : GlyphSlot)
    (hB : self.glyphtype = FontGlyphType.FGT_BITMAP_BGRA) (g : GlyphInfo)
    (hw : g.width < 65536) (hh : g.height < 65536)
    (pos mpos : Nat) (mem : (Nat → Nat) × (Nat → Nat)) (x y : Nat)
    (hx : x < g.width) (hy : y < g.height) :
    (writeGlyph self slot g pos mpos mem).2
        (mpos + (y * maskstrideOf self g) % 4294967296 + x)
      = filter (filterKernel self).2.1 (filterKernel self).2.2 slot.buffer slot.pitch
          slot.width slot.rows
          ((sourceCoord (filterKernel self).1 x : Nat) : Int)
          ((sourceCoord (filterKernel self).1 y : Nat) : Int)
          4 3 := by
  have hms : maskstrideOf self g = align4 g.width := by
    unfold maskstrideOf
    rw [if_pos hB]
  have hs1 : maskstrideOf self g ≤ 65536 := by
    rw [hms]; unfold align4; omega
  have hs2 : g.width ≤ maskstrideOf self g := by
    rw [hms]; exact align4_ge _
  have hset := fun m' => writePixel_mask_set self slot hB (strideOf self g)
    (maskstrideOf self g) pos mpos y x m'
  generalize filter (filterKernel self).2.1 (filterKernel self).2.2 slot.buffer slot.pitch
      slot.width slot.rows
      ((sourceCoord (filterKernel self).1 x : Nat) : Int)
      ((sourceCoord (filterKernel self).1 y : Nat) : Int)
      4 3 = v at hset ⊢
  unfold writeGlyph
  have hne : self.glyphtype ≠ FontGlyphType.FGT_OUTLINE := by rw [hB]; decide
  simp only [hne, ne_eq, not_false_eq_true, if_true]
  apply foldl_establish _
    (fun m : (Nat → Nat) × (Nat → Nat) =>
      m.2 (mpos + (y * maskstrideOf self g) % 4294967296 + x) = v) y
    (List.range g.height) (List.nodup_range _) (List.mem_range.mpr hy)
  · intro m y' hy' hne' hq
    refine foldl_preserve _ (fun m : (Nat → Nat) × (Nat → Nat) =>
      m.2 (mpos + (y * maskstrideOf self g) % 4294967296 + x) = v) _
      (fun m' x' hx' hq' => ?_) m hq
    show (writePixel self slot _ _ pos mpos y' x' m').2 _ = v
    rw [writePixel_mask_other self slot hB]
    · exact hq'
    · intro heq
      have := row_offset_inj hs1 (by omega) (by have := List.mem_range.mp hx'; omega)
        (by omega) (by have := List.mem_range.mp hy'; omega)
        (show (y * maskstrideOf self g) % 4294967296 + x
          = (y' * maskstrideOf self g) % 4294967296 + x' by omega)
      exact hne' this.1.symm
  · intro m
    apply foldl_establish _
      (fun m : (Nat → Nat) × (Nat → Nat) =>
        m.2 (mpos + (y * maskstrideOf self g) % 4294967296 + x) = v) x
      (List.range g.width) (List.nodup_range _) (List.mem_range.mpr hx)
    · intro m' x' hx' hne' hq'
      show (writePixel self slot _ _ pos mpos y x' m').2 _ = v
      rw [writePixel_mask_other self slot hB]
      · exact hq'
      · intro heq
        have := row_offset_inj hs1 (by omega) (by have := List.mem_range.mp hx'; omega)
          (by omega) (by omega)
          (show (y * maskstrideOf self g) % 4294967296 + x
            = (y * maskstrideOf self g) % 4294967296 + x' by omega)
        exact hne' this.2.symm
    · intro m'
      exact hset m'

theorem glyphMetrics_bounds (self : Font) (slot : GlyphSlot) :
    (glyphMetrics self slot).width < 65536 ∧ (glyphMetrics self slot).height < 65536 := by
  constructor
  · show toUInt16 _ < 65536
    unfold toUInt16
    omega
  · show toUInt16 _ < 65536
    unfold toUInt16
    omega

/-- Every payload byte of a gray glyph is what `filter` returns with the arguments of
the source, `nc = 1` and `c = 1`. -/
theorem writeGlyph_gray (self : Font) (slot : GlyphSlot)
    (hG : self.glyphtype = FontGlyphType.FGT_BITMAP_GRAY) (g : GlyphInfo)
    (hw : g.width < 65536) (hh : g.height < 65536)
    (pos mpos : Nat) (mem : (Nat → Nat) × (Nat → Nat)) (x y : Nat)
    (hx : x < g.width) (hy : y < g.height) :
    (writeGlyph self slot g pos mpos mem).1
        (pos + (y * strideOf self g) % 4294967296 + x)
      = filter (filterKernel self).2.1 (filterKernel self).2.2 slot.buffer slot.pitch
          slot.width slot.rows
          ((sourceCoord (filterKernel self).1 x : Nat) : Int)
          ((sourceCoord (filterKernel self).1 y : Nat) : Int)
          1 1 := by
  have hnB : self.glyphtype ≠ FontGlyphType.FGT_BITMAP_BGRA := by rw [hG]; decide
  have hst : strideOf self g = align4 g.width := by
    unfold strideOf bytesPerPixel
    rw [if_neg hnB, Nat.mul_one]
  have hs1 : strideOf self g ≤ 65536 := by
    rw [hst]; unfold align4; omega
  have hs2 : g.width ≤ strideOf self g := by
    rw [hst]; exact align4_ge _
  have hset := fun m' => writePixel_gray_set self slot hnB (strideOf self g)
    (maskstrideOf self g) pos mpos y x m'
  generalize filter (filterKernel self).2.1 (filterKernel self).2.2 slot.buffer slot.pitch
      slot.width slot.rows
      ((sourceCoord (filterKernel self).1 x : Nat) : Int)
      ((sourceCoord (filterKernel self).1 y : Nat) : Int)
      1 1 = v at hset ⊢
  unfold writeGlyph
  have hne : self.glyphtype ≠ FontGlyphType.FGT_OUTLINE := by rw [hG]; decide
  simp only [hne, ne_eq, not_false_eq_true, if_true]
  apply foldl_establish _
    (fun m : (Nat → Nat) × (Nat → Nat) =>
      m.1 (pos + (y * strideOf self g) % 4294967296 + x) = v) y
    (List.range g.height) (List.nodup_range _) (List.mem_range.mpr hy)
  · intro m y' hy' hne' hq
    refine foldl_preserve _ (fun m : (Nat → Nat) × (Nat → Nat) =>
      m.1 (pos + (y * strideOf self g) % 4294967296 + x) = v) _
      (fun m' x' hx' hq' => ?_) m hq
    show (writePixel self slot _ _ pos mpos y' x' m').1 _ = v
    rw [writePixel_gray_other self slot hnB]
    · exact hq'
    · intro heq
      have := row_offset_inj hs1 (by omega) (by have := List.mem_range.mp hx'; omega)
        (by omega) (by have := List.mem_range.mp hy'; omega)
        (show (y * strideOf self g) % 4294967296 + x
          = (y' * strideOf self g) % 4294967296 + x' by omega)
      exact hne' this.1.symm
  · intro m
    apply foldl_establish _
      (fun m : (Nat → Nat) × (Nat → Nat) =>
        m.1 (pos + (y * strideOf self g) % 4294967296 + x) = v) x
      (List.range g.width) (List.nodup_range _) (List.mem_range.mpr hx)
    · intro m' x' hx' hne' hq'
      show (writePixel self slot _ _ pos mpos y x' m').1 _ = v
      rw [writePixel_gray_other self slot hnB]
      · exact hq'
      · intro heq
        have := row_offset_inj hs1 (by omega) (by have := List.mem_range.mp hx'; omega)
          (by omega) (by omega)
          (show (y * strideOf self g) % 4294967296 + x
            = (y * strideOf self g) % 4294967296 + x' by omega)
        exact hne' this.2.symm
    · intro m'
      exact hset m'

theorem filterKernel_of_scale_one (self : Font) (h0 : self.fixedpixelsize ≠ 0)
    (h1 : self.fixedpixelsize = self.pixelsize) : filterKernel self = (1, 1, mid) := by
  unfold filterKernel
  dsimp only
  have hp : self.pixelsize ≠ 0 := h1 ▸ h0
  rw [if_pos h0, h1, div_self hp, roundDouble_one]
  norm_num

/-- What the gray resampling does at scale 1: output pixel `(x, y)` is the source byte
one position to the right of row `min(y, h-1)`, column `min(x, w-1)`. -/
theorem writeGlyph_gray_scale_one (self : Font) (slot : GlyphSlot)
    (hG : self.glyphtype = FontGlyphType.FGT_BITMAP_GRAY)
    (h0 : self.fixedpixelsize ≠ 0) (h1 : self.fixedpixelsize = self.pixelsize)
    (hbyte : ∀ a, slot.buffer a < 256) (hw1 : 1 ≤ slot.width) (hh1 : 1 ≤ slot.rows)
    (g : GlyphInfo) (hw : g.width < 65536) (hh : g.height < 65536)
    (pos mpos : Nat) (mem : (Nat → Nat) × (Nat → Nat)) (x y : Nat)
    (hx : x < g.width) (hy : y < g.height) :
    (writeGlyph self slot g pos mpos mem).1
        (pos + (y * strideOf self g) % 4294967296 + x)
      = slot.buffer (slot.pitch * ((min y (slot.rows - 1) : Nat) : Int)
          + ((min x (slot.width - 1) : Nat) : Int) + 1) := by
  rw [writeGlyph_gray self slot hG g hw hh pos mpos mem x y hx hy,
    filterKernel_of_scale_one self h0 h1]
  dsimp only
  rw [sourceCoord_one x (by omega), sourceCoord_one y (by omega),
    filter_mid _ _ _ _ _ _ _ _ hbyte]
  unfold fetch
  dsimp only
  have hx0 : ¬ ((x : Int) < 0) := by omega
  have hy0 : ¬ ((y : Int) < 0) := by omega
  rw [if_neg hx0, if_neg hy0]
  have hxm : (if (x : Int) ≥ (slot.width : Int) then (slot.width : Int) - 1 else (x : Int))
      = ((min x (slot.width - 1) : Nat) : Int) := by
    split_ifs with h <;> omega
  have hym : (if (y : Int) ≥ (slot.rows : Int) then (slot.rows : Int) - 1 else (y : Int))
      = ((min y (slot.rows - 1) : Nat) : Int) := by
    split_ifs with h <;> omega
  rw [hxm, hym, Int.one_mul]

theorem Font_scale_graySample (val : Nat) (hv : val < 4294967295) :
    Font_scale graySample val = val + 1 := by
  rw [Font_scale_of_scaled graySample (by show (16 : ℚ) ≠ 0; norm_num)]
  have hs : roundDouble (graySample.pixelsize / graySample.fixedpixelsize) = 1 := by
    show roundDouble ((16 : ℚ) / 16) = 1
    rw [div_self (by norm_num), roundDouble_one]
  have h1 : roundDouble ((val : ℚ) * 1) = (val : ℚ) := by
    rw [mul_one]
    exact roundDouble_natCast val (by omega)
  have h2 : roundDouble ((val : ℚ) + 1) = ((val + 1 : Nat) : ℚ) := by
    have := roundDouble_natCast (val + 1) (by omega)
    push_cast at this ⊢
    exact this
  rw [hs, h1, h2, Int.floor_natCast, Int.toNat_ofNat, Nat.mod_eq_of_lt (by omega)]

theorem glyphMetrics_graySample :
    (glyphMetrics graySample graySlot).width = 3 ∧
    (glyphMetrics graySample graySlot).height = 2 := by
  constructor
  · show toUInt16 (Font_scale graySample 2) = 3
    rw [Font_scale_graySample 2 (by norm_num)]
    rfl
  · show toUInt16 (Font_scale graySample 1) = 2
    rw [Font_scale_graySample 1 (by norm_num)]
    rfl

theorem grayBytes_byte (a : Int) : grayBytes a < 256 := by
  unfold grayBytes
  split_ifs <;> decide

theorem isUploaded_foldl_markUploaded_iff (ids : List Nat) (u : Nat → Nat) (g : Nat) :
    isUploaded (ids.foldl markUploaded u) g = true ↔ (isUploaded u g = true ∨ g ∈ ids) := by
  induction ids generalizing u with
  | nil => simp
  | cons a rest ih =>
    rw [List.foldl_cons, ih, isUploaded_markUploaded_iff, List.mem_cons]
    tauto

/-- The flush goes on exactly when every request issued up to and including its own
passes `CHECK`. -/
theorem sendBatch_checks (check : Nat → Bool) (glyphids : List Nat) (last : Nat)
    (st : UploadState) (hp : ∀ n, n < st.calls.length → check n = true) :
    (sendBatch check glyphids last st).1 = true ↔
      ∀ n, n < (sendBatch check glyphids last st).2.calls.length → check n = true := by
  unfold sendBatch
  dsimp only
  by_cases h1 : check st.calls.length = false
  · rw [if_pos h1]
    constructor
    · intro h
      simp at h
    · intro h
      have := h st.calls.length (by simp)
      rw [h1] at this
      exact absurd this (by decide)
  · rw [if_neg h1]
    have h1' : check st.calls.length = true := by simpa using h1
    by_cases hm : st.maskdatapos ≠ 0
    · rw [if_pos hm]
      by_cases h2 : check (st.calls ++
          [({ target := GlyphSet.glyphset
              glyphids := (glyphids.drop st.firstglyph).take (last - st.firstglyph)
              glyphs := (st.glyphs.drop st.firstglyph).take (last - st.firstglyph)
              data_len := st.bitmapdatapos
              data := st.bitmapdata } : AddGlyphs)]).length = false
      · rw [if_pos h2]
        constructor
        · intro h
          simp at h
        · intro h
          have := h (st.calls ++
            [({ target := GlyphSet.glyphset
                glyphids := (glyphids.drop st.firstglyph).take (last - st.firstglyph)
                glyphs := (st.glyphs.drop st.firstglyph).take (last - st.firstglyph)
                data_len := st.bitmapdatapos
                data := st.bitmapdata } : AddGlyphs)]).length (by simp)
          rw [h2] at this
          exact absurd this (by decide)
      · rw [if_neg h2]
        have h2' : check (st.calls.length + 1) = true := by simpa using h2
        refine ⟨fun _ n hn => ?_, fun _ => rfl⟩
        simp only [List.length_append, List.length_singleton] at hn
        rcases Nat.lt_or_ge n st.calls.length with h | h
        · exact hp n h
        · rcases Nat.eq_or_lt_of_le h with h | h
          · rw [← h]; exact h1'
          · have : n = st.calls.length + 1 := by omega
            rw [this]; exact h2'
    · rw [if_neg hm]
      refine ⟨fun _ n hn => ?_, fun _ => rfl⟩
      simp only [List.length_append, List.length_singleton] at hn
      rcases Nat.lt_or_ge n st.calls.length with h | h
      · exact hp n h
      · have : n = st.calls.length := by omega
        rw [this]; exact h1'

/-- A round that goes on has seen every request it issued pass `CHECK`. -/
theorem uploadBody_true_checks {T : Transport} {check : Nat → Bool} {self : Font}
    {glyphids : List Nat} {i : Nat} {st st' : UploadState}
    (hp : ∀ n, n < st.calls.length → check n = true)
    (h : uploadBody T check self glyphids i st = (true, st')) :
    ∀ n, n < st'.calls.length → check n = true := by
  rcases uploadBody_true h with ⟨_, _, hc, _, _⟩ | ⟨_, _, _, hs, hc, _⟩
  · rw [hc]
    exact hp
  · rw [hc]
    exact (sendBatch_checks check glyphids i
      { st with glyphs := st.glyphs ++ [glyphOf self (glyphids.getD i 0)] } hp).1 hs

/-- A round that leaves the function adds at most one batch to the requests sent to the
primary glyph set, and none exactly when every request issued so far passed `CHECK`,
that is when it leaves through a failed `FT_Load_Glyph`. -/
theorem uploadBody_false_batches {T : Transport} {check : Nat → Bool} {self : Font}
    {glyphids : List Nat} {i : Nat} {st st' : UploadState}
    (hp : ∀ n, n < st.calls.length → check n = true)
    (h : uploadBody T check self glyphids i st = (false, st')) :
    ∃ cut : List (List Nat), batches st'.calls = batches st.calls ++ cut ∧ cut.length ≤ 1 ∧
      (cut = [] ↔ ∀ n, n < st'.calls.length → check n = true) := by
  unfold uploadBody at h
  dsimp only at h
  split_ifs at h with h1 h2
  · simp only [Prod.mk.injEq, true_and] at h
    subst h
    exact ⟨[], by simp, by simp, ⟨fun _ => hp, fun _ => rfl⟩⟩
  · simp only [Prod.mk.injEq, true_and] at h
    subst h
    unfold flushBatch at h2 ⊢
    dsimp only at h2 ⊢
    split_ifs at h2 ⊢ with h3
    · refine ⟨[(glyphids.drop st.firstglyph).take (i - st.firstglyph)], ?_, by simp, ?_⟩
      · show batches (sendBatch check glyphids i _).2.calls = _
        unfold batches
        rw [sendBatch_primaryCalls]
        simp
      · constructor
        · intro hnil
          exact absurd hnil (by simp)
        · intro hall
          exfalso
          have hs := (sendBatch_checks check glyphids i
            { st with glyphs :=
                st.glyphs ++ [glyphMetrics self (renderSlot self (glyphids.getD i 0))] } hp).2 hall
          rw [hs] at h2
          exact absurd h2 (by decide)
  · simp at h

/-- The state in which the second loop ends, whatever `CHECK` does: the batches whose
flush completed, followed by at most one batch whose flush `CHECK` cut short, which
there is exactly when some issued request did not pass `CHECK`; the completed ones are
a leading part of `glyphids` and exactly they are marked. -/
theorem uploadLoop_progress {T : Transport} {check : Nat → Bool} {self : Font}
    {glyphids : List Nat} (n : Nat) {i : Nat} {st : UploadState}
    (hi : i + n ≤ glyphids.length) (inv : UploadInv T self glyphids i st)
    (hp : ∀ m, m < st.calls.length → check m = true) :
    ∃ (flushed cut : List (List Nat)) (k : Nat),
      batches (uploadLoop T check self glyphids n i st).2.calls = flushed ++ cut ∧
      cut.length ≤ 1 ∧
      (cut = [] ↔
        ∀ m, m < (uploadLoop T check self glyphids n i st).2.calls.length → check m = true) ∧
      ((uploadLoop T check self glyphids n i st).1 = false → k < glyphids.length) ∧
      flushed.flatten = glyphids.take k ∧
      (uploadLoop T check self glyphids n i st).2.uploaded
        = (glyphids.take k).foldl markUploaded self.uploaded := by
  induction n generalizing i st with
  | zero => exact ⟨batches st.calls, [], st.firstglyph, by simp [uploadLoop], by simp,
      ⟨fun _ => hp, fun _ => rfl⟩, by simp [uploadLoop], inv.sent, inv.marked⟩
  | succ n ih =>
    unfold uploadLoop
    dsimp only
    cases hb : uploadBody T check self glyphids i st with
    | mk ok st1 =>
      cases ok with
      | false =>
        simp only [if_true]
        obtain ⟨cut, hcut, hl, hiff⟩ := uploadBody_false_batches hp hb
        refine ⟨batches st.calls, cut, st.firstglyph, hcut, hl, hiff,
          fun _ => by have := inv.first_le; omega, inv.sent, ?_⟩
        rw [uploadBody_false_uploaded hb]
        exact inv.marked
      | true =>
        simp only [Bool.true_eq_false, if_false]
        exact ih (by omega) (uploadBody_inv (by omega) inv hb) (uploadBody_true_checks hp hb)

/-- When the second loop runs to its end, every request it issued passed `CHECK`. -/
theorem uploadLoop_true_checks {T : Transport} {check : Nat → Bool} {self : Font}
    {glyphids : List Nat} (n : Nat) {i : Nat} {st : UploadState}
    (hp : ∀ m, m < st.calls.length → check m = true)
    (h : (uploadLoop T check self glyphids n i st).1 = true) :
    ∀ m, m < (uploadLoop T check self glyphids n i st).2.calls.length → check m = true := by
  induction n generalizing i st with
  | zero => exact hp
  | succ n ih =>
    unfold uploadLoop at h ⊢
    dsimp only at h ⊢
    cases hb : uploadBody T check self glyphids i st with
    | mk ok st1 =>
      rw [hb] at h
      cases ok with
      | false => simp at h
      | true =>
        simp only [Bool.true_eq_false, if_false] at h ⊢
        exact ih (uploadBody_true_checks hp hb) h

theorem sendBatch_batches (check : Nat → Bool) (glyphids : List Nat) (last : Nat)
    (st : UploadState) :
    batches (sendBatch check glyphids last st).2.calls =
      batches st.calls ++ [(glyphids.drop st.firstglyph).take (last - st.firstglyph)] := by
  unfold batches
  rw [sendBatch_primaryCalls]
  simp

/-- The outcome of `Font_uploadGlyphs`, whatever the return code and whatever `CHECK`
does: the requests to the primary glyph set are the batches whose flush completed,
followed by at most one batch whose flush was cut short by `CHECK`, which there is
exactly when some issued request did not pass `CHECK`; the completed ones are a leading
part of the pending ids and exactly they are marked. -/
theorem Font_uploadGlyphs_progress (T : Transport) (check : Nat → Bool) (self : Font)
    (glyphinfo : List Nat) :
    ∃ (flushed cut : List (List Nat)) (k : Nat),
      batches (Font_uploadGlyphs T check self glyphinfo).calls = flushed ++ cut ∧
      cut.length ≤ 1 ∧
      (cut = [] ↔
        ∀ n, n < (Font_uploadGlyphs T check self glyphinfo).calls.length → check n = true) ∧
      ((Font_uploadGlyphs T check self glyphinfo).rc = -1 → pendingOf self glyphinfo ≠ [] →
        k < (pendingOf self glyphinfo).length) ∧
      flushed.flatten = (pendingOf self glyphinfo).take k ∧
      (Font_uploadGlyphs T check self glyphinfo).self.uploaded
        = ((pendingOf self glyphinfo).take k).foldl markUploaded self.uploaded := by
  have hinit : ∀ m, m < (uploadInit self).calls.length → check m = true := by
    intro m hm
    simp [uploadInit] at hm
  by_cases hr : ∀ g ∈ glyphinfo, g ≤ (self.glyphidmask ||| self.subpixelmask)
  · by_cases hp : pendingOf self glyphinfo = []
    · rw [Font_uploadGlyphs_of_no_pending T check hr hp]
      exact ⟨[], [], 0, by simp [batches, primaryCalls], by simp,
        ⟨fun _ n hn => by simp at hn, fun _ => rfl⟩,
        fun _ h => absurd hp h, by simp, by simp⟩
    · rw [Font_uploadGlyphs_of_pending T check hr hp]
      dsimp only
      by_cases hl : (uploadLoop T check self (pendingOf self glyphinfo)
          (pendingOf self glyphinfo).length 0 (uploadInit self)).1 = false
      · rw [if_pos hl]
        obtain ⟨flushed, cut, k, h1, h2, h3, hk, h4, h5⟩ :=
          @uploadLoop_progress T check self (pendingOf self glyphinfo)
            (pendingOf self glyphinfo).length 0 (uploadInit self) (by omega)
            (uploadInv_init T self (pendingOf self glyphinfo)) hinit
        exact ⟨flushed, cut, k, h1, h2, h3, fun _ _ => hk hl, h4, h5⟩
      · rw [if_neg hl]
        have hl1 : (uploadLoop T check self (pendingOf self glyphinfo)
            (pendingOf self glyphinfo).length 0 (uploadInit self)).1 = true := by
          simpa using hl
        have hl' : uploadLoop T check self (pendingOf self glyphinfo)
            (pendingOf self glyphinfo).length 0 (uploadInit self) =
            (true, (uploadLoop T check self (pendingOf self glyphinfo)
            (pendingOf self glyphinfo).length 0 (uploadInit self)).2) :=
          Prod.ext hl1 rfl
        have inv := uploadLoop_inv (pendingOf self glyphinfo).length (by omega)
          (uploadInv_init T self (pendingOf self glyphinfo)) hl'
        have hps := uploadLoop_true_checks (pendingOf self glyphinfo).length hinit hl1
        rw [Nat.zero_add] at inv
        generalize (uploadLoop T check self (pendingOf self glyphinfo)
            (pendingOf self glyphinfo).length 0 (uploadInit self)).2 = st at inv hps ⊢
        dsimp only
        have hchk := sendBatch_checks check (pendingOf self glyphinfo)
          (pendingOf self glyphinfo).length st hps
        cases hf : (sendBatch check (pendingOf self glyphinfo)
            (pendingOf self glyphinfo).length st).1 with
        | true =>
          refine ⟨batches st.calls ++ [((pendingOf self glyphinfo).drop st.firstglyph).take
              ((pendingOf self glyphinfo).length - st.firstglyph)], [],
            (pendingOf self glyphinfo).length, ?_, by simp,
            ⟨fun _ => hchk.1 hf, fun _ => rfl⟩, ?_, ?_, ?_⟩
          · rw [List.append_nil]
            exact sendBatch_batches _ _ _ _
          · intro h
            simp at h
          · rw [List.flatten_append, inv.sent]
            simp only [List.flatten_cons, List.flatten_nil, List.append_nil]
            exact take_add_drop_take _ inv.first_le
          · show (sendBatch check _ _ st).2.uploaded = _
            rw [sendBatch_uploaded_of_true _ _ _ _ hf, inv.marked, ← List.foldl_append,
              take_add_drop_take _ inv.first_le]
        | false =>
          refine ⟨batches st.calls, [((pendingOf self glyphinfo).drop st.firstglyph).take
              ((pendingOf self glyphinfo).length - st.firstglyph)], st.firstglyph,
            sendBatch_batches _ _ _ _, by simp, ⟨fun h => absurd h (by simp), ?_⟩, ?_,
            inv.sent, ?_⟩
          · intro hall
            have := hchk.2 hall
            rw [hf] at this
            exact absurd this (by decide)
          · intro _ _
            exact inv.first_lt (List.length_pos.2 hp)
          · show (sendBatch check _ _ st).2.uploaded = _
            rw [sendBatch_uploaded_of_false _ _ _ _ hf]
            exact inv.marked
  · have hb : ∃ g ∈ glyphinfo, g > (self.glyphidmask ||| self.subpixelmask) := by
      push_neg at hr
      exact hr
    rw [Font_uploadGlyphs_of_bad T check hb]
    exact ⟨[], [], 0, by simp [batches, primaryCalls], by simp,
      ⟨fun _ n hn => by simp at hn, fun _ => rfl⟩,
      fun _ h => List.length_pos.2 h, by simp, by simp⟩

theorem mem_pendingOf_not_uploaded {self : Font} {glyphinfo : List Nat} {g : Nat}
    (h : g ∈ pendingOf self glyphinfo) : isUploaded self.uploaded g = false := by
  unfold pendingOf at h
  rw [List.mem_filter] at h
  simpa using h.2

/-- The branch `Font_create` takes for the height and baseline, in terms of the
bounding-box height and the claimed height. -/
theorem Font_create_metrics_eq (mulFix : Int → Int → Int) (pixelsize fixedpixelsize : ℚ)
    (m : FaceMetrics) :
    Font_create_metrics mulFix pixelsize fixedpixelsize m =
      if boxHeight mulFix pixelsize fixedpixelsize m = 0 ∨
          (claimedHeight pixelsize fixedpixelsize m ≠ 0 ∧
            boxHeight mulFix pixelsize fixedpixelsize m ≥
              (claimedHeight pixelsize fixedpixelsize m <<< 1) % 4294967296) then
        { maxWidth := (Font_create_metrics mulFix pixelsize fixedpixelsize m).maxWidth
          maxHeight := claimedHeight pixelsize fixedpixelsize m
          baseline := scaledAscender pixelsize fixedpixelsize m }
      else
        { maxWidth := (Font_create_metrics mulFix pixelsize fixedpixelsize m).maxWidth
          maxHeight := boxHeight mulFix pixelsize fixedpixelsize m
          baseline := scaledYMax mulFix pixelsize fixedpixelsize m } := by
  unfold Font_create_metrics boxHeight claimedHeight scaledAscender scaledYMax scaledYScale
    strikeScale
  dsimp only
  split_ifs <;> rfl

/-- An entry that is not accepted leaves `ismatch` clear. -/
theorem matchLoop_ismatch_false (maxunscaleddeviation : ℚ) (cs : List Candidate)
    (st : MatchState) (hst : st.ismatch = false)
    (h : ∀ c ∈ cs, ∀ s, (matchBody maxunscaleddeviation c s).ismatch = false) :
    (matchLoop maxunscaleddeviation cs st).ismatch = false := by
  induction cs generalizing st with
  | nil => exact hst
  | cons c rest ih =>
    unfold matchLoop
    rw [hst]
    simp only [Bool.false_eq_true, if_false]
    exact ih _ (h c (List.mem_cons_self _ _) st)
      (fun c' hc' s => h c' (List.mem_cons_of_mem _ hc') s)

/-- The handle `Font_create` returns does not depend on `ismatch`: whenever the search
has assigned `face`, to a face with fewer than 2^32 glyphs, a handle on that face is
returned. -/
theorem Font_create_of_face (maxunscaleddeviation defaultpixelsize : ℚ) (subpixelbits : Nat)
    (patterns : List Candidate) (dflt : Candidate) (face : Face) (n : Nat)
    (hface : (Font_create_match maxunscaleddeviation defaultpixelsize patterns dflt).face
      = some face)
    (hn : face.num_glyphs = (n : Int)) (hlt : n < 4294967296) :
    ∃ self : Font,
      Font_create maxunscaleddeviation defaultpixelsize subpixelbits patterns dflt
        = CreateResult.handle self ∧ self.face = face := by
  obtain ⟨g, hg, _⟩ := glyphidLoop_terminates n hlt 32 1 (by norm_num) (by norm_num)
    (Or.inl rfl)
  unfold Font_create
  dsimp only
  rw [hface]
  dsimp only
  unfold Font_create_handle
  dsimp only
  rw [hn]
  have hg' : glyphidLoop (n : Int) glyphidFuel 1 1 = some (g, 2 ^ g - 1) := hg
  rw [hg']
  exact ⟨_, rfl, rfl⟩

/-! ## The color payload of a request -/

theorem writePixel_below (self : Font) (slot : GlyphSlot)
    (hB : self.glyphtype = FontGlyphType.FGT_BITMAP_BGRA)
    (stride maskstride pos mpos y x : Nat) (mem : (Nat → Nat) × (Nat → Nat)) :
    (∀ a, a < pos → (writePixel self slot stride maskstride pos mpos y x mem).1 a = mem.1 a) ∧
    (∀ a, a < mpos → (writePixel self slot stride maskstride pos mpos y x mem).2 a = mem.2 a) := by
  constructor
  · intro a ha
    unfold writePixel
    simp only [hB, if_true, range4, List.foldl_cons, List.foldl_nil]
    simp only [Function.update_apply]
    split_ifs <;> first | rfl | (exfalso; omega)
  · intro a ha
    exact writePixel_mask_other self slot hB _ _ _ _ _ _ _ _ (by omega)

/-- The resampling of a glyph writes no byte below the positions it starts from. -/
theorem writeGlyph_below (self : Font) (slot : GlyphSlot)
    (hB : self.glyphtype = FontGlyphType.FGT_BITMAP_BGRA) (g : GlyphInfo)
    (pos mpos : Nat) (mem : (Nat → Nat) × (Nat → Nat)) :
    (∀ a, a < pos → (writeGlyph self slot g pos mpos mem).1 a = mem.1 a) ∧
    (∀ a, a < mpos → (writeGlyph self slot g pos mpos mem).2 a = mem.2 a) := by
  unfold writeGlyph
  have hne : self.glyphtype ≠ FontGlyphType.FGT_OUTLINE := by rw [hB]; decide
  simp only [hne, ne_eq, not_false_eq_true, if_true]
  refine foldl_preserve _ (fun m : (Nat → Nat) × (Nat → Nat) =>
      (∀ a, a < pos → m.1 a = mem.1 a) ∧ (∀ a, a < mpos → m.2 a = mem.2 a)) _ ?_ mem
    ⟨fun _ _ => rfl, fun _ _ => rfl⟩
  intro m y _ hq
  refine foldl_preserve _ (fun m : (Nat → Nat) × (Nat → Nat) =>
      (∀ a, a < pos → m.1 a = mem.1 a) ∧ (∀ a, a < mpos → m.2 a = mem.2 a)) _ ?_ m hq
  intro m' x _ hq'
  have hw := writePixel_below self slot hB (strideOf self g) (maskstrideOf self g) pos mpos y x m'
  exact ⟨fun a ha => (hw.1 a ha).trans (hq'.1 a ha), fun a ha => (hw.2 a ha).trans (hq'.2 a ha)⟩

theorem growBuffer_below (data : Nat → Nat) (datasz pos sz a : Nat) (ha : a < pos) :
    (growBuffer data datasz pos sz).1 a = data a := by
  unfold growBuffer memsetZero
  split_ifs
  · show (if pos ≤ a ∧ a < pos + sz then 0 else data a) = data a
    rw [if_neg (by omega)]
  · rfl

/-- Storing a glyph leaves the payload bytes below the current positions as they are. -/
theorem storeGlyph_below (self : Font) (slot : GlyphSlot)
    (hB : self.glyphtype = FontGlyphType.FGT_BITMAP_BGRA) (g : GlyphInfo) (st : UploadState) :
    (∀ a, a < st.bitmapdatapos → (storeGlyph self slot g st).bitmapdata a = st.bitmapdata a) ∧
    (∀ a, a < st.maskdatapos → (storeGlyph self slot g st).maskdata a = st.maskdata a) := by
  have hw := writeGlyph_below self slot hB g st.bitmapdatapos st.maskdatapos
    ((growBuffer st.bitmapdata st.bitmapdatasz st.bitmapdatapos (bitmapszOf self g)).1,
     (growBuffer st.maskdata st.maskdatasz st.maskdatapos (maskszOf self g)).1)
  constructor
  · intro a ha
    show (writeGlyph self slot g st.bitmapdatapos st.maskdatapos _).1 a = _
    rw [hw.1 a ha]
    exact growBuffer_below _ _ _ _ _ ha
  · intro a ha
    show (writeGlyph self slot g st.bitmapdatapos st.maskdatapos _).2 a = _
    rw [hw.2 a ha]
    exact growBuffer_below _ _ _ _ _ ha

/-- The bytes of a pixel lie inside the payload of its glyph when the payload size does
not wrap. -/
theorem pixel_in_payload (self : Font) (hB : self.glyphtype = FontGlyphType.FGT_BITMAP_BGRA)
    (g : GlyphInfo) (hfit : strideOf self g * g.height < 4294967296) (x y : Nat)
    (hx : x < g.width) (hy : y < g.height) :
    (y * strideOf self g) % 4294967296 = y * strideOf self g ∧
    (y * maskstrideOf self g) % 4294967296 = y * maskstrideOf self g ∧
    y * strideOf self g + (x * 4 + 3) < bitmapszOf self g ∧
    y * maskstrideOf self g + x < maskszOf self g := by
  have hs : strideOf self g = align4 (g.width * 4) := by
    unfold strideOf bytesPerPixel
    rw [if_pos hB]
  have hm : maskstrideOf self g = align4 g.width := by
    unfold maskstrideOf
    rw [if_pos hB]
  have hs4 : g.width * 4 ≤ strideOf self g := by rw [hs]; exact align4_ge _
  have hm1 : g.width ≤ maskstrideOf self g := by rw [hm]; exact align4_ge _
  have hms : maskstrideOf self g ≤ strideOf self g := by
    rw [hs, hm]; unfold align4; omega
  have h1 : (y + 1) * strideOf self g ≤ g.height * strideOf self g :=
    Nat.mul_le_mul_right _ hy
  have h2 : (y + 1) * maskstrideOf self g ≤ g.height * maskstrideOf self g :=
    Nat.mul_le_mul_right _ hy
  have h3 : g.height * maskstrideOf self g ≤ g.height * strideOf self g :=
    Nat.mul_le_mul_left _ hms
  rw [Nat.succ_mul] at h1 h2
  rw [Nat.mul_comm] at hfit
  have hb : bitmapszOf self g = g.height * strideOf self g := by
    unfold bitmapszOf
    rw [Nat.mul_comm, Nat.mod_eq_of_lt hfit]
  have hmz : maskszOf self g = g.height * maskstrideOf self g := by
    unfold maskszOf
    rw [if_pos hB, Nat.mul_comm, Nat.mod_eq_of_lt (by omega)]
  refine ⟨Nat.mod_eq_of_lt (by omega), Nat.mod_eq_of_lt (by omega), ?_, ?_⟩
  · rw [hb]; omega
  · rw [hmz]; omega

theorem sum_take_succ_le (f : Nat → Nat) (l : List Nat) (j : Nat) (hj : j < l.length) :
    ((l.take j).map f).sum + f (l.getD j 0) ≤ (l.map f).sum := by
  induction l generalizing j with
  | nil => simp at hj
  | cons a rest ih =>
    cases j with
    | zero => simp
    | succ j =>
      have := ih j (by simpa using hj)
      simp only [List.take_succ_cons, List.map_cons, List.sum_cons, List.getD_cons_succ]
      omega

theorem take_append_singleton_of_le (l : List Nat) (a j : Nat) (hj : j ≤ l.length) :
    (l ++ [a]).take j = l.take j := by
  rw [List.take_append_of_le_length hj]

theorem getD_append_singleton_of_lt (l : List Nat) (a j : Nat) (hj : j < l.length) :
    (l ++ [a]).getD j 0 = l.getD j 0 := by
  rw [List.getD_eq_getElem?_getD, List.getD_eq_getElem?_getD, List.getElem?_append_left hj]

theorem getD_append_singleton_length (l : List Nat) (a : Nat) :
    (l ++ [a]).getD l.length 0 = a := by
  rw [List.getD_eq_getElem?_getD, List.getElem?_append_right (Nat.le_refl _)]
  simp

/-- Storing one more glyph behind a color payload gives the color payload of the longer
list of glyphs. -/
theorem colorPayload_snoc (self : Font) (hB : self.glyphtype = FontGlyphType.FGT_BITMAP_BGRA)
    (ids : List Nat) (gid : Nat) (st : UploadState)
    (hpos : st.bitmapdatapos = payloadOffset self ids ids.length)
    (hmpos : st.maskdatapos = maskOffset self ids ids.length)
    (hfit : ∀ g ∈ ids, strideOf self (glyphOf self g) * (glyphOf self g).height < 4294967296)
    (hfitg : strideOf self (glyphOf self gid) * (glyphOf self gid).height < 4294967296)
    (h : ColorPayload self ids st.bitmapdata st.maskdata) :
    ColorPayload self (ids ++ [gid])
      (storeGlyph self (renderSlot self gid) (glyphOf self gid) st).bitmapdata
      (storeGlyph self (renderSlot self gid) (glyphOf self gid) st).maskdata := by
  intro j hj x y hx hy
  rw [List.length_append, List.length_singleton] at hj
  have hbelow := storeGlyph_below self (renderSlot self gid) hB (glyphOf self gid) st
  rcases Nat.lt_or_ge j ids.length with hlt | hge
  · have hg : (ids ++ [gid]).getD j 0 = ids.getD j 0 := getD_append_singleton_of_lt _ _ _ hlt
    rw [hg] at hx hy ⊢
    have ho : payloadOffset self (ids ++ [gid]) j = payloadOffset self ids j := by
      unfold payloadOffset
      rw [take_append_singleton_of_le _ _ _ (le_of_lt hlt)]
    have hmo : maskOffset self (ids ++ [gid]) j = maskOffset self ids j := by
      unfold maskOffset
      rw [take_append_singleton_of_le _ _ _ (le_of_lt hlt)]
    rw [ho, hmo]
    have hmem : ids.getD j 0 ∈ ids := by
      rw [List.getD_eq_getElem?_getD, List.getElem?_eq_getElem hlt]
      exact List.getElem_mem _
    obtain ⟨_, _, hp1, hp2⟩ := pixel_in_payload self hB (glyphOf self (ids.getD j 0))
      (hfit _ hmem) x y hx hy
    have hs1 := sum_take_succ_le (payloadOf self) ids j hlt
    have hs2 := sum_take_succ_le (maskPayloadOf self) ids j hlt
    have e1 : payloadOffset self ids ids.length = (ids.map (payloadOf self)).sum := by
      unfold payloadOffset
      rw [List.take_length]
    have e2 : maskOffset self ids ids.length = (ids.map (maskPayloadOf self)).sum := by
      unfold maskOffset
      rw [List.take_length]
    have hp1' : y * strideOf self (glyphOf self (ids.getD j 0)) + (x * 4 + 3)
        < payloadOf self (ids.getD j 0) := hp1
    have hp2' : y * maskstrideOf self (glyphOf self (ids.getD j 0)) + x
        < maskPayloadOf self (ids.getD j 0) := hp2
    have ha : payloadOffset self ids j + y * strideOf self (glyphOf self (ids.getD j 0))
        + (x * 4 + 3) < st.bitmapdatapos := by
      rw [hpos, e1]
      unfold payloadOffset
      omega
    have hb : maskOffset self ids j + y * maskstrideOf self (glyphOf self (ids.getD j 0)) + x
        < st.maskdatapos := by
      rw [hmpos, e2]
      unfold maskOffset
      omega
    rw [hbelow.1 _ ha, hbelow.2 _ hb]
    exact h j hlt x y hx hy
  · have hj' : j = ids.length := by omega
    subst hj'
    have hg : (ids ++ [gid]).getD ids.length 0 = gid := getD_append_singleton_length _ _
    rw [hg] at hx hy ⊢
    have ho : payloadOffset self (ids ++ [gid]) ids.length = st.bitmapdatapos := by
      rw [hpos]
      unfold payloadOffset
      rw [take_append_singleton_of_le _ _ _ (Nat.le_refl _)]
    have hmo : maskOffset self (ids ++ [gid]) ids.length = st.maskdatapos := by
      rw [hmpos]
      unfold maskOffset
      rw [take_append_singleton_of_le _ _ _ (Nat.le_refl _)]
    rw [ho, hmo]
    obtain ⟨hr1, hr2, _, _⟩ := pixel_in_payload self hB (glyphOf self gid) hfitg x y hx hy
    have hbd := glyphMetrics_bounds self (renderSlot self gid)
    constructor
    · have := writeGlyph_alpha self (renderSlot self gid) hB (glyphOf self gid)
        st.bitmapdatapos st.maskdatapos
        ((growBuffer st.bitmapdata st.bitmapdatasz st.bitmapdatapos
            (bitmapszOf self (glyphOf self gid))).1,
         (growBuffer st.maskdata st.maskdatasz st.maskdatapos
            (maskszOf self (glyphOf self gid))).1) x y hx hy
      rw [hr1] at this
      exact this
    · have := writeGlyph_mask self (renderSlot self gid) hB (glyphOf self gid) hbd.1 hbd.2
        st.bitmapdatapos st.maskdatapos
        ((growBuffer st.bitmapdata st.bitmapdatasz st.bitmapdatapos
            (bitmapszOf self (glyphOf self gid))).1,
         (growBuffer st.maskdata st.maskdatasz st.maskdatapos
            (maskszOf self (glyphOf self gid))).1) x y hx hy
      rw [hr2] at this
      exact this

/-- The requests a flush adds: the one to the primary glyph set, then the one to the
mask glyph set when `CHECK` went on and there is mask payload. -/
theorem sendBatch_calls (check : Nat → Bool) (glyphids : List Nat) (last : Nat)
    (st : UploadState) :
    (sendBatch check glyphids last st).2.calls =
      st.calls ++
        ({ target := GlyphSet.glyphset
           glyphids := (glyphids.drop st.firstglyph).take (last - st.firstglyph)
           glyphs := (st.glyphs.drop st.firstglyph).take (last - st.firstglyph)
           data_len := st.bitmapdatapos
           data := st.bitmapdata } ::
         (if check st.calls.length = true ∧ st.maskdatapos ≠ 0 then
           [{ target := GlyphSet.maskglyphset
              glyphids := (glyphids.drop st.firstglyph).take (last - st.firstglyph)
              glyphs := (st.glyphs.drop st.firstglyph).take (last - st.firstglyph)
              data_len := st.maskdatapos
              data := st.maskdata }]
          else [])) := by
  unfold sendBatch
  dsimp only
  by_cases h1 : check st.calls.length = false
  · rw [if_pos h1]
    have : ¬ (check st.calls.length = true ∧ st.maskdatapos ≠ 0) := by
      rw [h1]
      simp
    rw [if_neg this]
  · rw [if_neg h1]
    have h1' : check st.calls.length = true := by simpa using h1
    by_cases hm : st.maskdatapos ≠ 0
    · have hboth : check st.calls.length = true ∧ st.maskdatapos ≠ 0 := ⟨h1', hm⟩
      rw [if_pos hm, if_pos hboth]
      split_ifs <;> simp
    · have : ¬ (check st.calls.length = true ∧ st.maskdatapos ≠ 0) := fun h => hm h.2
      rw [if_neg hm, if_neg this]

theorem sendBatch_state (check : Nat → Bool) (glyphids : List Nat) (last : Nat)
    (st : UploadState) :
    (sendBatch check glyphids last st).2.glyphs = st.glyphs ∧
    (sendBatch check glyphids last st).2.bitmapdata = st.bitmapdata ∧
    (sendBatch check glyphids last st).2.maskdata = st.maskdata ∧
    (sendBatch check glyphids last st).2.bitmapdatasz = st.bitmapdatasz ∧
    (sendBatch check glyphids last st).2.maskdatasz = st.maskdatasz := by
  unfold sendBatch
  dsimp only
  split_ifs <;> exact ⟨rfl, rfl, rfl, rfl, rfl⟩

/-- A flush of a color payload adds requests that carry it. -/
theorem sendBatch_callsOk (self : Font) (check : Nat → Bool) (glyphids : List Nat)
    (last : Nat) (st : UploadState)
    (hb : st.bitmapdatapos = payloadOffset self
      ((glyphids.drop st.firstglyph).take (last - st.firstglyph))
      ((glyphids.drop st.firstglyph).take (last - st.firstglyph)).length)
    (hm : st.maskdatapos = maskOffset self
      ((glyphids.drop st.firstglyph).take (last - st.firstglyph))
      ((glyphids.drop st.firstglyph).take (last - st.firstglyph)).length)
    (hg : (st.glyphs.drop st.firstglyph).take (last - st.firstglyph)
      = ((glyphids.drop st.firstglyph).take (last - st.firstglyph)).map (glyphOf self))
    (hp : ColorPayload self ((glyphids.drop st.firstglyph).take (last - st.firstglyph))
      st.bitmapdata st.maskdata)
    (h1 : ∀ c ∈ st.calls, ColorRequest self c) (h2 : MaskFollows self check st.calls) :
    (∀ c ∈ (sendBatch check glyphids last st).2.calls, ColorRequest self c) ∧
    MaskFollows self check (sendBatch check glyphids last st).2.calls := by
  rw [sendBatch_calls]
  generalize (glyphids.drop st.firstglyph).take (last - st.firstglyph) = ids at hb hm hg hp
  have hP : ColorRequest self
      { target := GlyphSet.glyphset, glyphids := ids,
        glyphs := (st.glyphs.drop st.firstglyph).take (last - st.firstglyph),
        data_len := st.bitmapdatapos, data := st.bitmapdata } :=
    ⟨hg, fun _ => hb, fun h => GlyphSet.noConfusion h,
      fun j hj x y hx hy => ⟨fun _ => (hp j hj x y hx hy).1,
        fun h => GlyphSet.noConfusion h⟩⟩
  have hM : ColorRequest self
      { target := GlyphSet.maskglyphset, glyphids := ids,
        glyphs := (st.glyphs.drop st.firstglyph).take (last - st.firstglyph),
        data_len := st.maskdatapos, data := st.maskdata } :=
    ⟨hg, fun h => GlyphSet.noConfusion h, fun _ => hm,
      fun j hj x y hx hy => ⟨fun h => GlyphSet.noConfusion h,
        fun _ => (hp j hj x y hx hy).2⟩⟩
  constructor
  · intro c hc
    rw [List.mem_append, List.mem_cons] at hc
    rcases hc with hc | hc | hc
    · exact h1 c hc
    · rw [hc]; exact hP
    · split_ifs at hc
      · rw [List.mem_singleton.mp hc]; exact hM
      · cases hc
  · intro n c hn ht hck hmo
    rcases Nat.lt_or_ge n st.calls.length with hlt | hge
    · rw [List.getElem?_append_left hlt] at hn
      obtain ⟨m, hm1, hm2, hm3⟩ := h2 n c hn ht hck hmo
      have hlt' : n + 1 < st.calls.length := by
        by_contra hcon
        rw [List.getElem?_eq_none (by omega)] at hm1
        cases hm1
      exact ⟨m, by rw [List.getElem?_append_left hlt']; exact hm1, hm2, hm3⟩
    · rw [List.getElem?_append_right hge] at hn
      rcases Nat.eq_or_lt_of_le hge with heq | hgt
      · -- the request to the primary glyph set
        have hn0 : n - st.calls.length = 0 := by omega
        rw [hn0, List.getElem?_cons_zero] at hn
        have hc : c = _ := (Option.some.inj hn).symm
        subst hc
        dsimp only at hmo
        rw [← hm] at hmo
        rw [← heq] at hck
        refine ⟨(⟨GlyphSet.maskglyphset, ids,
          (st.glyphs.drop st.firstglyph).take (last - st.firstglyph),
          st.maskdatapos, st.maskdata⟩ : AddGlyphs), ?_, rfl, rfl⟩
        rw [List.getElem?_append_right (by omega)]
        have : n + 1 - st.calls.length = 1 := by omega
        rw [this, List.getElem?_cons_succ, if_pos ⟨hck, hmo⟩]
        rfl
      · -- the request to the mask glyph set
        exfalso
        obtain ⟨k, hk⟩ : ∃ k, n - st.calls.length = k + 1 := ⟨n - st.calls.length - 1, by omega⟩
        rw [hk, List.getElem?_cons_succ] at hn
        split_ifs at hn
        · cases k with
          | zero =>
            rw [List.getElem?_cons_zero] at hn
            have hc := (Option.some.inj hn).symm
            subst hc
            cases ht
          | succ k => simp at hn
        · simp at hn

theorem drop_take_succ (l : List Nat) {f i : Nat} (hf : f ≤ i) (hi : i < l.length) :
    (l.drop f).take (i + 1 - f) = (l.drop f).take (i - f) ++ [l.getD i 0] := by
  have h1 : i + 1 - f = (i - f) + 1 := by omega
  have h2 : i - f < (l.drop f).length := by rw [List.length_drop]; omega
  rw [h1, List.take_succ, List.getElem?_eq_getElem h2, List.getElem_drop]
  have h3 : f + (i - f) = i := by omega
  simp only [h3, Option.toList]
  rw [List.getD_eq_getElem?_getD, List.getElem?_eq_getElem hi]
  rfl

theorem payloadOffset_snoc (self : Font) (ids : List Nat) (gid : Nat) :
    payloadOffset self (ids ++ [gid]) (ids ++ [gid]).length
      = payloadOffset self ids ids.length + payloadOf self gid := by
  unfold payloadOffset
  rw [List.take_length, List.take_length]
  simp

theorem maskOffset_snoc (self : Font) (ids : List Nat) (gid : Nat) :
    maskOffset self (ids ++ [gid]) (ids ++ [gid]).length
      = maskOffset self ids ids.length + maskPayloadOf self gid := by
  unfold maskOffset
  rw [List.take_length, List.take_length]
  simp

/-- Storing glyph `i` behind the pending payload keeps the invariant. -/
theorem storeGlyph_payload (self : Font) (hB : self.glyphtype = FontGlyphType.FGT_BITMAP_BGRA)
    (glyphids : List Nat) (i : Nat) (st : UploadState) (hi : i < glyphids.length)
    (hfit : ∀ g ∈ glyphids,
      strideOf self (glyphOf self g) * (glyphOf self g).height < 4294967296)
    (inv : PayloadInv self glyphids i st) :
    PayloadInv self glyphids (i + 1)
      (storeGlyph self (renderSlot self (glyphids.getD i 0))
        (glyphOf self (glyphids.getD i 0)) st) := by
  have hmem : glyphids.getD i 0 ∈ glyphids := by
    rw [List.getD_eq_getElem?_getD, List.getElem?_eq_getElem hi]
    exact List.getElem_mem _
  have hsub : ∀ g ∈ (glyphids.drop st.firstglyph).take (i - st.firstglyph),
      strideOf self (glyphOf self g) * (glyphOf self g).height < 4294967296 :=
    fun g hg => hfit g (List.mem_of_mem_drop (List.mem_of_mem_take hg))
  have hsn := colorPayload_snoc self hB _ (glyphids.getD i 0) st inv.bpos_eq inv.mpos_eq
    hsub (hfit _ hmem) inv.pending
  have hfirst : (storeGlyph self (renderSlot self (glyphids.getD i 0))
      (glyphOf self (glyphids.getD i 0)) st).firstglyph = st.firstglyph := rfl
  refine ⟨?_, ?_, ?_, ?_⟩
  · rw [hfirst]; exact Nat.le_succ_of_le inv.first_le
  · rw [hfirst, drop_take_succ glyphids inv.first_le hi, payloadOffset_snoc, ← inv.bpos_eq]
    rfl
  · rw [hfirst, drop_take_succ glyphids inv.first_le hi, maskOffset_snoc, ← inv.mpos_eq]
    rfl
  · rw [hfirst, drop_take_succ glyphids inv.first_le hi]
    exact hsn

/-- The flush test and the flush keep the invariant and add only requests that carry
the color payload of their glyphs. -/
theorem flushBatch_payload (T : Transport) (self : Font) (check : Nat → Bool)
    (glyphids : List Nat) (i sz : Nat) (st : UploadState)
    (inv : PayloadInv self glyphids i st)
    (hg : (st.glyphs.drop st.firstglyph).take (i - st.firstglyph)
      = ((glyphids.drop st.firstglyph).take (i - st.firstglyph)).map (glyphOf self))
    (h1 : ∀ c ∈ st.calls, ColorRequest self c) (h2 : MaskFollows self check st.calls) :
    (∀ c ∈ (flushBatch T check glyphids i sz st).2.calls, ColorRequest self c) ∧
    MaskFollows self check (flushBatch T check glyphids i sz st).2.calls ∧
    PayloadInv self glyphids i (flushBatch T check glyphids i sz st).2 ∧
    (flushBatch T check glyphids i sz st).2.glyphs = st.glyphs := by
  unfold flushBatch
  by_cases hf : needsFlush T i st.firstglyph st.bitmapdatapos sz = true
  · rw [if_pos hf]
    dsimp only
    obtain ⟨c1, c2⟩ := sendBatch_callsOk self check glyphids i st inv.bpos_eq inv.mpos_eq hg
      inv.pending h1 h2
    obtain ⟨s1, s2, s3, _, _⟩ := sendBatch_state check glyphids i st
    refine ⟨c1, c2, ⟨Nat.le_refl i, ?_, ?_, ?_⟩, s1⟩
    · show 0 = _
      simp [payloadOffset]
    · show 0 = _
      simp [maskOffset]
    · intro j hj
      simp at hj
  · rw [if_neg hf]
    exact ⟨h1, h2, inv, rfl⟩

theorem glyphs_pending (glyphids : List Nat) (G : Nat → GlyphInfo) (g : GlyphInfo)
    (f i : Nat) (hf : f ≤ i) (hi : i ≤ glyphids.length) :
    ((((glyphids.take i).map G) ++ [g]).drop f).take (i - f)
      = ((glyphids.drop f).take (i - f)).map G := by
  have hlen : ((glyphids.take i).map G).length = i := by
    rw [List.length_map, List.length_take]; omega
  rw [List.drop_append_of_le_length (by omega), List.take_append_of_le_length
    (by rw [List.length_drop]; omega)]
  rw [List.take_of_length_le (by rw [List.length_drop]; omega)]
  rw [← List.map_drop, List.drop_take]

theorem glyphs_pending_final (glyphids : List Nat) (G : Nat → GlyphInfo) (f : Nat) :
    (((glyphids.take glyphids.length).map G).drop f).take (glyphids.length - f)
      = ((glyphids.drop f).take (glyphids.length - f)).map G := by
  rw [List.take_length, ← List.map_drop, List.map_take]

/-- One round of the second loop in color mode: the requests issued so far carry the
color payload of their glyphs, and a round that goes on keeps the invariant. -/
theorem uploadBody_payload {T : Transport} {check : Nat → Bool} {self : Font}
    {glyphids : List Nat} {i : Nat} {st st' : UploadState} {ok : Bool}
    (hB : self.glyphtype = FontGlyphType.FGT_BITMAP_BGRA) (hi : i < glyphids.length)
    (hfit : ∀ g ∈ glyphids,
      strideOf self (glyphOf self g) * (glyphOf self g).height < 4294967296)
    (inv : PayloadInv self glyphids i st)
    (hgl : st.glyphs = (glyphids.take i).map (glyphOf self))
    (h1 : ∀ c ∈ st.calls, ColorRequest self c) (h2 : MaskFollows self check st.calls)
    (h : uploadBody T check self glyphids i st = (ok, st')) :
    (∀ c ∈ st'.calls, ColorRequest self c) ∧ MaskFollows self check st'.calls ∧
    (ok = true → PayloadInv self glyphids (i + 1) st' ∧
      st'.glyphs = (glyphids.take (i + 1)).map (glyphOf self)) := by
  unfold uploadBody at h
  dsimp only at h
  by_cases hl : self.face.load (glyphids.getD i 0 &&& self.glyphidmask) (Font_ftLoadFlags self)
      = false
  · rw [if_pos hl] at h
    obtain ⟨hok, hst⟩ := Prod.mk.inj h
    subst hok; subst hst
    exact ⟨h1, h2, fun hc => absurd hc (by decide)⟩
  · rw [if_neg hl] at h
    have inv0 : PayloadInv self glyphids i
        { st with glyphs := st.glyphs ++ [glyphMetrics self (renderSlot self (glyphids.getD i 0))] } :=
      ⟨inv.first_le, inv.bpos_eq, inv.mpos_eq, inv.pending⟩
    have hg0 : (({ st with glyphs :=
          st.glyphs ++ [glyphMetrics self (renderSlot self (glyphids.getD i 0))] } :
          UploadState).glyphs.drop st.firstglyph).take (i - st.firstglyph)
        = ((glyphids.drop st.firstglyph).take (i - st.firstglyph)).map (glyphOf self) := by
      show ((st.glyphs ++ [_]).drop st.firstglyph).take (i - st.firstglyph) = _
      rw [hgl]
      exact glyphs_pending glyphids (glyphOf self) _ _ _ inv.first_le (le_of_lt hi)
    obtain ⟨c1, c2, inv1, hg1⟩ := flushBatch_payload T self check glyphids i
      (bitmapszOf self (glyphMetrics self (renderSlot self (glyphids.getD i 0))))
      { st with glyphs := st.glyphs ++ [glyphMetrics self (renderSlot self (glyphids.getD i 0))] }
      inv0 hg0 h1 h2
    by_cases hfl : (flushBatch T check glyphids i
        (bitmapszOf self (glyphMetrics self (renderSlot self (glyphids.getD i 0))))
        { st with glyphs := st.glyphs ++ [glyphMetrics self (renderSlot self (glyphids.getD i 0))] }).1
        = false
    · rw [if_pos hfl] at h
      obtain ⟨hok, hst⟩ := Prod.mk.inj h
      subst hok; subst hst
      exact ⟨c1, c2, fun hc => absurd hc (by decide)⟩
    · rw [if_neg hfl] at h
      obtain ⟨hok, hst⟩ := Prod.mk.inj h
      subst hok; subst hst
      refine ⟨c1, c2, fun _ => ⟨?_, ?_⟩⟩
      · exact storeGlyph_payload self hB glyphids i _ hi hfit inv1
      · show (flushBatch T check glyphids i _ _).2.glyphs = _
        rw [hg1]
        show st.glyphs ++ [_] = _
        rw [hgl, List.take_succ, List.map_append, List.getElem?_eq_getElem hi]
        simp [glyphOf, List.getD_eq_getElem?_getD, List.getElem?_eq_getElem hi]

/-- The second loop in color mode: whatever the outcome, the requests issued carry the
color payload of their glyphs; when the loop runs to its end the invariant holds. -/
theorem uploadLoop_payload {T : Transport} {check : Nat → Bool} {self : Font}
    {glyphids : List Nat} (hB : self.glyphtype = FontGlyphType.FGT_BITMAP_BGRA)
    (hfit : ∀ g ∈ glyphids,
      strideOf self (glyphOf self g) * (glyphOf self g).height < 4294967296)
    (n : Nat) {i : Nat} {st : UploadState} (hi : i + n ≤ glyphids.length)
    (inv : PayloadInv self glyphids i st)
    (hgl : st.glyphs = (glyphids.take i).map (glyphOf self))
    (h1 : ∀ c ∈ st.calls, ColorRequest self c) (h2 : MaskFollows self check st.calls) :
    (∀ c ∈ (uploadLoop T check self glyphids n i st).2.calls, ColorRequest self c) ∧
    MaskFollows self check (uploadLoop T check self glyphids n i st).2.calls ∧
    ((uploadLoop T check self glyphids n i st).1 = true →
      PayloadInv self glyphids (i + n) (uploadLoop T check self glyphids n i st).2 ∧
      (uploadLoop T check self glyphids n i st).2.glyphs
        = (glyphids.take (i + n)).map (glyphOf self)) := by
  induction n generalizing i st with
  | zero => exact ⟨h1, h2, fun _ => ⟨inv, hgl⟩⟩
  | succ n ih =>
    unfold uploadLoop
    dsimp only
    cases hb : uploadBody T check self glyphids i st with
    | mk ok st1 =>
      obtain ⟨c1, c2, hgo⟩ := uploadBody_payload hB (by omega) hfit inv hgl h1 h2 hb
      cases ok with
      | false =>
        simp only [if_true]
        exact ⟨c1, c2, fun hc => absurd hc (by decide)⟩
      | true =>
        simp only [Bool.true_eq_false, if_false]
        obtain ⟨inv1, hgl1⟩ := hgo rfl
        have := @ih (i + 1) st1 (by omega) inv1 hgl1 c1 c2
        rw [show i + 1 + n = i + (n + 1) by omega] at this
        exact this

theorem payloadInv_init (self : Font) (glyphids : List Nat) :
    PayloadInv self glyphids 0 (uploadInit self) := by
  refine ⟨Nat.le_refl 0, ?_, ?_, ?_⟩
  · show 0 = _
    simp [payloadOffset, uploadInit]
  · show 0 = _
    simp [maskOffset, uploadInit]
  · intro j hj
    simp [uploadInit] at hj

/-- Every request a color handle issues in `Font_uploadGlyphs` carries the color
payload of its glyphs, and a request to the primary glyph set that passed `CHECK` is
followed by the request to the mask glyph set. -/
theorem Font_uploadGlyphs_payload (T : Transport) (check : Nat → Bool) (self : Font)
    (glyphinfo : List Nat) (hB : self.glyphtype = FontGlyphType.FGT_BITMAP_BGRA)
    (hfit : ∀ g ∈ glyphinfo,
      strideOf self (glyphOf self g) * (glyphOf self g).height < 4294967296) :
    (∀ c ∈ (Font_uploadGlyphs T check self glyphinfo).calls, ColorRequest self c) ∧
    MaskFollows self check (Font_uploadGlyphs T check self glyphinfo).calls := by
  have hnil : (∀ c ∈ ([] : List AddGlyphs), ColorRequest self c) ∧
      MaskFollows self check [] :=
    ⟨fun c hc => (by cases hc), fun n c hn => (by simp at hn)⟩
  by_cases hr : ∀ g ∈ glyphinfo, g ≤ (self.glyphidmask ||| self.subpixelmask)
  · by_cases hp : pendingOf self glyphinfo = []
    · rw [Font_uploadGlyphs_of_no_pending T check hr hp]
      exact hnil
    · rw [Font_uploadGlyphs_of_pending T check hr hp]
      dsimp only
      have hfit' : ∀ g ∈ pendingOf self glyphinfo,
          strideOf self (glyphOf self g) * (glyphOf self g).height < 4294967296 := by
        intro g hg
        unfold pendingOf at hg
        exact hfit g (List.mem_filter.mp hg).1
      obtain ⟨c1, c2, hgo⟩ := @uploadLoop_payload T check self (pendingOf self glyphinfo) hB
        hfit' (pendingOf self glyphinfo).length 0 (uploadInit self) (by omega)
        (payloadInv_init self _) (by simp [uploadInit]) hnil.1 hnil.2
      by_cases hl : (uploadLoop T check self (pendingOf self glyphinfo)
          (pendingOf self glyphinfo).length 0 (uploadInit self)).1 = false
      · rw [if_pos hl]
        exact ⟨c1, c2⟩
      · rw [if_neg hl]
        dsimp only
        obtain ⟨inv, hgl⟩ := hgo (by simpa using hl)
        rw [Nat.zero_add] at inv hgl
        generalize (uploadLoop T check self (pendingOf self glyphinfo)
            (pendingOf self glyphinfo).length 0 (uploadInit self)).2 = st at inv hgl c1 c2 ⊢
        have hg : (st.glyphs.drop st.firstglyph).take
              ((pendingOf self glyphinfo).length - st.firstglyph)
            = (((pendingOf self glyphinfo).drop st.firstglyph).take
              ((pendingOf self glyphinfo).length - st.firstglyph)).map (glyphOf self) := by
          rw [hgl]
          exact glyphs_pending_final _ _ _
        exact sendBatch_callsOk self check (pendingOf self glyphinfo)
          (pendingOf self glyphinfo).length st inv.bpos_eq inv.mpos_eq hg inv.pending c1 c2
  · have hb : ∃ g ∈ glyphinfo, g > (self.glyphidmask ||| self.subpixelmask) := by
      push_neg at hr
      exact hr
    rw [Font_uploadGlyphs_of_bad T check hb]
    exact hnil

/-- Rounding matters for the source position: at scale 24/18 the output column 7 is
sampled at source column 9, where the exact value `24/18 * 7 + 24/18 / 2 = 10` would
give column 10. -/
theorem sourceCoord_rounded :
    sourceCoord (roundDouble (24 / 18)) 7 = 9 ∧
    ⌊(24 / 18 : ℚ) * 7 + (24 / 18 : ℚ) / 2⌋ = 10 := by
  have hs : roundDouble ((24 : ℚ) / 18) = 6004799503160661 / 4503599627370496 := by
    rw [roundDouble_eq _ 0 6004799503160661 (by norm_num) (by norm_num [abs_of_pos])
      (by norm_num [abs_of_pos]) (by norm_num [abs_lt])]
    norm_num
  have ha : roundDouble ((6004799503160661 / 4503599627370496 : ℚ) * ((7 : Nat) : ℚ)) = 2627099782632789 / 281474976710656 := by
    rw [roundDouble_eq _ 3 5254199565265578 (by norm_num) (by norm_num [abs_of_pos])
      (by norm_num [abs_of_pos]) (by norm_num [abs_lt])]
    norm_num
  have hb : roundDouble ((6004799503160661 / 4503599627370496 : ℚ) / 2) = 6004799503160661 / 9007199254740992 := by
    rw [roundDouble_eq _ (-1) 6004799503160661 (by norm_num) (by norm_num [abs_of_pos])
      (by norm_num [abs_of_pos]) (by norm_num [abs_lt])]
    norm_num
  have hc : roundDouble ((2627099782632789 / 281474976710656 : ℚ) + 6004799503160661 / 9007199254740992) = 5629499534213119 / 562949953421312 := by
    rw [roundDouble_eq _ 3 5629499534213119 (by norm_num) (by norm_num [abs_of_pos])
      (by norm_num [abs_of_pos]) (by norm_num [abs_lt])]
    norm_num
  have hf : ⌊(5629499534213119 / 562949953421312 : ℚ)⌋ = 9 := by
    rw [Int.floor_eq_iff]
    norm_num
  constructor
  · unfold sourceCoord truncUInt32
    rw [hs, ha, hb, hc, hf]
    decide
  · rw [Int.floor_eq_iff]
    norm_num

/-! ## Values of the examples -/

theorem roundDouble_tenth : roundDouble (1 / 10) = tenth := by
  have h : roundDouble ((1 : ℚ) / 10) = 3602879701896397 / 36028797018963968 := by
    rw [roundDouble_eq _ (-4) 7205759403792794 (by norm_num) (by norm_num [abs_of_pos])
      (by norm_num [abs_of_pos]) (by norm_num [abs_lt])]
    norm_num
  rw [h]
  rfl

theorem strikeSize_512 : strikeSize 512 = 8 := by
  rw [strikeSize_eq 512 (by norm_num)]
  norm_num

theorem strikeSize_704 : strikeSize 704 = 11 := by
  rw [strikeSize_eq 704 (by norm_num)]
  norm_num

theorem strikeSize_1024 : strikeSize 1024 = 16 := by
  rw [strikeSize_eq 1024 (by norm_num)]
  norm_num

theorem strikeSize_2048 : strikeSize 2048 = 32 := by
  rw [strikeSize_eq 2048 (by norm_num)]
  norm_num

theorem strikeDeviation_15_8 : strikeDeviation 15 8 = 7 / 8 := by
  have ha : roundDouble ((15 : ℚ) / 8) = 15 / 8 := by
    rw [roundDouble_eq _ 0 8444249301319680 (by norm_num) (by norm_num [abs_of_pos])
      (by norm_num [abs_of_pos]) (by norm_num [abs_lt])]
    norm_num
  have hb : roundDouble ((15 / 8 : ℚ) - 1) = 7 / 8 := by
    rw [roundDouble_eq _ (-1) 7881299347898368 (by norm_num) (by norm_num [abs_of_pos])
      (by norm_num [abs_of_pos]) (by norm_num [abs_lt])]
    norm_num
  unfold strikeDeviation
  rw [if_neg (by norm_num), ha, hb]

theorem strikeDeviation_15_16 : strikeDeviation 15 16 = 300239975158033 / 4503599627370496 := by
  have ha : roundDouble ((16 : ℚ) / 15) = 4803839602528529 / 4503599627370496 := by
    rw [roundDouble_eq _ 0 4803839602528529 (by norm_num) (by norm_num [abs_of_pos])
      (by norm_num [abs_of_pos]) (by norm_num [abs_lt])]
    norm_num
  have hb : roundDouble ((4803839602528529 / 4503599627370496 : ℚ) - 1) = 300239975158033 / 4503599627370496 := by
    rw [roundDouble_eq _ (-4) 4803839602528528 (by norm_num) (by norm_num [abs_of_pos])
      (by norm_num [abs_of_pos]) (by norm_num [abs_lt])]
    norm_num
  unfold strikeDeviation
  rw [if_pos (by norm_num), ha, hb]

theorem strikeDeviation_15_32 : strikeDeviation 15 32 = 2552039788843281 / 2251799813685248 := by
  have ha : roundDouble ((32 : ℚ) / 15) = 4803839602528529 / 2251799813685248 := by
    rw [roundDouble_eq _ 1 4803839602528529 (by norm_num) (by norm_num [abs_of_pos])
      (by norm_num [abs_of_pos]) (by norm_num [abs_lt])]
    norm_num
  have hb : roundDouble ((4803839602528529 / 2251799813685248 : ℚ) - 1) = 2552039788843281 / 2251799813685248 := by
    rw [roundDouble_eq _ 0 5104079577686562 (by norm_num) (by norm_num [abs_of_pos])
      (by norm_num [abs_of_pos]) (by norm_num [abs_lt])]
    norm_num
  unfold strikeDeviation
  rw [if_pos (by norm_num), ha, hb]

theorem strikeDeviation_10_11 : strikeDeviation 10 11 = 225179981368525 / 2251799813685248 := by
  have ha : roundDouble ((11 : ℚ) / 10) = 2476979795053773 / 2251799813685248 := by
    rw [roundDouble_eq _ 0 4953959590107546 (by norm_num) (by norm_num [abs_of_pos])
      (by norm_num [abs_of_pos]) (by norm_num [abs_lt])]
    norm_num
  have hb : roundDouble ((2476979795053773 / 2251799813685248 : ℚ) - 1) = 225179981368525 / 2251799813685248 := by
    rw [roundDouble_eq _ (-4) 7205759403792800 (by norm_num) (by norm_num [abs_of_pos])
      (by norm_num [abs_of_pos]) (by norm_num [abs_lt])]
    norm_num
  unfold strikeDeviation
  rw [if_pos (by norm_num), ha, hb]

/-! ## The claims -/

/-- C1 (code defect): the flush test of `Font_uploadGlyphs` counts the id and metrics
records of the glyphs already pending but not those of the glyph being added. With
12 byte headers and records, a limit of 16384 bytes and two glyphs of 36 x 227 pixels
(8172 payload bytes each, so each glyph alone needs 8200 bytes), the call succeeds
with a single request that carries both glyphs and has estimated size 16388. -/
theorem C1_request_exceeds_maximum :
    (∀ g ∈ [1, 2],
      (xcbTransport 16384).requestSize + 1 * (glyphidSize + (xcbTransport 16384).glyphinfoSize)
        + payloadOf (sampleFont 36 227) g ≤ (xcbTransport 16384).maxRequestSize) ∧
    (Font_uploadGlyphs (xcbTransport 16384) checkPass (sampleFont 36 227) [1, 2]).rc = 0 ∧
    (Font_uploadGlyphs (xcbTransport 16384) checkPass (sampleFont 36 227) [1, 2]).calls.map
      (fun c => (c.glyphids, c.data_len, encodedSize (xcbTransport 16384) c))
      = [([1, 2], 16344, 16388)] ∧
    ¬ (∀ c ∈ (Font_uploadGlyphs (xcbTransport 16384) checkPass (sampleFont 36 227) [1, 2]).calls,
      encodedSize (xcbTransport 16384) c ≤ (xcbTransport 16384).maxRequestSize) := by
  refine ⟨by decide, by decide, by decide, ?_⟩
  intro h
  have hm : ∀ n ∈ (Font_uploadGlyphs (xcbTransport 16384) checkPass (sampleFont 36 227)
      [1, 2]).calls.map (fun c => encodedSize (xcbTransport 16384) c),
      n ≤ (xcbTransport 16384).maxRequestSize := by
    intro n hn
    obtain ⟨c, hc, rfl⟩ := List.mem_map.mp hn
    exact h c hc
  have he : (Font_uploadGlyphs (xcbTransport 16384) checkPass (sampleFont 36 227)
      [1, 2]).calls.map (fun c => encodedSize (xcbTransport 16384) c) = [16388] := by decide
  rw [he] at hm
  exact absurd (hm 16388 (List.mem_singleton.mpr rfl)) (by decide)

/-- C2 (amended): across every sequence of `Font_uploadGlyphs` calls on one handle in
which no request array names the same not yet uploaded id more than once and no
request is refused by `CHECK`, each composite glyph id is sent to the primary glyph set
at most once: no request carries an id twice, no two requests share an id, and no id
that was marked uploaded before the sequence is sent at all. -/
theorem C2_upload_at_most_once (T : Transport) (self : Font)
    (calls : List ((Nat → Bool) × List Nat)) (hseq : FreshOnce T self calls) :
    (∀ b ∈ batches (uploadSequence T self calls).2, b.Nodup) ∧
    (batches (uploadSequence T self calls).2).Pairwise List.Disjoint ∧
    ∀ g ∈ (batches (uploadSequence T self calls).2).flatten,
      isUploaded self.uploaded g = false := by
  obtain ⟨h1, h2⟩ := uploadSequence_at_most_once T self calls hseq
  exact ⟨(List.nodup_flatten.mp h1).1, (List.nodup_flatten.mp h1).2, h2⟩

/-- Witness for C2: the requests `[5, 6]` and `[6, 7, 5]` on a fresh handle. -/
theorem C2_upload_at_most_once_witness :
    FreshOnce (xcbTransport 16384) (sampleFont 4 1)
      [(checkPass, [5, 6]), (checkPass, [6, 7, 5])] ∧
    (∀ b ∈ batches (uploadSequence (xcbTransport 16384) (sampleFont 4 1)
      [(checkPass, [5, 6]), (checkPass, [6, 7, 5])]).2, b.Nodup) ∧
    (batches (uploadSequence (xcbTransport 16384) (sampleFont 4 1)
      [(checkPass, [5, 6]), (checkPass, [6, 7, 5])]).2).Pairwise List.Disjoint ∧
    ∀ g ∈ (batches (uploadSequence (xcbTransport 16384) (sampleFont 4 1)
      [(checkPass, [5, 6]), (checkPass, [6, 7, 5])]).2).flatten,
      isUploaded (sampleFont 4 1).uploaded g = false :=
  ⟨⟨fun _ => rfl, by decide, fun _ => rfl, by decide, trivial⟩,
    C2_upload_at_most_once (xcbTransport 16384) (sampleFont 4 1)
      [(checkPass, [5, 6]), (checkPass, [6, 7, 5])]
      ⟨fun _ => rfl, by decide, fun _ => rfl, by decide, trivial⟩⟩

/-- C2 as stated fails: a request array that names the not yet uploaded id 5 twice makes
`Font_uploadGlyphs` send id 5 twice inside one request to the primary glyph set. -/
theorem C2_repeated_id_sent_twice :
    (Font_uploadGlyphs (xcbTransport 16384) checkPass (sampleFont 4 1) [5, 5]).rc = 0 ∧
    batches (Font_uploadGlyphs (xcbTransport 16384) checkPass (sampleFont 4 1) [5, 5]).calls
      = [[5, 5]] ∧
    ¬ (∀ b ∈ batches (Font_uploadGlyphs (xcbTransport 16384) checkPass (sampleFont 4 1)
      [5, 5]).calls, b.Nodup) := by
  refine ⟨by decide, by decide, by decide⟩

/-- C3 (amended): for every handle and every array of in-range ids whose glyphs together
fit in one request, a `Font_uploadGlyphs` call that returns 0 issues exactly one request
to the primary glyph set when some requested id is not yet uploaded, and none
otherwise; that request carries exactly the not yet uploaded ids of the array, in
request order. A second call with the same array issues no request, returns 0 and
leaves the handle, so also `uploaded[]`, as the first call left it. -/
theorem C3_upload_idempotent (T : Transport) (check check2 : Nat → Bool) (self : Font)
    (glyphinfo : List Nat)
    (hr : ∀ g ∈ glyphinfo, g ≤ (self.glyphidmask ||| self.subpixelmask))
    (hfit : T.requestSize + glyphinfo.length * (glyphidSize + T.glyphinfoSize)
      + (glyphinfo.map (payloadOf self)).sum ≤ T.maxRequestSize)
    (h0 : (Font_uploadGlyphs T check self glyphinfo).rc = 0) :
    batches (Font_uploadGlyphs T check self glyphinfo).calls =
      (if pendingOf self glyphinfo = [] then [] else [pendingOf self glyphinfo]) ∧
    (Font_uploadGlyphs T check2 (Font_uploadGlyphs T check self glyphinfo).self glyphinfo).calls
      = [] ∧
    (Font_uploadGlyphs T check2 (Font_uploadGlyphs T check self glyphinfo).self glyphinfo).rc
      = 0 ∧
    (Font_uploadGlyphs T check2 (Font_uploadGlyphs T check self glyphinfo).self glyphinfo).self
      = (Font_uploadGlyphs T check self glyphinfo).self := by
  refine ⟨?_, ?_⟩
  · by_cases hp : pendingOf self glyphinfo = []
    · rw [if_pos hp, Font_uploadGlyphs_of_no_pending T check hr hp]
      rfl
    · rw [if_neg hp]
      obtain ⟨st, inv, hl, hb, _, _⟩ := Font_uploadGlyphs_rc_zero hr hp h0
      have hfit' : T.requestSize
          + (pendingOf self glyphinfo).length * (glyphidSize + T.glyphinfoSize)
          + ((pendingOf self glyphinfo).map (payloadOf self)).sum ≤ T.maxRequestSize := by
        have h1 := sum_map_pendingOf_le self glyphinfo (payloadOf self)
        have h2 : (pendingOf self glyphinfo).length * (glyphidSize + T.glyphinfoSize) ≤
            glyphinfo.length * (glyphidSize + T.glyphinfoSize) :=
          Nat.mul_le_mul_right _ (length_pendingOf_le self glyphinfo)
        omega
      have hc : st.calls = [] :=
        uploadLoop_no_flush hfit' (pendingOf self glyphinfo).length (by omega)
          (uploadInv_init T self _) rfl hl
      have hf : st.firstglyph = 0 := (inv.quiet (by rw [hc]; rfl)).1
      rw [hb, hc, hf]
      rfl
  · rw [Font_uploadGlyphs_again hr h0 check2]
    exact ⟨rfl, rfl, rfl⟩

/-- Witness for C3: glyphs 5 and 6 on a handle that has glyph 5 uploaded. -/
theorem C3_upload_idempotent_witness :
    batches (Font_uploadGlyphs (xcbTransport 16384) checkPass sampleUploaded [5, 6]).calls =
      (if pendingOf sampleUploaded [5, 6] = [] then [] else [pendingOf sampleUploaded [5, 6]]) ∧
    (Font_uploadGlyphs (xcbTransport 16384) checkPass
      (Font_uploadGlyphs (xcbTransport 16384) checkPass sampleUploaded [5, 6]).self [5, 6]).calls
      = [] ∧
    (Font_uploadGlyphs (xcbTransport 16384) checkPass
      (Font_uploadGlyphs (xcbTransport 16384) checkPass sampleUploaded [5, 6]).self [5, 6]).rc
      = 0 ∧
    (Font_uploadGlyphs (xcbTransport 16384) checkPass
      (Font_uploadGlyphs (xcbTransport 16384) checkPass sampleUploaded [5, 6]).self [5, 6]).self
      = (Font_uploadGlyphs (xcbTransport 16384) checkPass sampleUploaded [5, 6]).self :=
  C3_upload_idempotent (xcbTransport 16384) checkPass checkPass sampleUploaded [5, 6]
    (by decide) (by decide) (by decide)

/-- C3 as stated fails: the empty request array on a fresh handle satisfies every
hypothesis (nothing out of range, everything fits, return code 0), yet the call issues
no request at all rather than exactly one. -/
theorem C3_empty_request_issues_nothing :
    (∀ g ∈ ([] : List Nat), g ≤ ((sampleFont 4 1).glyphidmask ||| (sampleFont 4 1).subpixelmask)) ∧
    (xcbTransport 16384).requestSize
      + ([] : List Nat).length * (glyphidSize + (xcbTransport 16384).glyphinfoSize)
      + (([] : List Nat).map (payloadOf (sampleFont 4 1))).sum
        ≤ (xcbTransport 16384).maxRequestSize ∧
    (Font_uploadGlyphs (xcbTransport 16384) checkPass (sampleFont 4 1) []).rc = 0 ∧
    (primaryCalls (Font_uploadGlyphs (xcbTransport 16384) checkPass (sampleFont 4 1) []).calls).length
      ≠ 1 := by
  refine ⟨by decide, by decide, by decide, by decide⟩

/-- C4 (amended): for every array of distinct, in-range, not yet uploaded ids and every
maximum request size that is smaller than the combined payload of the requested glyphs
but leaves room for the request header plus the payload of any single glyph, a
`Font_uploadGlyphs` call that returns 0 issues more than one request to the primary
glyph set, every such request carries at least one glyph, the id lists of the requests
are pairwise disjoint, and put end to end they are exactly the request array. -/
theorem C4_batch_splitting (T : Transport) (check : Nat → Bool) (self : Font)
    (glyphinfo : List Nat) (hnd : glyphinfo.Nodup)
    (hr : ∀ g ∈ glyphinfo, g ≤ (self.glyphidmask ||| self.subpixelmask))
    (hfresh : ∀ g ∈ glyphinfo, isUploaded self.uploaded g = false)
    (hsmall : T.maxRequestSize < (glyphinfo.map (payloadOf self)).sum)
    (hroom : ∀ g ∈ glyphinfo, T.requestSize + payloadOf self g ≤ T.maxRequestSize)
    (h0 : (Font_uploadGlyphs T check self glyphinfo).rc = 0) :
    1 < (batches (Font_uploadGlyphs T check self glyphinfo).calls).length ∧
    (∀ b ∈ batches (Font_uploadGlyphs T check self glyphinfo).calls, b ≠ []) ∧
    (batches (Font_uploadGlyphs T check self glyphinfo).calls).Pairwise List.Disjoint ∧
    (batches (Font_uploadGlyphs T check self glyphinfo).calls).flatten = glyphinfo := by
  have hpe := pendingOf_of_fresh hfresh
  have hne : glyphinfo ≠ [] := by
    intro h
    rw [h] at hsmall
    simp at hsmall
  have hflat := (Font_uploadGlyphs_success hr h0).1
  rw [hpe] at hflat
  have hp : pendingOf self glyphinfo ≠ [] := by rw [hpe]; exact hne
  obtain ⟨st, inv, _, hb, _, _⟩ := Font_uploadGlyphs_rc_zero hr hp h0
  rw [hpe] at inv hb
  have hlen : 0 < glyphinfo.length := List.length_pos.mpr hne
  have hfirst := inv.first_lt hlen
  have hst : batches st.calls ≠ [] := by
    intro hnil
    have hq : primaryCalls st.calls = [] := by
      unfold batches at hnil
      exact List.map_eq_nil_iff.mp hnil
    obtain ⟨q1, q2⟩ := inv.quiet hq
    have q3 := q2 hlen
    have hpos := inv.pos_eq
    rw [q1, List.take_length, List.drop_zero] at hpos
    omega
  have hnodup : ((batches (Font_uploadGlyphs T check self glyphinfo).calls).flatten).Nodup := by
    rw [hflat]; exact hnd
  refine ⟨?_, ?_, (List.nodup_flatten.mp hnodup).2, hflat⟩
  · rw [hb, List.length_append]
    have : 0 < (batches st.calls).length := List.length_pos.mpr hst
    simp only [List.length_cons, List.length_nil]
    omega
  · intro b hbm
    rw [hb] at hbm
    rcases List.mem_append.mp hbm with hbm | hbm
    · refine inv.nonempty (hroom _ ?_) b hbm
      rw [List.getD_eq_getElem?_getD, List.getElem?_eq_getElem hlen]
      exact List.getElem_mem _
    · rw [List.mem_singleton] at hbm
      subst hbm
      intro hnil
      have := congrArg List.length hnil
      rw [List.length_drop] at this
      simp only [List.length_nil] at this
      omega

/-- Witness for C4: two glyphs of 180 x 90 pixels (16200 payload bytes each) under a
limit of 16384 bytes. -/
theorem C4_batch_splitting_witness :
    1 < (batches (Font_uploadGlyphs (xcbTransport 16384) checkPass (sampleFont 180 90)
      [1, 2]).calls).length ∧
    (∀ b ∈ batches (Font_uploadGlyphs (xcbTransport 16384) checkPass (sampleFont 180 90)
      [1, 2]).calls, b ≠ []) ∧
    (batches (Font_uploadGlyphs (xcbTransport 16384) checkPass (sampleFont 180 90)
      [1, 2]).calls).Pairwise List.Disjoint ∧
    (batches (Font_uploadGlyphs (xcbTransport 16384) checkPass (sampleFont 180 90)
      [1, 2]).calls).flatten = [1, 2] :=
  C4_batch_splitting (xcbTransport 16384) checkPass (sampleFont 180 90) [1, 2]
    (by decide) (by decide) (by decide) (by decide) (by decide) (by decide)

/-- C4 as stated fails: with a limit of 16384 bytes and two distinct, in-range, not yet
uploaded glyphs of 180 x 91 pixels (16380 payload bytes each, below the limit, 32760
together, above it) the call returns 0 and its first request to the primary glyph set
carries no glyph. -/
theorem C4_first_request_empty :
    [1, 2].Nodup ∧
    (∀ g ∈ [1, 2], g ≤ ((sampleFont 180 91).glyphidmask ||| (sampleFont 180 91).subpixelmask)) ∧
    (∀ g ∈ [1, 2], isUploaded (sampleFont 180 91).uploaded g = false) ∧
    (xcbTransport 16384).maxRequestSize < ([1, 2].map (payloadOf (sampleFont 180 91))).sum ∧
    (∀ g ∈ [1, 2], payloadOf (sampleFont 180 91) g < (xcbTransport 16384).maxRequestSize) ∧
    (Font_uploadGlyphs (xcbTransport 16384) checkPass (sampleFont 180 91) [1, 2]).rc = 0 ∧
    batches (Font_uploadGlyphs (xcbTransport 16384) checkPass (sampleFont 180 91) [1, 2]).calls
      = [[], [1], [2]] ∧
    ¬ (∀ b ∈ batches (Font_uploadGlyphs (xcbTransport 16384) checkPass (sampleFont 180 91)
      [1, 2]).calls, b ≠ []) := by
  refine ⟨by decide, by decide, by decide, by decide, by decide, by decide, by decide, by decide⟩

/-- C5: if any requested id exceeds `glyphidmask | subpixelmask`, wherever it stands in
the request array, `Font_uploadGlyphs` returns -1, issues no request and leaves every
word of `uploaded[]` (indeed the whole handle) as it was. -/
theorem C5_range_rejection_atomic (T : Transport) (check : Nat → Bool) (self : Font)
    (glyphinfo : List Nat)
    (hbad : ∃ g ∈ glyphinfo, g > (self.glyphidmask ||| self.subpixelmask)) :
    (Font_uploadGlyphs T check self glyphinfo).rc = -1 ∧
    (Font_uploadGlyphs T check self glyphinfo).calls = [] ∧
    (Font_uploadGlyphs T check self glyphinfo).self = self ∧
    ∀ w, (Font_uploadGlyphs T check self glyphinfo).self.uploaded w = self.uploaded w := by
  rw [Font_uploadGlyphs_of_bad T check hbad]
  exact ⟨rfl, rfl, rfl, fun _ => rfl⟩

/-- Witness for C5: the request `[1, 128, 2]` on a handle whose largest id is 127. -/
theorem C5_range_rejection_atomic_witness :
    (∃ g ∈ [1, 128, 2], g > ((sampleFont 4 1).glyphidmask ||| (sampleFont 4 1).subpixelmask)) ∧
    (Font_uploadGlyphs (xcbTransport 16384) checkPass (sampleFont 4 1) [1, 128, 2]).rc = -1 ∧
    (Font_uploadGlyphs (xcbTransport 16384) checkPass (sampleFont 4 1) [1, 128, 2]).calls = [] ∧
    (Font_uploadGlyphs (xcbTransport 16384) checkPass (sampleFont 4 1) [1, 128, 2]).self
      = sampleFont 4 1 ∧
    ∀ w, (Font_uploadGlyphs (xcbTransport 16384) checkPass (sampleFont 4 1)
      [1, 128, 2]).self.uploaded w = (sampleFont 4 1).uploaded w :=
  ⟨⟨128, by decide, by decide⟩,
    C5_range_rejection_atomic (xcbTransport 16384) checkPass (sampleFont 4 1) [1, 128, 2]
      ⟨128, by decide, by decide⟩⟩

/-- C6 (amended): for every handle built by `Font_create`, the id
`glyphidmask | subpixelmask | 1` is the largest valid id `glyphidmask | subpixelmask`
itself and passes the range test; requesting the next id,
`(glyphidmask | subpixelmask) + 1`, makes `Font_uploadGlyphs` fail the call (-1) without
issuing a request and without mutating the handle or its `uploaded[]`. -/
theorem C6_range_rejection (subpixelbits : Nat) (face : Face) (pixelsize fixedpixelsize : ℚ)
    (self : Font) (T : Transport) (check : Nat → Bool)
    (hcreate : Font_create_handle subpixelbits face pixelsize fixedpixelsize = some self) :
    self.glyphidmask ||| self.subpixelmask ||| 1 = self.glyphidmask ||| self.subpixelmask ∧
    (Font_uploadGlyphs T check self [(self.glyphidmask ||| self.subpixelmask) + 1]).rc = -1 ∧
    (Font_uploadGlyphs T check self [(self.glyphidmask ||| self.subpixelmask) + 1]).calls = [] ∧
    (Font_uploadGlyphs T check self [(self.glyphidmask ||| self.subpixelmask) + 1]).self = self ∧
    (Font_uploadGlyphs T check self [(self.glyphidmask ||| self.subpixelmask) + 1]).self.uploaded
      = self.uploaded := by
  refine ⟨Font_create_handle_or_one hcreate, ?_⟩
  rw [Font_uploadGlyphs_of_bad T check
    ⟨(self.glyphidmask ||| self.subpixelmask) + 1, List.mem_singleton.mpr rfl, Nat.lt_succ_self _⟩]
  exact ⟨rfl, rfl, rfl, rfl⟩

/-- Witness for C6: the handle built for a face with 100 glyphs; id 128 is refused. -/
theorem C6_range_rejection_witness :
    Font_create_handle 0 (sampleFace 4 1) 12 0 = some (sampleFont 4 1) ∧
    (sampleFont 4 1).glyphidmask ||| (sampleFont 4 1).subpixelmask ||| 1
      = (sampleFont 4 1).glyphidmask ||| (sampleFont 4 1).subpixelmask ∧
    (Font_uploadGlyphs (xcbTransport 16384) checkPass (sampleFont 4 1)
      [((sampleFont 4 1).glyphidmask ||| (sampleFont 4 1).subpixelmask) + 1]).rc = -1 ∧
    (Font_uploadGlyphs (xcbTransport 16384) checkPass (sampleFont 4 1)
      [((sampleFont 4 1).glyphidmask ||| (sampleFont 4 1).subpixelmask) + 1]).calls = [] ∧
    (Font_uploadGlyphs (xcbTransport 16384) checkPass (sampleFont 4 1)
      [((sampleFont 4 1).glyphidmask ||| (sampleFont 4 1).subpixelmask) + 1]).self
      = sampleFont 4 1 ∧
    (Font_uploadGlyphs (xcbTransport 16384) checkPass (sampleFont 4 1)
      [((sampleFont 4 1).glyphidmask ||| (sampleFont 4 1).subpixelmask) + 1]).self.uploaded
      = (sampleFont 4 1).uploaded :=
  ⟨rfl, C6_range_rejection 0 (sampleFace 4 1) 12 0 (sampleFont 4 1) (xcbTransport 16384)
    checkPass rfl⟩

/-- C6 as stated fails: on the handle `Font_create` builds for a face with 100 glyphs
(masks 127 and 0) the id `glyphidmask | subpixelmask | 1` is 127, the call returns 0,
sends glyph 127 and sets bit 31 of word 3 of `uploaded[]`, which was clear. -/
theorem C6_mask_or_one_is_accepted :
    Font_create_handle 0 (sampleFace 4 1) 12 0 = some (sampleFont 4 1) ∧
    (sampleFont 4 1).glyphidmask ||| (sampleFont 4 1).subpixelmask ||| 1 = 127 ∧
    (Font_uploadGlyphs (xcbTransport 16384) checkPass (sampleFont 4 1) [127]).rc = 0 ∧
    batches (Font_uploadGlyphs (xcbTransport 16384) checkPass (sampleFont 4 1) [127]).calls
      = [[127]] ∧
    (sampleFont 4 1).uploaded 3 = 0 ∧
    (Font_uploadGlyphs (xcbTransport 16384) checkPass (sampleFont 4 1) [127]).self.uploaded 3
      = 2147483648 := by
  refine ⟨rfl, by decide, by decide, by decide, by decide, by decide⟩

/-- C7: every bit of `uploaded[]` that is set before a `Font_uploadGlyphs` call is still
set after it, whatever the request, the behaviour of `CHECK`, the return code and the
point of abort; and the same holds from the start to the end of every sequence of
calls on the handle. -/
theorem C7_uploaded_monotone (T : Transport) (self : Font) (w b : Nat)
    (hset : (self.uploaded w).testBit b = true) :
    (∀ (check : Nat → Bool) (glyphinfo : List Nat),
      ((Font_uploadGlyphs T check self glyphinfo).self.uploaded w).testBit b = true) ∧
    (∀ calls : List ((Nat → Bool) × List Nat),
      ((uploadSequence T self calls).1.uploaded w).testBit b = true) :=
  ⟨fun check glyphinfo => Font_uploadGlyphs_bitsLe T check self glyphinfo w b hset,
   fun calls => uploadSequence_bitsLe T self calls w b hset⟩

/-- Witness for C7: bit 5 of word 0 on a handle that has glyph 5 uploaded. -/
theorem C7_uploaded_monotone_witness :
    (sampleUploaded.uploaded 0).testBit 5 = true ∧
    (∀ (check : Nat → Bool) (glyphinfo : List Nat),
      ((Font_uploadGlyphs (xcbTransport 16384) check sampleUploaded glyphinfo).self.uploaded
        0).testBit 5 = true) ∧
    (∀ calls : List ((Nat → Bool) × List Nat),
      ((uploadSequence (xcbTransport 16384) sampleUploaded calls).1.uploaded 0).testBit 5
        = true) :=
  ⟨by decide, C7_uploaded_monotone (xcbTransport 16384) sampleUploaded 0 5 (by decide)⟩

/-- C8: for the masks `Font_create` derives, `glyphidmask = 2^glyphidbits - 1` and
`subpixelmask = ((2^subpixelbits - 1) << glyphidbits)` as a `uint32_t`, and for every
`baseIndex <= glyphidmask` and `phase <= subpixelmask >> glyphidbits`, the composite id
`(phase << glyphidbits) | baseIndex` is at most `glyphidmask | subpixelmask`, and the
decoding of `Font_uploadGlyphs` recovers the pair: `id & glyphidmask = baseIndex`,
`id >> glyphidbits = phase`, so that the slot it renders is the one of glyph
`baseIndex`, in outline mode shifted by `phase << (6 - subpixelbits)`. -/
theorem C8_composite_id_roundtrip (subpixelbits : Nat) (face : Face)
    (pixelsize fixedpixelsize : ℚ) (self : Font) (baseIndex phase : Nat)
    (hcreate : Font_create_handle subpixelbits face pixelsize fixedpixelsize = some self)
    (hbase : baseIndex ≤ self.glyphidmask)
    (hphase : phase ≤ self.subpixelmask >>> self.glyphidbits) :
    self.glyphidmask = 2 ^ self.glyphidbits - 1 ∧
    self.subpixelmask = ((2 ^ self.subpixelbits - 1) <<< self.glyphidbits) % 4294967296 ∧
    compositeId self.glyphidbits baseIndex phase ≤ (self.glyphidmask ||| self.subpixelmask) ∧
    compositeId self.glyphidbits baseIndex phase &&& self.glyphidmask = baseIndex ∧
    compositeId self.glyphidbits baseIndex phase >>> self.glyphidbits = phase ∧
    renderSlot self (compositeId self.glyphidbits baseIndex phase) =
      self.face.render baseIndex (Font_ftLoadFlags self)
        (if self.glyphtype = FontGlyphType.FGT_OUTLINE then
          (phase <<< (6 - self.subpixelbits)) % 4294967296 else 0) := by
  obtain ⟨_, hg2, hm, _, hsm, _⟩ := Font_create_handle_masks hcreate
  have hb' : baseIndex < 2 ^ self.glyphidbits := by
    have hpos : 0 < 2 ^ self.glyphidbits := Nat.pos_pow_of_pos _ (by norm_num)
    rw [hm] at hbase
    omega
  obtain ⟨d1, d2⟩ := compositeId_decode hb' phase
  have hle : compositeId self.glyphidbits baseIndex phase ≤
      (self.glyphidmask ||| self.subpixelmask) := by
    rw [hsm] at hphase
    rw [hm] at hbase
    rw [hm, hsm]
    exact compositeId_le hg2 hbase hphase
  refine ⟨hm, hsm, hle, ?_, d2, ?_⟩
  · rw [hm]; exact d1
  · unfold renderSlot
    dsimp only
    rw [d2, hm, d1]

/-- Witness for C8: glyph 37 at phase 2 on a handle with 7 id bits and 2 phase bits. -/
theorem C8_composite_id_roundtrip_witness :
    sampleSubpixel.glyphidmask = 2 ^ sampleSubpixel.glyphidbits - 1 ∧
    sampleSubpixel.subpixelmask =
      ((2 ^ sampleSubpixel.subpixelbits - 1) <<< sampleSubpixel.glyphidbits) % 4294967296 ∧
    compositeId sampleSubpixel.glyphidbits 37 2
      ≤ (sampleSubpixel.glyphidmask ||| sampleSubpixel.subpixelmask) ∧
    compositeId sampleSubpixel.glyphidbits 37 2 &&& sampleSubpixel.glyphidmask = 37 ∧
    compositeId sampleSubpixel.glyphidbits 37 2 >>> sampleSubpixel.glyphidbits = 2 ∧
    renderSlot sampleSubpixel (compositeId sampleSubpixel.glyphidbits 37 2) =
      sampleSubpixel.face.render 37 (Font_ftLoadFlags sampleSubpixel)
        (if sampleSubpixel.glyphtype = FontGlyphType.FGT_OUTLINE then
          (2 <<< (6 - sampleSubpixel.subpixelbits)) % 4294967296 else 0) :=
  C8_composite_id_roundtrip 2 (sampleFace 4 1) 12 0 sampleSubpixel 37 2 rfl
    (by decide) (by decide)

/-- C9 (amended): for every list of positive strike sizes (`y_ppem`, in 1/64 pixel) in
any order, every positive requested size and every threshold, the deviation the code
computes for a strike is the `double` value of `max(s/req, req/s) - 1`, each operation
rounded; if at least one strike has this deviation within the threshold, then the strike
the loop of `Font_create` selects is an entry of the list whose computed deviation is the
least of the whole list and within the threshold, and the requested pixel size is
replaced by that strike's native size. -/
theorem C9_strike_within_threshold (available_sizes : List Int)
    (pixelsize maxunscaleddeviation : ℚ)
    (hpos : ∀ y ∈ available_sizes, 0 < y) (hreq : 0 < pixelsize)
    (hclose : ∃ y ∈ available_sizes,
      roundDouble (roundDouble (max (strikeSize y / pixelsize) (pixelsize / strikeSize y)) - 1)
        ≤ maxunscaleddeviation) :
    (∀ y ∈ available_sizes, strikeDeviation pixelsize (strikeSize y)
      = roundDouble (roundDouble (max (strikeSize y / pixelsize) (pixelsize / strikeSize y))
          - 1)) ∧
    ∃ (j : Nat) (s : Int),
      (Font_create_strike available_sizes pixelsize maxunscaleddeviation).bestidx = (j : Int) ∧
      available_sizes[j]? = some s ∧
      (Font_create_strike available_sizes pixelsize maxunscaleddeviation).fixedpixelsize
        = strikeSize s ∧
      (∀ y ∈ available_sizes,
        roundDouble (roundDouble (max (strikeSize s / pixelsize) (pixelsize / strikeSize s)) - 1)
        ≤ roundDouble (roundDouble (max (strikeSize y / pixelsize) (pixelsize / strikeSize y))
          - 1)) ∧
      roundDouble (roundDouble (max (strikeSize s / pixelsize) (pixelsize / strikeSize s)) - 1)
        ≤ maxunscaleddeviation ∧
      (Font_create_strike available_sizes pixelsize maxunscaleddeviation).pixelsize
        = strikeSize s := by
  have hdevs : ∀ y ∈ available_sizes, strikeDeviation pixelsize (strikeSize y)
      = roundDouble (roundDouble (max (strikeSize y / pixelsize) (pixelsize / strikeSize y))
          - 1) :=
    fun y hy => strikeDeviation_eq_max hreq (strikeSize_pos y (hpos y hy))
  refine ⟨hdevs, ?_⟩
  have inv := strikeLoop_inv pixelsize maxunscaleddeviation available_sizes available_sizes []
    { fixedpixelsize := 0, bestdeviation := ⊤, bestidx := -1 } rfl
    (Or.inl ⟨rfl, by decide⟩)
  obtain ⟨y0, hy0, hy0le⟩ := hclose
  rw [← hdevs y0 hy0] at hy0le
  rcases inv with ⟨hnil, _⟩ | ⟨j, s, hidx, hjs, hs, hfix, hdev, hcase⟩
  · rw [hnil] at hy0; cases hy0
  · rcases hcase with ⟨hle, hmin⟩ | ⟨_, hall⟩
    · refine ⟨j, s, hidx, hjs, hfix, ?_, ?_, ?_⟩
      · intro y hy
        rw [← hdevs s hs, ← hdevs y hy]
        exact hmin y hy
      · rw [← hdevs s hs]
        exact hle
      · show (if (strikeLoop pixelsize maxunscaleddeviation available_sizes 0
            { fixedpixelsize := 0, bestdeviation := ⊤, bestidx := -1 }).bestdeviation
              ≤ (maxunscaleddeviation : WithTop ℚ) then _ else _) = _
        have hd : (strikeLoop pixelsize maxunscaleddeviation available_sizes 0
            { fixedpixelsize := 0, bestdeviation := ⊤, bestidx := -1 }).bestdeviation
              ≤ (maxunscaleddeviation : WithTop ℚ) := by
          have := hdev
          simp only [List.length_nil] at this
          rw [this]
          exact WithTop.coe_le_coe.mpr hle
        rw [if_pos hd]
        exact hfix
    · exact absurd hy0le (not_le.mpr (hall y0 hy0))

/-- Witness for C9: strikes 8, 16, 32 (`y_ppem` 512, 1024, 2048), requested size 15,
threshold 0.1: the computed deviation of the strike 16 is about 0.0667, the loop selects
index 1, the strike of size 16, and the handle renders unscaled at 16. -/
theorem C9_strike_within_threshold_witness :
    (Font_create_strike [512, 1024, 2048] 15 tenth).bestidx = 1 ∧
    (Font_create_strike [512, 1024, 2048] 15 tenth).fixedpixelsize = 16 ∧
    (Font_create_strike [512, 1024, 2048] 15 tenth).pixelsize = 16 ∧
    strikeSize 1024 = 16 ∧
    strikeDeviation 15 (strikeSize 1024) = 300239975158033 / 4503599627370496 ∧
    (∀ y ∈ ([512, 1024, 2048] : List Int), strikeDeviation 15 (strikeSize y)
      = roundDouble (roundDouble (max (strikeSize y / 15) (15 / strikeSize y)) - 1)) ∧
    ∃ (j : Nat) (s : Int),
      (Font_create_strike [512, 1024, 2048] 15 tenth).bestidx = (j : Int) ∧
      [512, 1024, 2048][j]? = some s ∧
      (Font_create_strike [512, 1024, 2048] 15 tenth).fixedpixelsize = strikeSize s ∧
      (∀ y ∈ ([512, 1024, 2048] : List Int),
        roundDouble (roundDouble (max (strikeSize s / 15) (15 / strikeSize s)) - 1)
        ≤ roundDouble (roundDouble (max (strikeSize y / 15) (15 / strikeSize y)) - 1)) ∧
      roundDouble (roundDouble (max (strikeSize s / 15) (15 / strikeSize s)) - 1) ≤ tenth ∧
      (Font_create_strike [512, 1024, 2048] 15 tenth).pixelsize = strikeSize s :=
  ⟨by norm_num [Font_create_strike, strikeLoop, strikeStep, strikeSize_512, strikeSize_1024,
      strikeSize_2048, strikeDeviation_15_8, strikeDeviation_15_16, strikeDeviation_15_32,
      tenth],
    by norm_num [Font_create_strike, strikeLoop, strikeStep, strikeSize_512, strikeSize_1024,
      strikeSize_2048, strikeDeviation_15_8, strikeDeviation_15_16, strikeDeviation_15_32,
      tenth],
    by norm_num [Font_create_strike, strikeLoop, strikeStep, strikeSize_512, strikeSize_1024,
      strikeSize_2048, strikeDeviation_15_8, strikeDeviation_15_16, strikeDeviation_15_32,
      tenth],
    strikeSize_1024,
    by rw [strikeSize_1024, strikeDeviation_15_16],
    C9_strike_within_threshold [512, 1024, 2048] 15 tenth (by decide) (by norm_num)
      ⟨1024, by decide, by
        rw [← strikeDeviation_eq_max (by norm_num) (strikeSize_pos 1024 (by norm_num)),
          strikeSize_1024, strikeDeviation_15_16]
        norm_num [tenth]⟩⟩

/-- C9 as stated fails: for the single strike 11 (`y_ppem` 704), requested size 10 and
threshold 0.1, the deviation `max(11/10, 10/11) - 1 = 1/10` is within the threshold, but
the code computes `11. / 10. - 1.` in `double`, which is above the `double` 0.1, so the
requested pixel size 10 is kept and not replaced by 11. -/
theorem C9_rounded_deviation_exceeds_threshold :
    max ((((704 : Int) : ℚ) / 64) / 10) (10 / (((704 : Int) : ℚ) / 64)) - 1 ≤ tenth ∧
    strikeSize 704 = 11 ∧
    strikeDeviation 10 (strikeSize 704) = 225179981368525 / 2251799813685248 ∧
    tenth < strikeDeviation 10 (strikeSize 704) ∧
    (Font_create_strike [704] 10 tenth).bestidx = 0 ∧
    (Font_create_strike [704] 10 tenth).fixedpixelsize = 11 ∧
    (Font_create_strike [704] 10 tenth).pixelsize = 10 := by
  refine ⟨by norm_num [tenth], strikeSize_704, by rw [strikeSize_704, strikeDeviation_10_11],
    by rw [strikeSize_704, strikeDeviation_10_11]; norm_num [tenth], ?_, ?_, ?_⟩
  · norm_num [Font_create_strike, strikeLoop, strikeStep, strikeSize_704,
      strikeDeviation_10_11, tenth]
  · norm_num [Font_create_strike, strikeLoop, strikeStep, strikeSize_704,
      strikeDeviation_10_11, tenth]
  · norm_num [Font_create_strike, strikeLoop, strikeStep, strikeSize_704,
      strikeDeviation_10_11, tenth]

/-- C10 (code defect): with the strikes 32 and 8 in this order (`y_ppem` 2048, 512), a
requested size of 15 and a threshold of 0.1, every strike's deviation exceeds the
threshold (17/15 and 7/8, and so do the values computed in `double`), yet the loop of
`Font_create` ends on index 1, the strike of size 8, because its deviation is smaller,
and not on the largest strike, 32. The requested pixel size 15 is kept. -/
theorem C10_smaller_strike_replaces_largest :
    (∀ y ∈ ([2048, 512] : List Int),
      tenth < max (((y : ℚ) / 64) / 15) (15 / ((y : ℚ) / 64)) - 1) ∧
    (∀ y ∈ ([2048, 512] : List Int), tenth < strikeDeviation 15 (strikeSize y)) ∧
    (Font_create_strike [2048, 512] 15 tenth).bestidx = 1 ∧
    (Font_create_strike [2048, 512] 15 tenth).fixedpixelsize = 8 ∧
    (Font_create_strike [2048, 512] 15 tenth).pixelsize = 15 := by
  refine ⟨?_, ?_, ?_, ?_, ?_⟩
  · intro y hy
    simp only [List.mem_cons, List.mem_singleton, List.not_mem_nil, or_false] at hy
    rcases hy with rfl | rfl <;> norm_num [tenth]
  · intro y hy
    simp only [List.mem_cons, List.mem_singleton, List.not_mem_nil, or_false] at hy
    rcases hy with rfl | rfl
    · rw [strikeSize_2048, strikeDeviation_15_32]
      norm_num [tenth]
    · rw [strikeSize_512, strikeDeviation_15_8]
      norm_num [tenth]
  · norm_num [Font_create_strike, strikeLoop, strikeStep, strikeSize_512, strikeSize_2048,
      strikeDeviation_15_8, strikeDeviation_15_32, tenth]
  · norm_num [Font_create_strike, strikeLoop, strikeStep, strikeSize_512, strikeSize_2048,
      strikeDeviation_15_8, strikeDeviation_15_32, tenth]
  · norm_num [Font_create_strike, strikeLoop, strikeStep, strikeSize_512, strikeSize_2048,
      strikeDeviation_15_8, strikeDeviation_15_32, tenth]

/-- C11: the resampling of `Font_uploadGlyphs` works with the scale
`fixedpixelsize / pixelsize`, a `double` division, or 1 when no fixed strike is in use. A scale of exactly 1
selects the 1x1 kernel, and `filter` with that kernel returns exactly the clamped
source byte that `fetch` gives; a scale above 1 and up to 4 selects the 3x3 kernel; a
scale above 4 selects the 5x5 kernel. -/
theorem C11_kernel_selection (self : Font) (b : Int → Nat) (stride w h x y nc c : Int)
    (hbyte : ∀ a, b a < 256) :
    (filterKernel self).1
      = (if self.fixedpixelsize ≠ 0 then roundDouble (self.fixedpixelsize / self.pixelsize) else 1) ∧
    ((filterKernel self).1 = 1 →
      (filterKernel self).2 = (1, mid) ∧
      filter (filterKernel self).2.1 (filterKernel self).2.2 b stride w h x y nc c
        = fetch b stride w h x y nc c) ∧
    (1 < (filterKernel self).1 ∧ (filterKernel self).1 ≤ 4 →
      (filterKernel self).2 = (3, m3x3)) ∧
    (4 < (filterKernel self).1 → (filterKernel self).2 = (5, m5x5)) := by
  have hk : ∀ s : ℚ, (if s > 4 then (s, 5, m5x5) else if s = 1 then (s, 1, mid)
      else (s, 3, m3x3) : ℚ × Nat × List Nat).1 = s := by
    intro s
    split_ifs <;> rfl
  have h1 : (filterKernel self).1
      = (if self.fixedpixelsize ≠ 0 then roundDouble (self.fixedpixelsize / self.pixelsize) else 1) := by
    unfold filterKernel
    exact hk _
  refine ⟨h1, ?_, ?_, ?_⟩
  · intro hs
    have h2 : (filterKernel self).2 = (1, mid) := by
      rw [h1] at hs
      unfold filterKernel
      dsimp only
      rw [hs]
      norm_num
    refine ⟨h2, ?_⟩
    rw [h2]
    exact filter_mid b stride w h x y nc c hbyte
  · rintro ⟨hlo, hhi⟩
    rw [h1] at hlo hhi
    unfold filterKernel
    dsimp only
    rw [if_neg (not_lt.mpr hhi), if_neg (ne_of_gt hlo)]
  · intro hs
    rw [h1] at hs
    unfold filterKernel
    dsimp only
    rw [if_pos hs]

/-- Witness for C11: a gray handle that uses the strike of size 16 unscaled, and a source
bitmap of 4 by 4 bytes of value 7 read at column 1, row 2. -/
theorem C11_kernel_selection_witness :
    (∀ a : Int, (fun _ : Int => (7 : Nat)) a < 256) ∧
    (filterKernel (strikeFont 4 4 0 (fun _ => 7) 16 16)).1
      = (if (strikeFont 4 4 0 (fun _ => 7) 16 16).fixedpixelsize ≠ 0 then roundDouble ((strikeFont 4 4 0 (fun _ => 7) 16 16).fixedpixelsize / (strikeFont 4 4 0 (fun _ => 7) 16 16).pixelsize) else 1) ∧
    ((filterKernel (strikeFont 4 4 0 (fun _ => 7) 16 16)).1 = 1 →
      (filterKernel (strikeFont 4 4 0 (fun _ => 7) 16 16)).2 = (1, mid) ∧
      filter (filterKernel (strikeFont 4 4 0 (fun _ => 7) 16 16)).2.1 (filterKernel (strikeFont 4 4 0 (fun _ => 7) 16 16)).2.2 (fun _ => 7) 4 4 4 1 2 1 0
        = fetch (fun _ => 7) 4 4 4 1 2 1 0) ∧
    (1 < (filterKernel (strikeFont 4 4 0 (fun _ => 7) 16 16)).1 ∧ (filterKernel (strikeFont 4 4 0 (fun _ => 7) 16 16)).1 ≤ 4 →
      (filterKernel (strikeFont 4 4 0 (fun _ => 7) 16 16)).2 = (3, m3x3)) ∧
    (4 < (filterKernel (strikeFont 4 4 0 (fun _ => 7) 16 16)).1 → (filterKernel (strikeFont 4 4 0 (fun _ => 7) 16 16)).2 = (5, m5x5)) :=
  ⟨fun _ => (by decide : (7 : Nat) < 256),
    C11_kernel_selection (strikeFont 4 4 0 (fun _ => 7) 16 16) (fun _ => 7) 4 4 4 1 2 1 0
      (fun _ => (by decide : (7 : Nat) < 256))⟩

/-- C12: in `FGT_BITMAP_BGRA` mode, when no glyph payload size wraps in 32 bits, every
`xcb_render_add_glyphs` request that `Font_uploadGlyphs` issues carries the metrics
records of its glyphs and their payloads one after the other, and for every glyph of
the request and every output pixel `(x, y)` with `x < width` and `y < height`: in a
request to the primary glyph set the payload byte of channel 3 (alpha) is `0xFF`; in a
request to the mask glyph set the payload byte at `(x, y)` is the value `filter`
returned for channel 3 at the source position `(sx, sy)` of that pixel. A request to
the primary glyph set that passed `CHECK` and has mask payload is followed at once by
the request to the mask glyph set for the same glyphs. -/
theorem C12_color_payload (T : Transport) (check : Nat → Bool) (self : Font)
    (glyphinfo : List Nat) (hB : self.glyphtype = FontGlyphType.FGT_BITMAP_BGRA)
    (hfit : ∀ g ∈ glyphinfo,
      strideOf self (glyphOf self g) * (glyphOf self g).height < 4294967296) :
    (∀ c ∈ (Font_uploadGlyphs T check self glyphinfo).calls,
      c.glyphs = c.glyphids.map (glyphOf self) ∧
      ∀ j, j < c.glyphids.length → ∀ x y,
        x < (glyphOf self (c.glyphids.getD j 0)).width →
        y < (glyphOf self (c.glyphids.getD j 0)).height →
        (c.target = GlyphSet.glyphset →
          c.data (payloadOffset self c.glyphids j
            + y * strideOf self (glyphOf self (c.glyphids.getD j 0)) + (x * 4 + 3)) = 255) ∧
        (c.target = GlyphSet.maskglyphset →
          c.data (maskOffset self c.glyphids j
            + y * maskstrideOf self (glyphOf self (c.glyphids.getD j 0)) + x)
          = filter (filterKernel self).2.1 (filterKernel self).2.2
              (renderSlot self (c.glyphids.getD j 0)).buffer
              (renderSlot self (c.glyphids.getD j 0)).pitch
              (renderSlot self (c.glyphids.getD j 0)).width
              (renderSlot self (c.glyphids.getD j 0)).rows
              ((sourceCoord (filterKernel self).1 x : Nat) : Int)
              ((sourceCoord (filterKernel self).1 y : Nat) : Int) 4 3)) ∧
    (∀ n c, (Font_uploadGlyphs T check self glyphinfo).calls[n]? = some c →
      c.target = GlyphSet.glyphset → check n = true →
      maskOffset self c.glyphids c.glyphids.length ≠ 0 →
      ∃ m, (Font_uploadGlyphs T check self glyphinfo).calls[n + 1]? = some m ∧
        m.target = GlyphSet.maskglyphset ∧ m.glyphids = c.glyphids) := by
  obtain ⟨h1, h2⟩ := Font_uploadGlyphs_payload T check self glyphinfo hB hfit
  exact ⟨fun c hc => ⟨(h1 c hc).1, (h1 c hc).2.2.2⟩, h2⟩

/-- Witness for C12: glyphs 5 and 6 of a color handle whose glyphs are 2 by 1 pixels:
one request to the primary glyph set and one to the mask glyph set, each for both
glyphs. -/
theorem C12_color_payload_witness :
    colorSample.glyphtype = FontGlyphType.FGT_BITMAP_BGRA ∧
    (∀ g ∈ [5, 6], strideOf colorSample (glyphOf colorSample g)
      * (glyphOf colorSample g).height < 4294967296) ∧
    (Font_uploadGlyphs (xcbTransport 16384) checkPass colorSample [5, 6]).rc = 0 ∧
    (Font_uploadGlyphs (xcbTransport 16384) checkPass colorSample [5, 6]).calls.map
      (fun c => (c.target, c.glyphids, c.data_len))
      = [(GlyphSet.glyphset, [5, 6], 16), (GlyphSet.maskglyphset, [5, 6], 8)] ∧
    (∀ c ∈ (Font_uploadGlyphs (xcbTransport 16384) checkPass colorSample [5, 6]).calls,
      c.glyphs = c.glyphids.map (glyphOf colorSample) ∧
      ∀ j, j < c.glyphids.length → ∀ x y,
        x < (glyphOf colorSample (c.glyphids.getD j 0)).width →
        y < (glyphOf colorSample (c.glyphids.getD j 0)).height →
        (c.target = GlyphSet.glyphset →
          c.data (payloadOffset colorSample c.glyphids j
            + y * strideOf colorSample (glyphOf colorSample (c.glyphids.getD j 0))
            + (x * 4 + 3)) = 255) ∧
        (c.target = GlyphSet.maskglyphset →
          c.data (maskOffset colorSample c.glyphids j
            + y * maskstrideOf colorSample (glyphOf colorSample (c.glyphids.getD j 0)) + x)
          = filter (filterKernel colorSample).2.1 (filterKernel colorSample).2.2
              (renderSlot colorSample (c.glyphids.getD j 0)).buffer
              (renderSlot colorSample (c.glyphids.getD j 0)).pitch
              (renderSlot colorSample (c.glyphids.getD j 0)).width
              (renderSlot colorSample (c.glyphids.getD j 0)).rows
              ((sourceCoord (filterKernel colorSample).1 x : Nat) : Int)
              ((sourceCoord (filterKernel colorSample).1 y : Nat) : Int) 4 3)) ∧
    (∀ n c, (Font_uploadGlyphs (xcbTransport 16384) checkPass colorSample [5, 6]).calls[n]?
        = some c →
      c.target = GlyphSet.glyphset → checkPass n = true →
      maskOffset colorSample c.glyphids c.glyphids.length ≠ 0 →
      ∃ m, (Font_uploadGlyphs (xcbTransport 16384) checkPass colorSample [5, 6]).calls[n + 1]?
          = some m ∧
        m.target = GlyphSet.maskglyphset ∧ m.glyphids = c.glyphids) :=
  ⟨rfl, by decide, by decide, by decide,
    C12_color_payload (xcbTransport 16384) checkPass colorSample [5, 6] rfl (by decide)⟩

/-- C13 (amended): for every handle, request array and behaviour of `CHECK`, when
`Font_uploadGlyphs` returns -1 the requests it sent to the primary glyph set are the
completed batches, followed by one more batch exactly when some issued request did not
pass `CHECK` (the flush of that batch was cut short). The completed batches are a
leading part of the not yet uploaded requested ids, in request order, and a proper one
when there is such an id; the ids marked afterwards are exactly the ids marked before
together with the ids of the completed batches; and an id of the batch still being
accumulated or cut short, or one requested later, is left unmarked unless it also
occurs in a completed batch. In particular, when glyph loading fails and every request
passed `CHECK`, every batch sent is marked. -/
theorem C13_partial_progress (T : Transport) (check : Nat → Bool) (self : Font)
    (glyphinfo : List Nat)
    (hrc : (Font_uploadGlyphs T check self glyphinfo).rc = -1) :
    ∃ (flushed cut : List (List Nat)) (k : Nat),
      batches (Font_uploadGlyphs T check self glyphinfo).calls = flushed ++ cut ∧
      cut.length ≤ 1 ∧
      (cut = [] ↔
        ∀ n, n < (Font_uploadGlyphs T check self glyphinfo).calls.length → check n = true) ∧
      flushed.flatten = (pendingOf self glyphinfo).take k ∧
      (pendingOf self glyphinfo ≠ [] → k < (pendingOf self glyphinfo).length) ∧
      (∀ g, isUploaded (Font_uploadGlyphs T check self glyphinfo).self.uploaded g = true ↔
        (isUploaded self.uploaded g = true ∨ g ∈ flushed.flatten)) ∧
      (∀ g ∈ (pendingOf self glyphinfo).drop k, g ∉ flushed.flatten →
        isUploaded (Font_uploadGlyphs T check self glyphinfo).self.uploaded g = false) := by
  obtain ⟨flushed, cut, k, h1, h2, h3, hk, h4, h5⟩ :=
    Font_uploadGlyphs_progress T check self glyphinfo
  have hiff : ∀ g, isUploaded (Font_uploadGlyphs T check self glyphinfo).self.uploaded g = true ↔
      (isUploaded self.uploaded g = true ∨ g ∈ flushed.flatten) := by
    intro g
    rw [h5, isUploaded_foldl_markUploaded_iff, h4]
  refine ⟨flushed, cut, k, h1, h2, h3, h4, hk hrc, hiff, ?_⟩
  intro g hg hn
  have hp : isUploaded self.uploaded g = false :=
    mem_pendingOf_not_uploaded (List.mem_of_mem_drop hg)
  cases hu : isUploaded (Font_uploadGlyphs T check self glyphinfo).self.uploaded g with
  | false => rfl
  | true =>
    rcases (hiff g).1 hu with h | h
    · rw [hp] at h
      exact absurd h (by decide)
    · exact absurd h hn

/-- Witness for C13: glyphs 5, 6 and 7 of 16200 bytes each against a limit of 16384
bytes, where glyph 7 fails to load: the batch `[5]` was sent and is marked, the ids 6 and
7 are not. -/
theorem C13_partial_progress_witness :
    (Font_uploadGlyphs (xcbTransport 16384) checkPass (failFont 180 90) [5, 6, 7]).rc = -1 ∧
    batches (Font_uploadGlyphs (xcbTransport 16384) checkPass (failFont 180 90)
      [5, 6, 7]).calls = [[5]] ∧
    isUploaded (Font_uploadGlyphs (xcbTransport 16384) checkPass (failFont 180 90)
      [5, 6, 7]).self.uploaded 5 = true ∧
    isUploaded (Font_uploadGlyphs (xcbTransport 16384) checkPass (failFont 180 90)
      [5, 6, 7]).self.uploaded 6 = false ∧
    ∃ (flushed cut : List (List Nat)) (k : Nat),
      batches (Font_uploadGlyphs (xcbTransport 16384) checkPass (failFont 180 90)
        [5, 6, 7]).calls = flushed ++ cut ∧
      cut.length ≤ 1 ∧
      (cut = [] ↔
        ∀ n, n < (Font_uploadGlyphs (xcbTransport 16384) checkPass (failFont 180 90)
          [5, 6, 7]).calls.length → checkPass n = true) ∧
      flushed.flatten = (pendingOf (failFont 180 90) [5, 6, 7]).take k ∧
      (pendingOf (failFont 180 90) [5, 6, 7] ≠ [] →
        k < (pendingOf (failFont 180 90) [5, 6, 7]).length) ∧
      (∀ g, isUploaded (Font_uploadGlyphs (xcbTransport 16384) checkPass (failFont 180 90)
          [5, 6, 7]).self.uploaded g = true ↔
        (isUploaded (failFont 180 90).uploaded g = true ∨ g ∈ flushed.flatten)) ∧
      (∀ g ∈ (pendingOf (failFont 180 90) [5, 6, 7]).drop k, g ∉ flushed.flatten →
        isUploaded (Font_uploadGlyphs (xcbTransport 16384) checkPass (failFont 180 90)
          [5, 6, 7]).self.uploaded g = false) :=
  ⟨by decide, by decide, by decide, by decide,
    C13_partial_progress (xcbTransport 16384) checkPass (failFont 180 90) [5, 6, 7]
      (by decide)⟩

/-- C13 as stated fails: the request names id 5 at positions 0 and 3; the batch holding
the first occurrence is flushed when id 6 arrives, the load of id 7 then fails, and the
call returns -1 with id 5, which is also a later requested id, marked. -/
theorem C13_later_duplicate_is_marked :
    (Font_uploadGlyphs (xcbTransport 16384) checkPass (failFont 180 90) [5, 6, 7, 5]).rc = -1 ∧
    batches (Font_uploadGlyphs (xcbTransport 16384) checkPass (failFont 180 90)
      [5, 6, 7, 5]).calls = [[5]] ∧
    [5, 6, 7, 5].get? 3 = some 5 ∧
    isUploaded (Font_uploadGlyphs (xcbTransport 16384) checkPass (failFont 180 90)
      [5, 6, 7, 5]).self.uploaded 5 = true ∧
    isUploaded (Font_uploadGlyphs (xcbTransport 16384) checkPass (failFont 180 90)
      [5, 6, 7, 5]).self.uploaded 6 = false := by
  refine ⟨by decide, by decide, by decide, by decide, by decide⟩

/-- C14 fails in the code: when the only entry tried, the default one, opens a face but
cannot size it, the search ends with `ismatch` clear and `Font_create` still returns a
handle, built on that face; when no entry opens a face at all, `Font_create` reads
`face->num_glyphs` through the never assigned `face`. -/
theorem C14_no_match_falls_through :
    (Font_create_match 0 12 [] unsizedCandidate).ismatch = false ∧
    (∃ self : Font, Font_create 0 12 0 [] unsizedCandidate = CreateResult.handle self ∧
      self.face.num_glyphs = 100 ∧ self.glyphidbits = 7 ∧ self.glyphidmask = 127) ∧
    (Font_create_match 0 12 [absentCandidate] absentCandidate).ismatch = false ∧
    Font_create 0 12 0 [absentCandidate] absentCandidate = CreateResult.uninitialisedFace := by
  refine ⟨by decide, ⟨_, rfl, rfl, rfl, rfl⟩, by decide, rfl⟩

/-- C15 (code defect): the gray branch calls `filter` with `nc = 1, c = 1`, so `fetch`
reads one byte to the right of the pixel it clamped to. On a gray handle at scale
exactly 1 and a 2 by 1 source bitmap with the bytes 10 and 20, output pixel `(0, 0)`
holds 20, the byte of source column 1, and output pixel `(1, 0)` holds the 99 found at
offset 2, outside the columns 0..1 of the row. -/
theorem C15_gray_reads_next_column :
    Font_create_handle 0 (strikeFace 2 1 0 grayBytes) 16 16 = some graySample ∧
    graySample.glyphtype = FontGlyphType.FGT_BITMAP_GRAY ∧
    filterKernel graySample = (1, 1, mid) ∧
    graySlot.width = 2 ∧ graySlot.rows = 1 ∧ graySlot.pitch = 2 ∧
    graySlot.buffer 0 = 10 ∧ graySlot.buffer 1 = 20 ∧
    (glyphMetrics graySample graySlot).width = 3 ∧
    (glyphMetrics graySample graySlot).height = 2 ∧
    (storeGlyph graySample graySlot (glyphMetrics graySample graySlot)
        (uploadInit graySample)).bitmapdata
      ((uploadInit graySample).bitmapdatapos
        + (0 * strideOf graySample (glyphMetrics graySample graySlot)) % 4294967296 + 0)
      = 20 ∧
    (storeGlyph graySample graySlot (glyphMetrics graySample graySlot)
        (uploadInit graySample)).bitmapdata
      ((uploadInit graySample).bitmapdatapos
        + (0 * strideOf graySample (glyphMetrics graySample graySlot)) % 4294967296 + 1)
      = 99 := by
  have hk : filterKernel graySample = (1, 1, mid) :=
    filterKernel_of_scale_one graySample (by show (16 : ℚ) ≠ 0; norm_num) rfl
  obtain ⟨hw, hh⟩ := glyphMetrics_graySample
  have hpix : ∀ x y, x < 3 → y < 2 →
      (storeGlyph graySample graySlot (glyphMetrics graySample graySlot)
        (uploadInit graySample)).bitmapdata
        ((uploadInit graySample).bitmapdatapos
          + (y * strideOf graySample (glyphMetrics graySample graySlot)) % 4294967296 + x)
      = graySlot.buffer (graySlot.pitch * ((min y (graySlot.rows - 1) : Nat) : Int)
          + ((min x (graySlot.width - 1) : Nat) : Int) + 1) := by
    intro x y hx hy
    exact writeGlyph_gray_scale_one graySample graySlot rfl
      (by show (16 : ℚ) ≠ 0; norm_num) rfl grayBytes_byte (by decide) (by decide)
      (glyphMetrics graySample graySlot) (by rw [hw]; norm_num) (by rw [hh]; norm_num)
      _ _ _ x y (by rw [hw]; exact hx) (by rw [hh]; exact hy)
  refine ⟨rfl, rfl, hk, rfl, rfl, rfl, rfl, rfl, hw, hh, ?_, ?_⟩
  · rw [hpix 0 0 (by norm_num) (by norm_num)]
    rfl
  · rw [hpix 1 0 (by norm_num) (by norm_num)]
    rfl

/-- C16 (code defect): a face with 10 glyphs and no sub-pixel bits gets
`glyphidbits = 4`, `subpixelbits = 0`. `Font_create` then evaluates `1U << (4 + 0 - 5)`,
a shift by -1, which has no defined value; no number of words times 32 gives the
`2^4` bits, although the ids 0..15 pass the range test of `Font_uploadGlyphs` and word 0
is read and written. -/
theorem C16_small_face_allocation_undefined :
    Font_create_handle 0 tinyFace 12 0 = some tinyFont ∧
    uploadedWords tinyFont.glyphidbits tinyFont.subpixelbits = none ∧
    (¬ ∃ words : Nat, words * 32 = 2 ^ (tinyFont.glyphidbits + tinyFont.subpixelbits)) ∧
    (Font_uploadGlyphs (xcbTransport 16384) checkPass tinyFont [15]).rc = 0 ∧
    (Font_uploadGlyphs (xcbTransport 16384) checkPass tinyFont [15]).self.uploaded (15 >>> 5)
      = 32768 := by
  refine ⟨rfl, by decide, ?_, by decide, by decide⟩
  rintro ⟨words, hw⟩
  have : words * 32 = 16 := hw
  omega

/-- C17: for every face glyph count `n` with `0 <= n < 2^32` the sizing loop of
`Font_create` terminates, with `glyphidmask = 2^glyphidbits - 1`, `n <= glyphidmask`, and
`glyphidbits` the smallest width from 1 on with that property: `glyphidbits = 1` or
`n > 2^(glyphidbits-1) - 1`. -/
theorem C17_glyphidbits_minimal (n : Nat) (hn : n < 4294967296) :
    ∃ glyphidbits glyphidmask,
      glyphidLoop (n : Int) glyphidFuel 1 1 = some (glyphidbits, glyphidmask) ∧
      glyphidmask = 2 ^ glyphidbits - 1 ∧
      n ≤ glyphidmask ∧
      1 ≤ glyphidbits ∧
      (glyphidbits = 1 ∨ n > 2 ^ (glyphidbits - 1) - 1) ∧
      ∀ k, 1 ≤ k → n ≤ 2 ^ k - 1 → glyphidbits ≤ k := by
  obtain ⟨g, hg, h1, _, hcov, hmin⟩ :=
    glyphidLoop_terminates n hn glyphidFuel 1 (by rfl) (Nat.le_refl 1) (Or.inl rfl)
  refine ⟨g, 2 ^ g - 1, hg, rfl, hcov, h1, hmin, ?_⟩
  intro k hk hnk
  rcases hmin with h | h
  · omega
  · by_contra hlt
    have hkg : k ≤ g - 1 := by omega
    have : 2 ^ k ≤ 2 ^ (g - 1) := Nat.pow_le_pow_right (by norm_num) hkg
    omega

/-- Witness for C17: a face with 100 glyphs gets 7 id bits and the mask 127. -/
theorem C17_glyphidbits_minimal_witness :
    glyphidLoop (100 : Int) glyphidFuel 1 1 = some (7, 127) ∧
    ∃ glyphidbits glyphidmask,
      glyphidLoop ((100 : Nat) : Int) glyphidFuel 1 1 = some (glyphidbits, glyphidmask) ∧
      glyphidmask = 2 ^ glyphidbits - 1 ∧
      100 ≤ glyphidmask ∧
      1 ≤ glyphidbits ∧
      (glyphidbits = 1 ∨ 100 > 2 ^ (glyphidbits - 1) - 1) ∧
      ∀ k, 1 ≤ k → 100 ≤ 2 ^ k - 1 → glyphidbits ≤ k :=
  ⟨by decide, C17_glyphidbits_minimal 100 (by decide)⟩

/-- C18 (amended): for every face, every bounding-box height `B` and every claimed line
height `C` below 2^31, `Font_create` sets `maxHeight = C` and `baseline` to the scaled
ascender when `B` is zero, or `C` is not zero and `B ≥ 2 * C`; otherwise it sets
`maxHeight = B` and `baseline` to the scaled `yMax`. -/
theorem C18_height_baseline_selection (mulFix : Int → Int → Int)
    (pixelsize fixedpixelsize : ℚ) (m : FaceMetrics) (B C : Nat)
    (hB : boxHeight mulFix pixelsize fixedpixelsize m = B)
    (hC : claimedHeight pixelsize fixedpixelsize m = C)
    (hlt : C < 2147483648) :
    ((B = 0 ∨ (C ≠ 0 ∧ 2 * C ≤ B)) →
      (Font_create_metrics mulFix pixelsize fixedpixelsize m).maxHeight = C ∧
      (Font_create_metrics mulFix pixelsize fixedpixelsize m).baseline =
        scaledAscender pixelsize fixedpixelsize m) ∧
    (¬ (B = 0 ∨ (C ≠ 0 ∧ 2 * C ≤ B)) →
      (Font_create_metrics mulFix pixelsize fixedpixelsize m).maxHeight = B ∧
      (Font_create_metrics mulFix pixelsize fixedpixelsize m).baseline =
        scaledYMax mulFix pixelsize fixedpixelsize m) := by
  have hshift : (C <<< 1) % 4294967296 = 2 * C := by
    rw [Nat.shiftLeft_eq, pow_one, Nat.mod_eq_of_lt (by omega)]
    omega
  rw [Font_create_metrics_eq, hB, hC, hshift]
  constructor
  · intro h
    rw [if_pos h]
    exact ⟨rfl, rfl⟩
  · intro h
    rw [if_neg h]
    exact ⟨rfl, rfl⟩

theorem C18_height_baseline_selection_witness :
    boxHeight mulFixRound 16 0 plainMetrics = 1200 ∧
    claimedHeight 16 0 plainMetrics = 1216 ∧
    (1216 : Nat) < 2147483648 ∧
    (((1200 : Nat) = 0 ∨ ((1216 : Nat) ≠ 0 ∧ 2 * 1216 ≤ 1200)) →
      (Font_create_metrics mulFixRound 16 0 plainMetrics).maxHeight = 1216 ∧
      (Font_create_metrics mulFixRound 16 0 plainMetrics).baseline =
        scaledAscender 16 0 plainMetrics) ∧
    (¬ ((1200 : Nat) = 0 ∨ ((1216 : Nat) ≠ 0 ∧ 2 * 1216 ≤ 1200)) →
      (Font_create_metrics mulFixRound 16 0 plainMetrics).maxHeight = 1200 ∧
      (Font_create_metrics mulFixRound 16 0 plainMetrics).baseline =
        scaledYMax mulFixRound 16 0 plainMetrics) :=
  ⟨by decide, by decide, by decide,
    C18_height_baseline_selection mulFixRound 16 0 plainMetrics 1200 1216
      (by decide) (by decide) (by decide)⟩

/-- C18 as stated fails: with a claimed height of 0 and a bounding-box height of 640,
which is at least twice the claimed height, `Font_create` keeps the bounding box:
`maxHeight` is 640, not the claimed 0, and `baseline` is the scaled `yMax` 640, not the
ascender 0. -/
theorem C18_zero_claimed_height_keeps_box :
    boxHeight mulFixRound 16 0 flatMetrics = 640 ∧
    claimedHeight 16 0 flatMetrics = 0 ∧
    640 ≥ 2 * claimedHeight 16 0 flatMetrics ∧
    (Font_create_metrics mulFixRound 16 0 flatMetrics).maxHeight = 640 ∧
    (Font_create_metrics mulFixRound 16 0 flatMetrics).baseline = 640 ∧
    scaledAscender 16 0 flatMetrics = 0 := by
  refine ⟨by decide, by decide, by decide, by decide, by decide, by decide⟩

/-- C19 (code defect): on a gray handle that scales a strike of size 24 to 8 pixels, a
glyph with `bitmap_left = 3` gets `glyphs[i].x = 21845`. The value `-3` enters
`Font_scale` through its `uint32_t` parameter as 4294967293, is scaled to 1431655765 and
cut to 16 bits, whereas `-3 * (8 / 24) + 1`, truncated, is 0. -/
theorem C19_positive_bearing_scaled_wrong :
    Font_create_handle 0 (strikeFace 4 4 3 (fun _ => 0)) 8 24
      = some (strikeFont 4 4 3 (fun _ => 0) 8 24) ∧
    (renderSlot (strikeFont 4 4 3 (fun _ => 0) 8 24) 1).bitmap_left = 3 ∧
    (glyphMetrics (strikeFont 4 4 3 (fun _ => 0) 8 24)
      (renderSlot (strikeFont 4 4 3 (fun _ => 0) 8 24) 1)).x = 21845 ∧
    ⌊((-3 : Int) : ℚ) * ((8 : ℚ) / 24) + 1⌋ = 0 := by
  refine ⟨rfl, rfl, ?_, ?_⟩
  · have hA : roundDouble ((8 : ℚ) / 24) = 6004799503160661 / 18014398509481984 := by
      rw [roundDouble_eq _ (-2) 6004799503160661 (by norm_num) (by norm_num [abs_of_pos])
        (by norm_num [abs_of_pos]) (by norm_num [abs_lt])]
      norm_num
    have hB : roundDouble (((4294967293 : Nat) : ℚ) * (6004799503160661 / 18014398509481984)) = 6004799498966357 / 4194304 := by
      rw [roundDouble_eq _ 30 6004799498966357 (by norm_num) (by norm_num [abs_of_pos])
        (by norm_num [abs_of_pos]) (by norm_num [abs_lt])]
      norm_num
    have hC : roundDouble ((6004799498966357 / 4194304 : ℚ) + 1) = 6004799503160661 / 4194304 := by
      rw [roundDouble_eq _ 30 6004799503160661 (by norm_num) (by norm_num [abs_of_pos])
        (by norm_num [abs_of_pos]) (by norm_num [abs_lt])]
      norm_num
    have hfloor : ⌊(6004799503160661 / 4194304 : ℚ)⌋ = 1431655765 := by
      rw [Int.floor_eq_iff]
      norm_num
    have h1 : toUInt32 (-(3 : Int)) = 4294967293 := by decide
    have hl : (renderSlot (strikeFont 4 4 3 (fun _ => 0) 8 24) 1).bitmap_left = 3 := rfl
    have hp : (strikeFont 4 4 3 (fun _ => 0) 8 24).pixelsize = 8 := rfl
    have hf : (strikeFont 4 4 3 (fun _ => 0) 8 24).fixedpixelsize = 24 := rfl
    rw [glyphMetrics_x, hl, h1, Font_scale_of_scaled _ (by rw [hf]; norm_num), hp, hf,
      hA, hB, hC, hfloor]
    decide
  · rw [Int.floor_eq_iff]
    norm_num

/-- C20: for every handle and every array of in-range composite ids, if
`Font_uploadGlyphs` returns 0 then afterwards every requested id has its bit set in
`uploaded[]`, and every bit of `uploaded[]` that differs from before the call is the bit
of a requested id (word `id >> 5`, bit `id & 0x1f`). -/
theorem C20_success_uploads_all (T : Transport) (check : Nat → Bool) (self : Font)
    (glyphinfo : List Nat)
    (hr : ∀ g ∈ glyphinfo, g ≤ (self.glyphidmask ||| self.subpixelmask))
    (h0 : (Font_uploadGlyphs T check self glyphinfo).rc = 0) :
    (∀ g ∈ glyphinfo,
      isUploaded (Font_uploadGlyphs T check self glyphinfo).self.uploaded g = true) ∧
    (∀ w b, ((Font_uploadGlyphs T check self glyphinfo).self.uploaded w).testBit b
        ≠ (self.uploaded w).testBit b →
      ∃ g ∈ glyphinfo, g >>> 5 = w ∧ g &&& 31 = b) := by
  refine ⟨fun g hg => isUploaded_after_success hr h0 hg, ?_⟩
  intro w b hdiff
  rw [(Font_uploadGlyphs_success hr h0).2] at hdiff
  obtain ⟨g, hg, hgw⟩ := testBit_foldl_markUploaded _ _ w b hdiff
  unfold pendingOf at hg
  exact ⟨g, (List.mem_filter.mp hg).1, hgw⟩

/-- Witness for C20: glyphs 5, 6 and 70 on a handle that has glyph 5 uploaded. -/
theorem C20_success_uploads_all_witness :
    (Font_uploadGlyphs (xcbTransport 16384) checkPass sampleUploaded [5, 6, 70]).rc = 0 ∧
    (Font_uploadGlyphs (xcbTransport 16384) checkPass sampleUploaded [5, 6, 70]).self.uploaded 0
      = 96 ∧
    (Font_uploadGlyphs (xcbTransport 16384) checkPass sampleUploaded [5, 6, 70]).self.uploaded 2
      = 64 ∧
    (∀ g ∈ [5, 6, 70],
      isUploaded (Font_uploadGlyphs (xcbTransport 16384) checkPass sampleUploaded
        [5, 6, 70]).self.uploaded g = true) ∧
    (∀ w b, ((Font_uploadGlyphs (xcbTransport 16384) checkPass sampleUploaded
        [5, 6, 70]).self.uploaded w).testBit b ≠ (sampleUploaded.uploaded w).testBit b →
      ∃ g ∈ [5, 6, 70], g >>> 5 = w ∧ g &&& 31 = b) :=
  ⟨by decide, by decide, by decide,
    C20_success_uploads_all (xcbTransport 16384) checkPass sampleUploaded [5, 6, 70]
      (by decide) (by decide)⟩

end Xmoji
